import Mathlib

/-!
# Verification of the native integrity checker (CRC32.h, check_env_utils.cpp, rasp_detector.cpp)

Shallow embedding of the checksum, map-reader, segment-verifier and aggregator code,
followed by the theorems that settle the specification claims.

Conventions of the embedding:
* `uint32_t` / `uint64_t` values are `Nat`; wrap-around is written out where the
  source can overflow (`end - start`).
* `uint8_t` buffers are lists of `Byte` (`Fin 256`).
* C strings are `List Char` (the characters before the terminating NUL).
* the static variables of `CRC32.h` are passed explicitly as `CrcGlobals`.
-/

/-! ## CRC32.h -/

/-- A `uint8_t`. -/
abbrev Byte := Fin 256

/-- The two static variables of CRC32.h: `crc32_table[256]` and `crc32_table_computed`. -/
structure CrcGlobals where
  crc32_table : List Nat
  crc32_table_computed : Nat
deriving DecidableEq, Repr

/-- Static initialisation: a zeroed table and a cleared flag. -/
def crc32_globals_init : CrcGlobals :=
  { crc32_table := List.replicate 256 0, crc32_table_computed := 0 }

/-- Body of the inner `k` loop of `generate_crc32_table`:
`if (c & 1) c = 0xEDB88320L ^ (c >> 1); else c = c >> 1;`. -/
def crc32_bit_step (c : Nat) : Nat :=
  if c &&& 1 ≠ 0 then 0xEDB88320 ^^^ (c >>> 1) else c >>> 1

/-- Value stored in `crc32_table[n]`: `c = n`, then the `k` loop runs 8 times. -/
def crc32_table_entry (n : Nat) : Nat :=
  (List.range 8).foldl (fun c _ => crc32_bit_step c) n

/-- The function `generate_crc32_table`: the `n` loop writes all 256 slots, then the flag is set. -/
def generate_crc32_table (g : CrcGlobals) : CrcGlobals :=
  { crc32_table :=
      (List.range 256).foldl (fun t n => t.set n (crc32_table_entry n)) g.crc32_table,
    crc32_table_computed := 1 }

/-- The function `crc32_update`: builds the table on first use, then one table lookup per byte,
`c = crc32_table[(c ^ buf[n]) & 0xff] ^ (c >> 8)`. Returns the new `c` and the globals. -/
def crc32_update (g : CrcGlobals) (crc : Nat) (buf : List Byte) : Nat × CrcGlobals :=
  let g1 := if g.crc32_table_computed = 0 then generate_crc32_table g else g
  (buf.foldl (fun c b => g1.crc32_table.getD ((c ^^^ b.val) &&& 0xff) 0 ^^^ (c >>> 8)) crc, g1)

/-- The function `crc32`: `crc32_update(0xffffffffL, buf, len) ^ 0xffffffffL`. -/
def crc32 (g : CrcGlobals) (buf : List Byte) : Nat × CrcGlobals :=
  let r := crc32_update g 0xffffffff buf
  (r.1 ^^^ 0xffffffff, r.2)

/-- States of the static variables that the program can reach: the static initial state, and
any state left behind by a call of `crc32_update` (the only code that writes them). -/
inductive CrcReachable : CrcGlobals → Prop
  | init : CrcReachable crc32_globals_init
  | update (g : CrcGlobals) (crc : Nat) (buf : List Byte) :
      CrcReachable g → CrcReachable (crc32_update g crc buf).2

/-- Invariant of the static variables: the flag is set only when the table has been generated. -/
def CrcTableOk (g : CrcGlobals) : Prop :=
  g.crc32_table.length = 256 ∧
  (g.crc32_table_computed ≠ 0 → ∀ i, i < 256 → g.crc32_table.getD i 0 = crc32_table_entry i)

/-! ### CRC-32/ISO-HDLC, bit by bit (reference definition, written from the specification) -/

/-- One bit of the reference CRC: shift right by one bit and XOR with 0xEDB88320 when the bit
shifted out is 1. -/
def crc32_spec_bit (c : Nat) : Nat :=
  let out := c % 2
  let shifted := c / 2
  if out = 1 then shifted ^^^ 0xEDB88320 else shifted

/-- One byte of the reference CRC: XOR the byte into the low 8 bits, then 8 bit steps. -/
def crc32_spec_byte (c : Nat) (b : Byte) : Nat :=
  Nat.iterate crc32_spec_bit 8 (c ^^^ b.val)

/-- The reference CRC-32/ISO-HDLC: start from 0xFFFFFFFF, fold the bytes, final XOR with
0xFFFFFFFF. -/
def crc32_spec (buf : List Byte) : Nat :=
  buf.foldl crc32_spec_byte 0xFFFFFFFF ^^^ 0xFFFFFFFF

/-- The nine bytes of the ASCII string "123456789". -/
def check_vector : List Byte := [49, 50, 51, 52, 53, 54, 55, 56, 57]

/-! ## C strings and the libc routines the sources call -/

/-- The C string held in a character buffer: the characters before the first NUL. -/
def c_str (buf : List Char) : List Char :=
  buf.takeWhile (fun c => c ≠ '\x00')

/-- The libc `strstr`: the suffix of `hay` that starts at the first occurrence of `needle`,
`none` for NULL. -/
def strstr : List Char → List Char → Option (List Char)
  | [], needle => if needle.isEmpty then some [] else none
  | c :: cs, needle =>
    if needle.isPrefixOf (c :: cs) then some (c :: cs) else strstr cs needle

/-- The libc `strchr`: the suffix of `s` that starts at the first `c`, `none` for NULL. -/
def strchr : List Char → Char → Option (List Char)
  | [], _ => none
  | x :: xs, c => if x = c then some (x :: xs) else strchr xs c

/-- The libc `strrchr`: the suffix of `s` that starts at the last `c`, `none` for NULL. -/
def strrchr : List Char → Char → Option (List Char)
  | [], _ => none
  | x :: xs, c =>
    match strrchr xs c with
    | some r => some r
    | none => if x = c then some (x :: xs) else none

/-- The libc `isspace` in the C locale. -/
def isspace (c : Char) : Bool :=
  c = ' ' || c = '\t' || c = '\n' || c = '\x0b' || c = '\x0c' || c = '\r'

/-- One call of `fgets` with `n` characters of room left: reads through the first newline or
until the room is used up. Returns the characters read and the rest of the stream. -/
def fgets_take : Nat → List Char → List Char × List Char
  | 0, s => ([], s)
  | _ + 1, [] => ([], [])
  | n + 1, c :: cs =>
    if c = '\n' then ([c], cs)
    else ((c :: (fgets_take n cs).1), (fgets_take n cs).2)

/-- The libc `fgets(line, size, fp)`: `none` (NULL) at end of file, otherwise the buffer read
(at most `size - 1` characters, ending after a newline) and the rest of the stream. -/
def fgets (size : Nat) (stream : List Char) : Option (List Char × List Char) :=
  match stream with
  | [] => none
  | _ :: _ => some (fgets_take (size - 1) stream)

/-- The buffers seen by a `while (fgets(line, size, fp))` loop that runs to end of file, as C
strings. `fuel` bounds the number of calls; every call consumes a character when `size ≥ 2`. -/
def read_lines_fuel (size : Nat) : Nat → List Char → List (List Char)
  | 0, _ => []
  | fuel + 1, stream =>
    match fgets size stream with
    | none => []
    | some (line, rest) => c_str line :: read_lines_fuel size fuel rest

/-- All buffers of a `while (fgets(line, size, fp))` loop over a stream. -/
def read_lines (size : Nat) (stream : List Char) : List (List Char) :=
  read_lines_fuel size stream.length stream

/-! ### `sscanf` for the directives used in the sources

Subject sequences follow the C standard (`%lx` as `strtoul` with base 16, `%s` a run of
non-white-space characters). A value that does not fit `unsigned long` is stored as
`ULONG_MAX`, and "0x" without a following digit converts the "0", as the Android libc does. -/

/-- Value of a hexadecimal digit, `none` for any other character. -/
def hex_digit (c : Char) : Option Nat :=
  if '0' ≤ c ∧ c ≤ '9' then some (c.toNat - 48)
  else if 'a' ≤ c ∧ c ≤ 'f' then some (c.toNat - 87)
  else if 'A' ≤ c ∧ c ≤ 'F' then some (c.toNat - 55)
  else none

/-- Longest run of hexadecimal digits at the start of the input, and the rest. -/
def take_hex : List Char → List Nat × List Char
  | [] => ([], [])
  | c :: cs =>
    match hex_digit c with
    | some d => (d :: (take_hex cs).1, (take_hex cs).2)
    | none => ([], c :: cs)

/-- Number denoted by a list of hexadecimal digit values. -/
def hex_digits_value (ds : List Nat) : Nat :=
  ds.foldl (fun a d => a * 16 + d) 0

/-- Conversion to `unsigned long`: saturates at `ULONG_MAX`, negates modulo 2^64 after '-'. -/
def to_ulong (neg : Bool) (v : Nat) : Nat :=
  if v ≥ 2 ^ 64 then 2 ^ 64 - 1
  else if neg then (2 ^ 64 - v) % 2 ^ 64
  else v

/-- Digits of a `%lx` subject after the sign: an optional "0x"/"0X" and hexadecimal digits. -/
def scan_lx_digits (neg : Bool) (s : List Char) : Option (Nat × List Char) :=
  match s with
  | '0' :: x :: t =>
    if x = 'x' ∨ x = 'X' then
      (if (take_hex t).1 = [] then some (0, x :: t)
       else some (to_ulong neg (hex_digits_value (take_hex t).1), (take_hex t).2))
    else
      some (to_ulong neg (hex_digits_value (take_hex s).1), (take_hex s).2)
  | _ =>
    if (take_hex s).1 = [] then none
    else some (to_ulong neg (hex_digits_value (take_hex s).1), (take_hex s).2)

/-- The directive `%lx`: skips white space, then an optionally signed hexadecimal number. -/
def scan_lx (s : List Char) : Option (Nat × List Char) :=
  match s.dropWhile isspace with
  | '-' :: t => scan_lx_digits true t
  | '+' :: t => scan_lx_digits false t
  | t => scan_lx_digits false t

/-- At most `width` leading non-white-space characters, and the rest. -/
def take_nonspace : Nat → List Char → List Char × List Char
  | 0, s => ([], s)
  | _ + 1, [] => ([], [])
  | n + 1, c :: cs =>
    if isspace c then ([], c :: cs)
    else (c :: (take_nonspace n cs).1, (take_nonspace n cs).2)

/-- The directive `%<width>s`: skips white space, then reads up to `width` non-white-space
characters; fails at the end of the input. -/
def scan_s (width : Nat) (s : List Char) : Option (List Char × List Char) :=
  if (take_nonspace width (s.dropWhile isspace)).1 = [] then none
  else some (take_nonspace width (s.dropWhile isspace))

/-- A directive of a `sscanf` format string. -/
inductive ScanDirective where
  | lx
  | lit (c : Char)
  | ws
  | s (width : Nat)
  | skip_s
deriving DecidableEq, Repr

/-- A value stored by `sscanf` through one of its pointer arguments. -/
inductive ScanValue where
  | num (v : Nat)
  | str (v : List Char)
deriving DecidableEq, Repr

/-- The libc `sscanf`: runs the directives over the input and stops at the first failure.
Returns the values assigned, in order; their number is the return value of `sscanf` (an `EOF`
return is rendered as no assignment: the callers only compare the count with 3 or 4). -/
def sscanf : List ScanDirective → List Char → List ScanValue
  | [], _ => []
  | ScanDirective.lx :: ds, s =>
    match scan_lx s with
    | none => []
    | some (v, r) => ScanValue.num v :: sscanf ds r
  | ScanDirective.lit c :: ds, s =>
    match s with
    | [] => []
    | x :: r => if x = c then sscanf ds r else []
  | ScanDirective.ws :: ds, s => sscanf ds (s.dropWhile isspace)
  | ScanDirective.s w :: ds, s =>
    match scan_s w s with
    | none => []
    | some (v, r) => ScanValue.str v :: sscanf ds r
  | ScanDirective.skip_s :: ds, s =>
    match scan_s s.length s with
    | none => []
    | some (_, r) => sscanf ds r

/-! ## check_env_utils.h -/

/-- The macro `self_maps`. -/
def self_maps : List Char := "/proc/self/maps".toList

/-- The macro `self_smaps`. -/
def self_smaps : List Char := "/proc/self/smaps".toList

/-- The macro `self_mem`. -/
def self_mem : List Char := "/proc/self/mem".toList

/-- The macro `self_task`. -/
def self_task : List Char := "/proc/self/task".toList

/-- The macro `APP_NAME`. -/
def APP_NAME : List Char := "env".toList

/-- The macro `MAX_LINE`. -/
def MAX_LINE : Nat := 256

/-- The struct `map_info`. -/
structure map_info where
  start : Nat
  size : Nat
  offset : Nat
  pathname : List Char
deriving DecidableEq, Repr

/-! ## The process environment

Everything the code reads from the operating system, as seen during one call. -/

/-- A file as `mmap(NULL, file_size, PROT_READ, MAP_PRIVATE, fd, 0)` presents it: its size and
the byte at each offset from the start of the mapping. -/
structure FileImage where
  size : Nat
  byte : Nat → Byte

/-- The environment of a call. -/
structure World where
  /-- The call `fopen(path, "r")`: the text of the file, `none` when it returns NULL. -/
  fopen : List Char → Option (List Char)
  /-- The call `open(path, O_RDONLY)`: the file, `none` when it returns -1. -/
  open_file : List Char → Option FileImage
  /-- Whether `mmap` of the whole file at that path succeeds (it never does for length 0). -/
  mmap_ok : List Char → Bool
  /-- The byte at an address of the process. -/
  mem : Nat → Byte
  /-- Whether `mprotect(addr, len, prot)` succeeds. -/
  mprotect_ok : Nat → Nat → Nat → Bool
  /-- The module names reported by `dl_iterate_phdr`, in order. -/
  modules : List (List Char)
  /-- Whether `open("/proc/self/mem", O_RDONLY)` succeeds. -/
  mem_open_ok : Bool
  /-- Whether `malloc(size)` succeeds. -/
  malloc_ok : Nat → Bool
  /-- The bytes delivered by `lseek` + `read` on `/proc/self/mem` at an address for a size;
  `none` when `lseek` fails or `read` returns 0 or less. -/
  mem_read : Nat → Nat → Option (List Byte)
  /-- The entry names of `opendir(path)` in `readdir` order, `none` when it returns NULL. -/
  opendir : List Char → Option (List (List Char))

/-! ## check_env_utils.cpp: the map reader -/

/-- The format `"%lx-%lx %4s %lx %*s %*s %255s"` of `find_info_from_maps`. -/
def maps_line_format : List ScanDirective :=
  [ScanDirective.lx, ScanDirective.lit '-', ScanDirective.lx, ScanDirective.ws,
   ScanDirective.s 4, ScanDirective.ws, ScanDirective.lx, ScanDirective.ws,
   ScanDirective.skip_s, ScanDirective.ws, ScanDirective.skip_s, ScanDirective.ws,
   ScanDirective.s 255]

/-- The initial value `{0, 0, 0, ""}` of `info`. -/
def map_info_zero : map_info := { start := 0, size := 0, offset := 0, pathname := [] }

/-- The body of the `while (fgets(line, sizeof(line), maps))` loop of `find_info_from_maps`, over
the buffers still to come: the first line with `fields >= 4` whose `perms` contains `perm` and
whose `pathname` contains `soname` fills `info` and breaks. `pathname` is the empty string when
`sscanf` stored only four values. -/
def find_info_loop (soname perm : List Char) : List (List Char) → map_info
  | [] => map_info_zero
  | line :: rest =>
    match sscanf maps_line_format line with
    | [ScanValue.num start, ScanValue.num end_, ScanValue.str perms, ScanValue.num offset] =>
      if (strstr perms perm).isSome ∧ (strstr [] soname).isSome then
        { start := start, size := (end_ + 2 ^ 64 - start) % 2 ^ 64, offset := offset,
          pathname := [] }
      else find_info_loop soname perm rest
    | [ScanValue.num start, ScanValue.num end_, ScanValue.str perms, ScanValue.num offset,
        ScanValue.str pathname] =>
      if (strstr perms perm).isSome ∧ (strstr pathname soname).isSome then
        { start := start, size := (end_ + 2 ^ 64 - start) % 2 ^ 64, offset := offset,
          pathname := pathname.take 255 }
      else find_info_loop soname perm rest
    | _ => find_info_loop soname perm rest

/-- The function `find_info_from_maps`: the zero-valued `info` when the map cannot be opened,
otherwise the result of the line loop over `/proc/self/maps` read with a 512-byte buffer. -/
def find_info_from_maps (w : World) (soname perm : List Char) : map_info :=
  match w.fopen self_maps with
  | none => map_info_zero
  | some maps => find_info_loop soname perm (read_lines 512 maps)

/-! ## ELF64 files

Constants and field offsets of `<linux/elf.h>` and `<sys/mman.h>`, which the sources include.
The mapped file is read little-endian. -/

/-- The constant `PT_LOAD`. -/
def PT_LOAD : Nat := 1

/-- The constant `PF_X`. -/
def PF_X : Nat := 1

/-- The constant `PF_W`. -/
def PF_W : Nat := 2

/-- The constant `PROT_READ`. -/
def PROT_READ : Nat := 1

/-- The constant `PROT_WRITE`. -/
def PROT_WRITE : Nat := 2

/-- The constant `PROT_EXEC`. -/
def PROT_EXEC : Nat := 4

/-- The constant `ELFMAG`, the `SELFMAG = 4` bytes `"\177ELF"`. -/
def ELFMAG : List Nat := [0x7f, 0x45, 0x4c, 0x46]

/-- The byte of the mapped file at an offset. -/
def rd_byte (file : FileImage) (off : Nat) : Nat :=
  (file.byte off).val

/-- The little-endian unsigned integer of `n` bytes at an offset of the mapped file. -/
def rd_le (file : FileImage) : Nat → Nat → Nat
  | _, 0 => 0
  | off, n + 1 => rd_byte file off + 256 * rd_le file (off + 1) n

/-- The first `SELFMAG` bytes of `e_ident`. -/
def e_ident_magic (file : FileImage) : List Nat :=
  [rd_byte file 0, rd_byte file 1, rd_byte file 2, rd_byte file 3]

/-- The field `e_phoff` of the `Elf64_Ehdr` at the start of the file. -/
def e_phoff (file : FileImage) : Nat := rd_le file 32 8

/-- The field `e_phnum` of the `Elf64_Ehdr` at the start of the file. -/
def e_phnum (file : FileImage) : Nat := rd_le file 56 2

/-- Offset in the file of `phdr[i]`; `sizeof(Elf64_Phdr)` is 56. -/
def phdr_at (file : FileImage) (i : Nat) : Nat := e_phoff file + 56 * i

/-- The field `phdr[i].p_type`. -/
def p_type (file : FileImage) (i : Nat) : Nat := rd_le file (phdr_at file i) 4

/-- The field `phdr[i].p_flags`. -/
def p_flags (file : FileImage) (i : Nat) : Nat := rd_le file (phdr_at file i + 4) 4

/-- The field `phdr[i].p_offset`. -/
def p_offset (file : FileImage) (i : Nat) : Nat := rd_le file (phdr_at file i + 8) 8

/-- The field `phdr[i].p_memsz`. -/
def p_memsz (file : FileImage) (i : Nat) : Nat := rd_le file (phdr_at file i + 40) 8

/-- The `len` bytes of the mapped file from offset `off`: the buffer
`(uint8_t *)file_data + off`. -/
def file_bytes (file : FileImage) (off len : Nat) : List Byte :=
  (List.range len).map (fun k => file.byte (off + k))

/-- The `len` bytes of process memory from address `addr`. -/
def mem_bytes (w : World) (addr len : Nat) : List Byte :=
  (List.range len).map (fun k => w.mem (addr + k))

/-! ## check_env_utils.cpp: the segment integrity verifier -/

/-- Acquisition and release of the descriptor and of the mapping of the on-disk file. -/
inductive SysEvent where
  | open_fd (path : List Char)
  | close_fd
  | mmap_file
  | munmap_file
deriving DecidableEq, Repr

/-- Outcome of a call: the returned `int`, the static variables afterwards, and the
descriptor and mapping events of the call in order. -/
structure Ret where
  ret : Int
  globals : CrcGlobals
  events : List SysEvent
deriving DecidableEq, Repr

/-- The locals written by the program-header loop of `check_lib_integrity`. -/
structure SegScan where
  exec_disk_crc : Nat
  data_disk_crc : Nat
  exec_segment_size : Nat
  data_segment_size : Nat
  found_exec : Bool
  found_data : Bool
deriving DecidableEq, Repr

/-- The locals before the loop: all zero. -/
def seg_scan_init : SegScan :=
  { exec_disk_crc := 0, data_disk_crc := 0, exec_segment_size := 0, data_segment_size := 0,
    found_exec := false, found_data := false }

/-- Iteration `i` of the program-header loop of `check_lib_integrity`. -/
def phdr_step (file : FileImage) (exec_info data_info : map_info)
    (acc : SegScan × CrcGlobals) (i : Nat) : SegScan × CrcGlobals :=
  if p_type file i = PT_LOAD then
    if p_flags file i &&& PF_X ≠ 0 ∧ p_offset file i = exec_info.offset then
      let r := crc32 acc.2 (file_bytes file (p_offset file i) (p_memsz file i))
      ({ acc.1 with
          exec_disk_crc := r.1, exec_segment_size := p_memsz file i, found_exec := true },
       r.2)
    else if p_flags file i &&& PF_W ≠ 0 ∧ data_info.start ≠ 0
        ∧ p_offset file i = data_info.offset then
      let r := crc32 acc.2 (file_bytes file (p_offset file i) (p_memsz file i))
      ({ acc.1 with
          data_disk_crc := r.1, data_segment_size := p_memsz file i, found_data := true },
       r.2)
    else acc
  else acc

/-- The program-header loop `for (int i = 0; i < ehdr->e_phnum; i++)`. -/
def scan_phdrs (file : FileImage) (exec_info data_info : map_info) (g : CrcGlobals) :
    SegScan × CrcGlobals :=
  (List.range (e_phnum file)).foldl (phdr_step file exec_info data_info) (seg_scan_init, g)

/-- The events of a call that mapped the file: opened, mapped, closed, unmapped. -/
def mapped_events (path : List Char) : List SysEvent :=
  [SysEvent.open_fd path, SysEvent.mmap_file, SysEvent.close_fd, SysEvent.munmap_file]

/-- The part of `check_lib_integrity` after the program-header loop found the executable
segment: live checksums, comparison and verdict. The result of the first `mprotect` is not
used by the source; the data segment is read only when the second `mprotect` succeeded. -/
def compare_segments (w : World) (exec_info data_info : map_info) (sc : SegScan)
    (g : CrcGlobals) : Int × CrcGlobals :=
  let _exec_prot := w.mprotect_ok exec_info.start sc.exec_segment_size (PROT_READ ||| PROT_EXEC)
  let exec_mem := crc32 g (mem_bytes w exec_info.start sc.exec_segment_size)
  let data : Bool × CrcGlobals :=
    if sc.found_data = true ∧ data_info.start ≠ 0 then
      if w.mprotect_ok data_info.start sc.data_segment_size (PROT_READ ||| PROT_WRITE)
          = false then
        (false, exec_mem.2)
      else
        let data_mem := crc32 exec_mem.2 (mem_bytes w data_info.start sc.data_segment_size)
        (decide (sc.data_disk_crc ≠ data_mem.1), data_mem.2)
    else (false, exec_mem.2)
  if exec_mem.1 ≠ sc.exec_disk_crc then (1, data.2)
  else if data.1 = true then (1, data.2)
  else (0, data.2)

/-- The function `check_lib_integrity`. -/
def check_lib_integrity (w : World) (g : CrcGlobals) (soname : List Char) : Ret :=
  let exec_info := find_info_from_maps w soname "x".toList
  if exec_info.start = 0 ∧ exec_info.size = 0 then
    { ret := -1, globals := g, events := [] }
  else
    let data_info := find_info_from_maps w soname "rw".toList
    match w.open_file exec_info.pathname with
    | none => { ret := -1, globals := g, events := [] }
    | some file =>
      if file.size = 0 ∨ w.mmap_ok exec_info.pathname = false then
        { ret := -1, globals := g,
          events := [SysEvent.open_fd exec_info.pathname, SysEvent.close_fd] }
      else if e_ident_magic file ≠ ELFMAG then
        { ret := -1, globals := g, events := mapped_events exec_info.pathname }
      else
        let sc := scan_phdrs file exec_info data_info g
        if sc.1.found_exec = false then
          { ret := -1, globals := sc.2, events := mapped_events exec_info.pathname }
        else
          let verdict := compare_segments w exec_info data_info sc.1 sc.2
          { ret := verdict.1, globals := verdict.2,
            events := mapped_events exec_info.pathname }

/-- The function `check_all_libs_integrity`, over the names before the terminating NULL. -/
def check_all_libs_integrity (w : World) (g : CrcGlobals) : List (List Char) → Ret
  | [] => { ret := 0, globals := g, events := [] }
  | soname :: rest =>
    let r := check_lib_integrity w g soname
    if r.ret = -1 then
      let later := check_all_libs_integrity w r.globals rest
      { ret := later.ret, globals := later.globals, events := r.events ++ later.events }
    else if r.ret = 1 then
      { ret := 1, globals := r.globals, events := r.events }
    else
      let later := check_all_libs_integrity w r.globals rest
      { ret := later.ret, globals := later.globals, events := r.events ++ later.events }

/-! ### Closed forms used to state the behaviour of the verifier -/

/-- Whether `phdr[i]` takes the first branch of the loop body: a PT_LOAD entry with PF_X set
whose `p_offset` equals the offset of the executable mapping. -/
def is_exec_entry (file : FileImage) (exec_info : map_info) (i : Nat) : Bool :=
  decide (p_type file i = PT_LOAD ∧ p_flags file i &&& PF_X ≠ 0
    ∧ p_offset file i = exec_info.offset)

/-- Whether `phdr[i]` takes the second branch of the loop body: a PT_LOAD entry that does not
take the first branch, has PF_W set and whose `p_offset` equals the offset of the writable
mapping, the writable mapping having a non-zero start. -/
def is_data_entry (file : FileImage) (exec_info data_info : map_info) (i : Nat) : Bool :=
  decide (p_type file i = PT_LOAD
    ∧ ¬ (p_flags file i &&& PF_X ≠ 0 ∧ p_offset file i = exec_info.offset)
    ∧ p_flags file i &&& PF_W ≠ 0 ∧ data_info.start ≠ 0
    ∧ p_offset file i = data_info.offset)

/-- The last index below `n` that satisfies `p`: the loop overwrites its locals at every
matching entry, so the values after the loop come from this one. -/
def last_entry (p : Nat → Bool) : Nat → Option Nat
  | 0 => none
  | n + 1 => if p n then some n else last_entry p n

/-- The reference CRC of the bytes of the file that `phdr[i]` describes: `p_memsz` bytes
from `p_offset`. -/
def disk_crc (file : FileImage) (i : Nat) : Nat :=
  crc32_spec (file_bytes file (p_offset file i) (p_memsz file i))

/-- The reference CRC of the live bytes at `addr`, over the `p_memsz` of `phdr[i]`. -/
def live_crc (w : World) (file : FileImage) (i : Nat) (addr : Nat) : Nat :=
  crc32_spec (mem_bytes w addr (p_memsz file i))

/-- Closed form of the locals after the first `n` iterations of the program-header loop. -/
def scan_phdrs_spec (file : FileImage) (exec_info data_info : map_info) (n : Nat) : SegScan :=
  { exec_disk_crc :=
      match last_entry (is_exec_entry file exec_info) n with
      | some i => disk_crc file i
      | none => 0,
    data_disk_crc :=
      match last_entry (is_data_entry file exec_info data_info) n with
      | some j => disk_crc file j
      | none => 0,
    exec_segment_size :=
      match last_entry (is_exec_entry file exec_info) n with
      | some i => p_memsz file i
      | none => 0,
    data_segment_size :=
      match last_entry (is_data_entry file exec_info data_info) n with
      | some j => p_memsz file j
      | none => 0,
    found_exec := (last_entry (is_exec_entry file exec_info) n).isSome,
    found_data := (last_entry (is_data_entry file exec_info data_info) n).isSome }

/-- Closed form of the value returned by `compare_segments`. -/
def compare_segments_spec (w : World) (exec_info data_info : map_info) (sc : SegScan) : Int :=
  if crc32_spec (mem_bytes w exec_info.start sc.exec_segment_size) ≠ sc.exec_disk_crc then 1
  else if sc.found_data = true ∧ data_info.start ≠ 0
      ∧ w.mprotect_ok data_info.start sc.data_segment_size (PROT_READ ||| PROT_WRITE) = true
      ∧ sc.data_disk_crc ≠ crc32_spec (mem_bytes w data_info.start sc.data_segment_size) then 1
  else 0

/-- Closed form of the value returned by `check_lib_integrity`. -/
def lib_verdict (w : World) (soname : List Char) : Int :=
  let exec_info := find_info_from_maps w soname "x".toList
  if exec_info.start = 0 ∧ exec_info.size = 0 then -1
  else
    match w.open_file exec_info.pathname with
    | none => -1
    | some file =>
      if file.size = 0 ∨ w.mmap_ok exec_info.pathname = false then -1
      else if e_ident_magic file ≠ ELFMAG then -1
      else if (last_entry (is_exec_entry file exec_info) (e_phnum file)).isSome = false then -1
      else
        compare_segments_spec w exec_info (find_info_from_maps w soname "rw".toList)
          (scan_phdrs_spec file exec_info (find_info_from_maps w soname "rw".toList)
            (e_phnum file))

/-- Closed form of the descriptor and mapping events of a call of `check_lib_integrity`. -/
def lib_events (w : World) (soname : List Char) : List SysEvent :=
  let exec_info := find_info_from_maps w soname "x".toList
  if exec_info.start = 0 ∧ exec_info.size = 0 then []
  else
    match w.open_file exec_info.pathname with
    | none => []
    | some file =>
      if file.size = 0 ∨ w.mmap_ok exec_info.pathname = false then
        [SysEvent.open_fd exec_info.pathname, SysEvent.close_fd]
      else mapped_events exec_info.pathname

/-! ## check_env_utils.cpp: the heuristic scanners -/

/-- The function `is_linker_sensitive`; a NULL pointer argument is `none`. -/
def is_linker_sensitive (soname : Option (List Char))
    (sensitive_words : Option (List (List Char))) : Int :=
  match soname, sensitive_words with
  | some name, some words =>
    if words.any (fun word => (strstr name word).isSome) then 1 else 0
  | _, _ => -1

/-- The line loop of `is_maps_sensitive`: 1 at the first line containing one of the words. -/
def maps_sensitive_loop (words : List (List Char)) : List (List Char) → Int
  | [] => 0
  | line :: rest =>
    if words.any (fun word => (strstr line word).isSome) then 1
    else maps_sensitive_loop words rest

/-- The function `is_maps_sensitive`; a NULL word list is `none`. -/
def is_maps_sensitive (w : World) (sensitive_words : Option (List (List Char)))
    (map_name : List Char) : Int :=
  match sensitive_words with
  | none => -1
  | some words =>
    if words.length = 0 then -1
    else
      match w.fopen map_name with
      | none => -1
      | some text => maps_sensitive_loop words (read_lines MAX_LINE text)

/-- The test `strstr(line, "r-xp") != NULL || strstr(line, "--xp") != NULL`. -/
def line_is_executable (line : List Char) : Bool :=
  (strstr line "r-xp".toList).isSome || (strstr line "--xp".toList).isSome

/-- The nested tests of `has_anon_exec_memory` on a line: no '/', a newline, and after the
newline is overwritten with NUL the last space is the last character. -/
def line_is_anonymous (line : List Char) : Bool :=
  match strchr line '/' with
  | some _ => false
  | none =>
    match strchr line '\n' with
    | none => false
    | some _ =>
      match strrchr (line.takeWhile (fun c => c ≠ '\n')) ' ' with
      | none => false
      | some last_space => last_space.drop 1 = []

/-- The locals `in_block`, `is_executable`, `is_anonymous` of `has_anon_exec_memory`. -/
structure BlockState where
  in_block : Bool
  is_executable : Bool
  is_anonymous : Bool
deriving DecidableEq, Repr

/-- The line loop of `has_anon_exec_memory` in smaps mode, with the test after the loop. -/
def anon_exec_smaps_loop : BlockState → List (List Char) → Int
  | st, [] => if st.in_block ∧ st.is_executable ∧ st.is_anonymous then 1 else 0
  | st, line :: rest =>
    if (strchr line '-').isSome then
      if st.in_block ∧ st.is_executable ∧ st.is_anonymous then 1
      else
        anon_exec_smaps_loop
          { in_block := true, is_executable := line_is_executable line,
            is_anonymous := line_is_anonymous line } rest
    else anon_exec_smaps_loop st rest

/-- The line loop of `has_anon_exec_memory` in maps mode. -/
def anon_exec_maps_loop : List (List Char) → Int
  | [] => 0
  | line :: rest =>
    if line_is_executable line ∧ line_is_anonymous line then 1
    else anon_exec_maps_loop rest

/-- The function `has_anon_exec_memory`. -/
def has_anon_exec_memory (w : World) (map_name : List Char) : Int :=
  match w.fopen map_name with
  | none => -1
  | some text =>
    if map_name = self_smaps then
      anon_exec_smaps_loop
        { in_block := false, is_executable := false, is_anonymous := false }
        (read_lines MAX_LINE text)
    else anon_exec_maps_loop (read_lines MAX_LINE text)

/-- The format `"%lx-%lx %4s %*s %*s %*s %255s"` of `scan_mem_keywords`. -/
def mem_line_format : List ScanDirective :=
  [ScanDirective.lx, ScanDirective.lit '-', ScanDirective.lx, ScanDirective.ws,
   ScanDirective.s 4, ScanDirective.ws, ScanDirective.skip_s, ScanDirective.ws,
   ScanDirective.skip_s, ScanDirective.ws, ScanDirective.skip_s, ScanDirective.ws,
   ScanDirective.s 255]

/-- The bytes of a C string. -/
def str_bytes (s : List Char) : List Byte :=
  s.map (fun c => ⟨c.toNat % 256, Nat.mod_lt _ (by decide)⟩)

/-- The function `memmem` as a test: whether `needle` occurs in `hay`. -/
def memmem : List Byte → List Byte → Bool
  | [], needle => needle.isEmpty
  | b :: bs, needle => needle.isPrefixOf (b :: bs) || memmem bs needle

/-- The part of an iteration of `scan_mem_keywords` after `sscanf` stored `start`, `end`,
`perms` and `pathname`: whether the iteration returns 1. A character of `perms` past its end is
read as NUL. -/
def mem_region_hit (w : World) (keywords : List (List Char)) (start end_ : Nat)
    (perms pathname : List Char) : Bool :=
  if perms.getD 0 '\x00' ≠ 'r' ∨ perms.getD 2 '\x00' ≠ 'x' then false
  else if (strstr pathname APP_NAME).isSome then false
  else if w.malloc_ok ((end_ + 2 ^ 64 - start) % 2 ^ 64) = false then false
  else
    match w.mem_read start ((end_ + 2 ^ 64 - start) % 2 ^ 64) with
    | none => false
    | some buffer => keywords.any (fun keyword => memmem buffer (str_bytes keyword))

/-- The line loop of `scan_mem_keywords`. -/
def mem_keywords_loop (w : World) (keywords : List (List Char)) : List (List Char) → Int
  | [] => 0
  | line :: rest =>
    match sscanf mem_line_format line with
    | [ScanValue.num start, ScanValue.num end_, ScanValue.str perms] =>
      if mem_region_hit w keywords start end_ perms [] then 1
      else mem_keywords_loop w keywords rest
    | [ScanValue.num start, ScanValue.num end_, ScanValue.str perms, ScanValue.str pathname] =>
      if mem_region_hit w keywords start end_ perms pathname then 1
      else mem_keywords_loop w keywords rest
    | _ => mem_keywords_loop w keywords rest

/-- The function `scan_mem_keywords`. -/
def scan_mem_keywords (w : World) (keywords : List (List Char)) : Int :=
  match w.fopen self_maps with
  | none => -1
  | some text =>
    if w.mem_open_ok = false then -1
    else mem_keywords_loop w keywords (read_lines 256 text)

/-- The path `snprintf(file_path, sizeof(file_path), "/proc/self/task/%s/status", d_name)`. -/
def task_status_path (d_name : List Char) : List Char :=
  ("/proc/self/task/".toList ++ d_name ++ "/status".toList).take (MAX_LINE - 1)

/-- The directory loop of `scan_task_status`. -/
def task_status_loop (w : World) (task_name : List (List Char)) : List (List Char) → Int
  | [] => 0
  | d_name :: rest =>
    if d_name = ".".toList ∨ d_name = "..".toList then task_status_loop w task_name rest
    else
      match w.fopen (task_status_path d_name) with
      | none => task_status_loop w task_name rest
      | some text =>
        match fgets MAX_LINE text with
        | none => task_status_loop w task_name rest
        | some (buffer, _) =>
          if task_name.any
              (fun name =>
                (strstr ((c_str buffer).takeWhile (fun c => c ≠ '\n')) name).isSome) then 1
          else task_status_loop w task_name rest

/-- The function `scan_task_status`. -/
def scan_task_status (w : World) (task_name : List (List Char)) : Int :=
  match w.opendir self_task with
  | none => 0
  | some entries => task_status_loop w task_name entries

/-! ## rasp_detector.cpp: the aggregator -/

/-- The word lists and the module list of check_env_utils.h. -/
structure Config where
  maps_sensitive_words : List (List Char)
  linker_sensitive_lib : List (List Char)
  sensitive_task_name : List (List Char)
  mem_sensitive_words : List (List Char)
  crc_solist : List (List Char)

/-- The tables as they stand in check_env_utils.h. -/
def header_config : Config :=
  { maps_sensitive_words :=
      ["frida".toList, "rwxp".toList, "zygisk".toList, "lsposed".toList,
       "/data/local/tmp".toList, "/data/adb/".toList],
    linker_sensitive_lib :=
      ["frida".toList, "zygisk".toList, "lsposed".toList, "/data/local/tmp".toList,
       "/data/adb/".toList],
    sensitive_task_name :=
      ["gmain".toList, "gdbus".toList, "gum-js-loop".toList, "pool-frida".toList],
    mem_sensitive_words :=
      ["frida".toList, "zygisk".toList, "lsposed".toList, "/data/local/tmp".toList,
       "/data/adb/".toList],
    crc_solist := ["libart.so".toList, "libc.so".toList, "libcheck_env.so".toList] }

/-- The statics `check_result` and `is_env_abnormal` of rasp_detector.cpp. -/
structure Report where
  check_result : List Char
  is_env_abnormal : Bool
deriving DecidableEq, Repr

/-- The statement `if (value) { check_result += finding; is_env_abnormal = true; }`. -/
def report_if (value : Int) (finding : List Char) (r : Report) : Report :=
  if value ≠ 0 then { check_result := r.check_result ++ finding, is_env_abnormal := true }
  else r

/-- The call `dl_iterate_phdr(dl_iterate_callback, NULL)`: the callback runs on each module
name until it returns non-zero. -/
def dl_iterate_phdr (cfg : Config) : List (List Char) → Report → Report
  | [], r => r
  | dlpi_name :: rest, r =>
    if is_linker_sensitive (some dlpi_name) (some cfg.linker_sensitive_lib) ≠ 0 then
      { check_result :=
          r.check_result ++ "detect sensitive lib from linker: ".toList ++ dlpi_name
            ++ "\n".toList,
        is_env_abnormal := true }
    else dl_iterate_phdr cfg rest r

/-- The body of `nativeCheckEnvironmentAbnormal` over given tables: the returned string, the
abnormal flag, and the static variables of CRC32.h afterwards. -/
def check_environment_abnormal (cfg : Config) (w : World) (g : CrcGlobals) :
    Report × CrcGlobals :=
  let r0 : Report := { check_result := "result: \n".toList, is_env_abnormal := false }
  let r1 := dl_iterate_phdr cfg w.modules r0
  let r2 := report_if (is_maps_sensitive w (some cfg.maps_sensitive_words) self_maps)
    "detect suspicious maps\n".toList r1
  let r3 := report_if (is_maps_sensitive w (some cfg.maps_sensitive_words) self_smaps)
    "detect suspicious smaps\n".toList r2
  let r4 := report_if (has_anon_exec_memory w self_maps)
    "detect maps anonymous executable memory\n".toList r3
  let r5 := report_if (has_anon_exec_memory w self_smaps)
    "detect smaps anonymous executable memory\n".toList r4
  let r6 := report_if (scan_mem_keywords w cfg.mem_sensitive_words)
    "detect suspicious mem\n".toList r5
  let r7 := report_if (scan_task_status w cfg.sensitive_task_name)
    "detect suspicious task\n".toList r6
  let libs := check_all_libs_integrity w g cfg.crc_solist
  (report_if libs.ret "detect lib has been hooked\n".toList r7, libs.globals)

/-- The function `Java_com_prapps_fridaserverinstaller_rasp_RaspDetector_nativeCheckEnvironmentAbnormal`. -/
def Java_com_prapps_fridaserverinstaller_rasp_RaspDetector_nativeCheckEnvironmentAbnormal
    (w : World) (g : CrcGlobals) : Report × CrcGlobals :=
  check_environment_abnormal header_config w g

/-! ## Concrete inputs used by the witnesses and counterexamples -/

/-- The low byte of a number. -/
def to_byte (n : Nat) : Byte := ⟨n % 256, Nat.mod_lt n (by decide)⟩

/-- Byte `k` of the little-endian encoding of `v`. -/
def le_byte (v k : Nat) : Nat := v / 256 ^ k % 256

/-- Byte `j` of an `Elf64_Ehdr` for a 64-bit little-endian shared object with `phnum`
program headers right after the header: `e_ident`, `e_type` 3, `e_machine` 183,
`e_version` 1, `e_phoff` 64, `e_ehsize` 64, `e_phentsize` 56, `e_phnum`. -/
def sample_ehdr_byte (phnum j : Nat) : Nat :=
  if j = 0 then 0x7f else if j = 1 then 0x45 else if j = 2 then 0x4c else if j = 3 then 0x46
  else if j = 4 then 2 else if j = 5 then 1 else if j = 6 then 1
  else if 16 ≤ j ∧ j < 18 then le_byte 3 (j - 16)
  else if 18 ≤ j ∧ j < 20 then le_byte 183 (j - 18)
  else if 20 ≤ j ∧ j < 24 then le_byte 1 (j - 20)
  else if 32 ≤ j ∧ j < 40 then le_byte 64 (j - 32)
  else if 52 ≤ j ∧ j < 54 then le_byte 64 (j - 52)
  else if 54 ≤ j ∧ j < 56 then le_byte 56 (j - 54)
  else if 56 ≤ j ∧ j < 58 then le_byte phnum (j - 56)
  else 0

/-- Byte `j` of an `Elf64_Phdr` with the given `p_type`, `p_flags`, `p_offset` and
`p_filesz` = `p_memsz`, `p_align` 4096. -/
def sample_phdr_byte (type flags offset memsz j : Nat) : Nat :=
  if j < 4 then le_byte type j
  else if j < 8 then le_byte flags (j - 4)
  else if j < 16 then le_byte offset (j - 8)
  else if j < 32 then 0
  else if j < 40 then le_byte memsz (j - 32)
  else if j < 48 then le_byte memsz (j - 40)
  else le_byte 4096 (j - 48)

/-- The code bytes of the sample module on disk. -/
def sample_code : List Byte := [0x90, 0x90, 0xc3, 0x00]

/-- The data bytes of the sample module on disk. -/
def sample_data : List Byte := [1, 2, 3, 4]

/-- The file /x/lib.so: the ELF header, three PT_LOAD program headers (read-only at offset 0
over the headers, executable at offset 0x1000 over the four code bytes, writable at offset
0x2000 over the four data bytes), the code at 0x1000 and the data at 0x2000. -/
def sample_elf : FileImage where
  size := 0x2004
  byte := fun off =>
    if off < 64 then to_byte (sample_ehdr_byte 3 off)
    else if off < 120 then to_byte (sample_phdr_byte 1 4 0 232 (off - 64))
    else if off < 176 then to_byte (sample_phdr_byte 1 5 0x1000 4 (off - 120))
    else if off < 232 then to_byte (sample_phdr_byte 1 6 0x2000 4 (off - 176))
    else if 0x1000 ≤ off ∧ off < 0x1004 then sample_code.getD (off - 0x1000) 0
    else if 0x2000 ≤ off ∧ off < 0x2004 then sample_data.getD (off - 0x2000) 0
    else 0

/-- The map of a process that has /x/lib.so loaded. -/
def sample_maps : List Char :=
  ("7f0000-7f1000 r--p 00000000 fd:00 12 /x/lib.so\n"
    ++ "7f1000-7f2000 r-xp 00001000 fd:00 12 /x/lib.so\n"
    ++ "7f2000-7f3000 rw-p 00002000 fd:00 12 /x/lib.so\n").toList

/-- A process with /x/lib.so loaded: the headers are live at 0x7f0000, `code` at 0x7f1000 and
`data` at 0x7f2000; `mprotect` succeeds except, when `data_prot` is false, for
`PROT_READ | PROT_WRITE`. No linker module, no task directory, `/proc/self/mem` cannot be
opened. -/
def sample_world (code data : List Byte) (data_prot : Bool) : World where
  fopen := fun path => if path = self_maps then some sample_maps else none
  open_file := fun path => if path = "/x/lib.so".toList then some sample_elf else none
  mmap_ok := fun _ => true
  mem := fun addr =>
    if 0x7f0000 ≤ addr ∧ addr < 0x7f1000 then sample_elf.byte (addr - 0x7f0000)
    else if 0x7f1000 ≤ addr ∧ addr < 0x7f2000 then code.getD (addr - 0x7f1000) 0
    else if 0x7f2000 ≤ addr ∧ addr < 0x7f3000 then data.getD (addr - 0x7f2000) 0
    else 0
  mprotect_ok := fun _ _ prot => if prot = 3 then data_prot else true
  modules := []
  mem_open_ok := false
  malloc_ok := fun _ => true
  mem_read := fun _ _ => none
  opendir := fun _ => none

/-- The executable mapping of /x/lib.so in `sample_maps`. -/
def sample_exec_info : map_info :=
  { start := 0x7f1000, size := 0x1000, offset := 0x1000, pathname := "/x/lib.so".toList }

/-- The writable mapping of /x/lib.so in `sample_maps`. -/
def sample_data_info : map_info :=
  { start := 0x7f2000, size := 0x1000, offset := 0x2000, pathname := "/x/lib.so".toList }

/-- The data bytes with the last one changed. -/
def patched_data : List Byte := [1, 2, 3, 5]

/-- The code bytes with the second one changed. -/
def patched_code : List Byte := [0x90, 0x91, 0xc3, 0x00]

/-- A process with nothing to report: /x/lib.so loaded and unmodified, maps and smaps
readable, one linker module, one thread named "main". `mem_open` tells whether
`/proc/self/mem` can be opened; a read of it delivers the first four bytes. -/
def quiet_world (mem_open : Bool) : World :=
  { sample_world sample_code sample_data true with
    fopen := fun path =>
      if path = self_maps ∨ path = self_smaps then some sample_maps
      else if path = task_status_path "1".toList then some "Name:\tmain\n".toList
      else none
    modules := ["/x/lib.so".toList]
    mem_open_ok := mem_open
    mem_read := fun _ _ => some sample_code
    opendir := fun path =>
      if path = self_task then some [".".toList, "..".toList, "1".toList] else none }

/-- The fields of a map line, as written in the text. `gap` is the number of spaces between
the inode and the pathname (or the end of the line). -/
structure MapLine where
  start_hex : List Char
  end_hex : List Char
  perms : List Char
  offset_hex : List Char
  dev : List Char
  inode : List Char
  gap : Nat
  pathname : List Char
deriving DecidableEq, Repr

/-- The line without its terminating newline. -/
def MapLine.body (l : MapLine) : List Char :=
  l.start_hex ++ '-' :: (l.end_hex ++ ' ' :: (l.perms ++ ' ' :: (l.offset_hex ++ ' ' ::
    (l.dev ++ ' ' :: (l.inode ++ (List.replicate l.gap ' ' ++ l.pathname))))))

/-- The line as it stands in the file. -/
def MapLine.text (l : MapLine) : List Char :=
  l.body ++ ['\n']

/-- The number written by a string of hexadecimal digits. -/
def hex_value (s : List Char) : Nat :=
  s.foldl (fun a c => a * 16 + (hex_digit c).getD 0) 0

/-- A non-empty string of hexadecimal digits whose value fits `unsigned long`. -/
def is_hex_number (s : List Char) : Bool :=
  !s.isEmpty && s.all (fun c => (hex_digit c).isSome) && decide (hex_value s < 2 ^ 64)

/-- Characters of a field: neither white space nor NUL. -/
def is_field_char (c : Char) : Bool :=
  !isspace c && decide (c ≠ '\x00')

/-- Well-formed lines: hexadecimal start, end and offset, four permission characters,
non-empty device and inode fields, a pathname without white space and shorter than 256
characters that is separated from the inode by at least one space, and fewer than 512
characters before the newline. -/
def MapLine.well_formed (l : MapLine) : Bool :=
  is_hex_number l.start_hex && is_hex_number l.end_hex
    && decide (l.perms.length = 4) && l.perms.all is_field_char
    && is_hex_number l.offset_hex
    && !l.dev.isEmpty && l.dev.all is_field_char
    && !l.inode.isEmpty && l.inode.all is_field_char
    && l.pathname.all is_field_char && decide (l.pathname.length < 256)
    && (l.pathname.isEmpty || decide (0 < l.gap))
    && decide (l.body.length < 512)

/-- The `map_info` that the fields of a line stand for. -/
def MapLine.info (l : MapLine) : map_info :=
  { start := hex_value l.start_hex,
    size := (hex_value l.end_hex + 2 ^ 64 - hex_value l.start_hex) % 2 ^ 64,
    offset := hex_value l.offset_hex,
    pathname := l.pathname }

/-- Whether the permission string of a line contains `perm` and its pathname contains
`soname`. -/
def MapLine.selects (soname perm : List Char) (l : MapLine) : Bool :=
  decide (perm <:+: l.perms ∧ soname <:+: l.pathname)

/-- The line of the specification's example. -/
def example_line : MapLine :=
  { start_hex := "400000".toList, end_hex := "401000".toList, perms := "r-xp".toList,
    offset_hex := "00000000".toList, dev := "00:00".toList, inode := "0".toList, gap := 2,
    pathname := "/x/lib.so".toList }

/-- A process whose map is the given text. -/
def maps_world (maps : List Char) : World :=
  { sample_world [] [] true with fopen := fun path => if path = self_maps then some maps else none }

/-- The buffers that `fgets` with a 512-byte buffer delivers for a line: the whole line, or,
for a line of 511 characters, the line and then its newline. -/
def MapLine.buffers (l : MapLine) : List (List Char) :=
  if l.body.length < 511 then [l.body ++ ['\n']] else [l.body, ['\n']]

/-! ## check_env_utils.cpp: the module path -/

/-- The tail of `find_path_from_maps` on the copy made by `strdup`: a final newline is
overwritten with NUL (`len > 0 && path[len - 1] == '\n'`). -/
def strip_newline (path : List Char) : List Char :=
  if path.getLast? = some '\n' then path.dropLast else path

/-- The `while (fgets(line, sizeof(line), fp))` loop of `find_path_from_maps`, over the
buffers still to come: the first buffer that contains `soname` and has a '/' gives the
result, the copy of the buffer from its first '/' (NULL when `strdup` fails). -/
def find_path_loop (w : World) (soname : List Char) : List (List Char) → Option (List Char)
  | [] => none
  | line :: rest =>
    if (strstr line soname).isSome then
      match strchr line '/' with
      | some start =>
        if w.malloc_ok (start.length + 1) then some (strip_newline start) else none
      | none => find_path_loop w soname rest
    else find_path_loop w soname rest

/-- The function `find_path_from_maps`; `none` stands for NULL. -/
def find_path_from_maps (w : World) (soname : List Char) : Option (List Char) :=
  match w.fopen self_maps with
  | none => none
  | some maps => find_path_loop w soname (read_lines MAX_LINE maps)

/-! ## check_env_utils.cpp: the symbol lookup

Field offsets are those of `Elf64_Ehdr`, `Elf64_Shdr` (64 bytes) and `Elf64_Sym` (24 bytes)
in `<elf.h>`. -/

/-- The field `e_shoff` of the `Elf64_Ehdr` at the start of the file. -/
def e_shoff (file : FileImage) : Nat := rd_le file 40 8

/-- The field `e_shnum`. -/
def e_shnum (file : FileImage) : Nat := rd_le file 60 2

/-- The field `e_shstrndx`. -/
def e_shstrndx (file : FileImage) : Nat := rd_le file 62 2

/-- Offset in the file of `shdr[i]`; `sizeof(Elf64_Shdr)` is 64. -/
def shdr_at (file : FileImage) (i : Nat) : Nat := e_shoff file + 64 * i

/-- The field `shdr[i].sh_name`. -/
def sh_name (file : FileImage) (i : Nat) : Nat := rd_le file (shdr_at file i) 4

/-- The field `shdr[i].sh_offset`. -/
def sh_offset (file : FileImage) (i : Nat) : Nat := rd_le file (shdr_at file i + 24) 8

/-- The field `shdr[i].sh_size`. -/
def sh_size (file : FileImage) (i : Nat) : Nat := rd_le file (shdr_at file i + 32) 8

/-- The characters from `off` up to the first NUL, as `strcmp` and `strstr` read them: byte
after byte of the image as given, with no regard to the size of the file. `fuel` bounds the
number of characters. -/
def c_string_from (file : FileImage) : Nat → Nat → List Char
  | 0, _ => []
  | fuel + 1, off =>
    if rd_byte file off = 0 then []
    else Char.ofNat (rd_byte file off) :: c_string_from file fuel (off + 1)

/-- The C string at an offset of the mapping. No string is longer than the address space of
2^64 bytes. -/
def c_string_at (file : FileImage) (off : Nat) : List Char :=
  c_string_from file (2 ^ 64) off

/-- Whether the C string at `off` lies inside the file: its terminating NUL is at an offset
below `size`. Past the end of the file a read meets the zero fill of the last page, other
memory, or a fault. -/
def string_in_file (file : FileImage) (off : Nat) : Bool :=
  decide (off + (c_string_at file off).length < file.size)

/-- The string `sh_strtab_data + shdr[i].sh_name`. -/
def section_name (file : FileImage) (i : Nat) : List Char :=
  c_string_at file (sh_offset file (e_shstrndx file) + sh_name file i)

/-- The locals `symtab` and `strtab` of `get_symbol_offset`, as section indices; `none` for
NULL. -/
structure SectionScan where
  symtab : Option Nat
  strtab : Option Nat
deriving DecidableEq, Repr

/-- One iteration of the section-header loop. -/
def shdr_step (file : FileImage) (sc : SectionScan) (i : Nat) : SectionScan :=
  if section_name file i = ".symtab".toList then { sc with symtab := some i }
  else if section_name file i = ".strtab".toList then { sc with strtab := some i }
  else sc

/-- The loop `for (int i = 0; i < ehdr->e_shnum; i++)`. -/
def scan_sections (file : FileImage) : SectionScan :=
  (List.range (e_shnum file)).foldl (shdr_step file) { symtab := none, strtab := none }

/-- Conversion of an unsigned value to `int`. -/
def to_int (n : Nat) : Int :=
  if n % 2 ^ 32 < 2 ^ 31 then ((n % 2 ^ 32 : Nat) : Int) else ((n % 2 ^ 32 : Nat) : Int) - 2 ^ 32

/-- The local `int sym_count = symtab->sh_size / sizeof(Elf64_Sym)`. -/
def sym_count (file : FileImage) (symtab : Nat) : Int :=
  to_int (sh_size file symtab / 24)

/-- Offset in the file of `sym[i]`. -/
def sym_at (file : FileImage) (symtab i : Nat) : Nat := sh_offset file symtab + 24 * i

/-- The field `sym[i].st_name`. -/
def st_name (file : FileImage) (symtab i : Nat) : Nat := rd_le file (sym_at file symtab i) 4

/-- The field `sym[i].st_value`. -/
def st_value (file : FileImage) (symtab i : Nat) : Nat :=
  rd_le file (sym_at file symtab i + 8) 8

/-- The string `str + sym[i].st_name`. -/
def symbol_name_at (file : FileImage) (symtab strtab i : Nat) : List Char :=
  c_string_at file (sh_offset file strtab + st_name file symtab i)

/-- The loop `for (int i = 0; i < sym_count; i++)` over the indices still to come: the
`st_value` of the first symbol whose name contains `symbol_name`, `none` when the loop ends
without a match. -/
def symbol_loop (file : FileImage) (symtab strtab : Nat) (symbol_name : List Char) :
    List Nat → Option Nat
  | [] => none
  | i :: rest =>
    if (strstr (symbol_name_at file symtab strtab i) symbol_name).isSome then
      some (st_value file symtab i)
    else symbol_loop file symtab strtab symbol_name rest

/-- Whether everything the section loop of `get_symbol_offset` reads lies inside the file: the
`Elf64_Ehdr`, the header of the section-name table, and the header and the name of every
section. -/
def sections_in_file (file : FileImage) : Bool :=
  decide (64 ≤ file.size) && decide (shdr_at file (e_shstrndx file) + 64 ≤ file.size)
    && (List.range (e_shnum file)).all (fun i =>
      decide (shdr_at file i + 64 ≤ file.size)
        && string_in_file file (sh_offset file (e_shstrndx file) + sh_name file i))

/-- Whether everything the symbol loop reads lies inside the file, over the indices still to
come: each `Elf64_Sym` and each name, up to and including the first symbol whose name
contains `symbol_name`. -/
def symbols_in_file (file : FileImage) (symtab strtab : Nat) (symbol_name : List Char) :
    List Nat → Bool
  | [] => true
  | i :: rest =>
    decide (sym_at file symtab i + 24 ≤ file.size)
      && string_in_file file (sh_offset file strtab + st_name file symtab i)
      && ((strstr (symbol_name_at file symtab strtab i) symbol_name).isSome
        || symbols_in_file file symtab strtab symbol_name rest)

/-- Outcome of `get_symbol_offset`: the returned `size_t`, the descriptor and mapping events
of the call in order, and whether everything the call read through the mapping lay inside the
file. When `in_file` is false the call read past the end of the file, where the process meets
the zero fill of the last page, other memory, or a fault; the other fields then describe the
run in which that memory holds the bytes that the image gives. -/
structure OffsetRet where
  offset : Nat
  events : List SysEvent
  in_file : Bool
deriving DecidableEq, Repr

/-- The events of a call of `get_symbol_offset` that mapped the file: every exit after the
mapping runs `munmap` and then `close`. -/
def lookup_events (path : List Char) : List SysEvent :=
  [SysEvent.open_fd path, SysEvent.mmap_file, SysEvent.munmap_file, SysEvent.close_fd]

/-- The function `get_symbol_offset`. -/
def get_symbol_offset (w : World) (file_path symbol_name : List Char) : OffsetRet :=
  match w.open_file file_path with
  | none => { offset := 0, events := [], in_file := true }
  | some file =>
    if file.size = 0 ∨ w.mmap_ok file_path = false then
      { offset := 0, events := [SysEvent.open_fd file_path, SysEvent.close_fd],
        in_file := true }
    else
      match (scan_sections file).symtab, (scan_sections file).strtab with
      | some symtab, some strtab =>
        match symbol_loop file symtab strtab symbol_name
            (List.range (sym_count file symtab).toNat) with
        | some offset =>
          { offset := offset, events := lookup_events file_path,
            in_file := sections_in_file file
              && symbols_in_file file symtab strtab symbol_name
                  (List.range (sym_count file symtab).toNat) }
        | none =>
          { offset := 0, events := lookup_events file_path,
            in_file := sections_in_file file
              && symbols_in_file file symtab strtab symbol_name
                  (List.range (sym_count file symtab).toNat) }
      | _, _ => { offset := 0, events := lookup_events file_path,
                  in_file := sections_in_file file }

/-! ## Resources held after a call -/

/-- Whether an event opens a descriptor. -/
def is_open_event : SysEvent → Bool
  | SysEvent.open_fd _ => true
  | _ => false

/-- The descriptors opened and not closed by a sequence of events. -/
def open_descriptors (events : List SysEvent) : Int :=
  ((events.filter is_open_event).length : Int) - (events.count SysEvent.close_fd : Int)

/-- The mappings made and not unmapped by a sequence of events. -/
def live_mappings (events : List SysEvent) : Int :=
  (events.count SysEvent.mmap_file : Int) - (events.count SysEvent.munmap_file : Int)

/-! ## The scan for anonymous executable memory, in the words of the specification -/

/-- A line that marks anonymous executable memory: it contains "r-xp" or "--xp", has no '/',
and has a space right before its terminating newline. -/
def anon_exec_line_spec (line : List Char) : Bool :=
  decide (("r-xp".toList <:+: line ∨ "--xp".toList <:+: line) ∧ '/' ∉ line
    ∧ [' ', '\n'] <:+ line)

/-- The stateless scan: 1 when some buffer delivered by `fgets` with a 256-byte buffer is such
a line, 0 otherwise. -/
def has_anon_exec_memory_spec (text : List Char) : Int :=
  if (read_lines 256 text).any anon_exec_line_spec then 1 else 0

/-! ## More concrete inputs -/

/-- A process in which only the file `name` can be read with `fopen`, with content `text`. -/
def text_world (name text : List Char) : World :=
  { sample_world [] [] true with fopen := fun path => if path = name then some text else none }

/-- A process in which `fopen` fails for every path. -/
def closed_world : World :=
  { sample_world [] [] true with fopen := fun _ => none }

/-- A detailed map with an anonymous "r-xp" block followed by a file-backed block. -/
def anon_smaps : List Char :=
  ("7f0000-7f1000 r-xp 00000000 00:00 0 \n"
    ++ "Size:                  4 kB\n"
    ++ "7f1000-7f2000 r-xp 00001000 fd:00 12 /x/lib.so\n"
    ++ "Size:                  4 kB\n").toList

/-- Byte `j` of an `Elf64_Ehdr` with `shnum` section headers right after the header and the
section-name table at index `shstrndx`. -/
def symbols_ehdr_byte (shnum shstrndx j : Nat) : Nat :=
  if j = 0 then 0x7f else if j = 1 then 0x45 else if j = 2 then 0x4c else if j = 3 then 0x46
  else if j = 4 then 2 else if j = 5 then 1 else if j = 6 then 1
  else if 40 ≤ j ∧ j < 48 then le_byte 64 (j - 40)
  else if 58 ≤ j ∧ j < 60 then le_byte 64 (j - 58)
  else if 60 ≤ j ∧ j < 62 then le_byte shnum (j - 60)
  else if 62 ≤ j ∧ j < 64 then le_byte shstrndx (j - 62)
  else 0

/-- Byte `j` of an `Elf64_Shdr` with the given `sh_name`, `sh_offset` and `sh_size`. -/
def symbols_shdr_byte (name offset size j : Nat) : Nat :=
  if j < 4 then le_byte name j
  else if 24 ≤ j ∧ j < 32 then le_byte offset (j - 24)
  else if 32 ≤ j ∧ j < 40 then le_byte size (j - 32)
  else 0

/-- Byte `j` of an `Elf64_Sym` with the given `st_name` and `st_value`. -/
def symbols_sym_byte (name value j : Nat) : Nat :=
  if j < 4 then le_byte name j
  else if 8 ≤ j ∧ j < 16 then le_byte value (j - 8)
  else 0

/-- The section-name table of the sample file: ".symtab" at 1, ".strtab" at 9, ".shstrtab"
at 17. -/
def symbols_shstrtab : List Char := "\x00.symtab\x00.strtab\x00.shstrtab\x00".toList

/-- The symbol-name table of the sample file: "start" at 1, "fopen" at 7, "open" at 13. -/
def symbols_strtab : List Char := "\x00start\x00fopen\x00open\x00".toList

/-- The file /x/libsym.so: the ELF header, four section headers (null, .symtab, .strtab,
.shstrtab) from offset 64, the section names at 320, the symbol names at 352, and from 384
four symbols: the null symbol, "start" at 0, "fopen" at 0x1230 and "open" at 0x4560. -/
def symbols_elf : FileImage where
  size := 480
  byte := fun off =>
    if off < 64 then to_byte (symbols_ehdr_byte 4 3 off)
    else if off < 128 then 0
    else if off < 192 then to_byte (symbols_shdr_byte 1 384 96 (off - 128))
    else if off < 256 then to_byte (symbols_shdr_byte 9 352 18 (off - 192))
    else if off < 320 then to_byte (symbols_shdr_byte 17 320 27 (off - 256))
    else if off < 347 then to_byte (symbols_shstrtab.getD (off - 320) '\x00').toNat
    else if off < 352 then 0
    else if off < 370 then to_byte (symbols_strtab.getD (off - 352) '\x00').toNat
    else if off < 384 then 0
    else if off < 408 then 0
    else if off < 432 then to_byte (symbols_sym_byte 1 0 (off - 408))
    else if off < 456 then to_byte (symbols_sym_byte 7 0x1230 (off - 432))
    else if off < 480 then to_byte (symbols_sym_byte 13 0x4560 (off - 456))
    else 0

/-- The file /x/libhuge.so: as /x/libsym.so, but its `.symtab` section holds 2^31 symbols
(`sh_size` is 24 * 2^31); the symbols after the first four are zero. -/
def huge_symbols_elf : FileImage where
  size := 384 + 24 * 2 ^ 31
  byte := fun off =>
    if 128 ≤ off ∧ off < 192 then to_byte (symbols_shdr_byte 1 384 (24 * 2 ^ 31) (off - 128))
    else if off < 480 then symbols_elf.byte off
    else 0

/-- A process that can open /x/libhuge.so. -/
def huge_symbols_world : World :=
  { sample_world sample_code sample_data true with
    open_file := fun path => if path = "/x/libhuge.so".toList then some huge_symbols_elf else none
    mmap_ok := fun _ => true }

/-- A map with an anonymous mapping, the stack, and /x/lib.so. -/
def stack_maps : List Char :=
  ("7e0000-7e1000 rw-p 00000000 00:00 0 \n"
    ++ "7ffc000-7ffd000 rw-p 00000000 00:00 0                          [stack]\n"
    ++ "7f1000-7f2000 r-xp 00001000 fd:00 12 /x/lib.so\n").toList

/-- The records of `stack_maps`, field by field. -/
def stack_lines : List MapLine :=
  [{ start_hex := "7e0000".toList, end_hex := "7e1000".toList, perms := "rw-p".toList,
     offset_hex := "00000000".toList, dev := "00:00".toList, inode := "0".toList, gap := 1,
     pathname := [] },
   { start_hex := "7ffc000".toList, end_hex := "7ffd000".toList, perms := "rw-p".toList,
     offset_hex := "00000000".toList, dev := "00:00".toList, inode := "0".toList, gap := 26,
     pathname := "[stack]".toList },
   { start_hex := "7f1000".toList, end_hex := "7f2000".toList, perms := "r-xp".toList,
     offset_hex := "00001000".toList, dev := "fd:00".toList, inode := "12".toList, gap := 1,
     pathname := "/x/lib.so".toList }]

/-- A process that can open /x/libsym.so (the file with symbols) and /x/lib.so (the sample
module, which has no section headers). -/
def symbols_world : World :=
  { sample_world sample_code sample_data true with
    open_file := fun path =>
      if path = "/x/libsym.so".toList then some symbols_elf
      else if path = "/x/lib.so".toList then some sample_elf
      else none
    mmap_ok := fun _ => true }

/-! ## Theorems -/

/-! ### Bit-level facts about the CRC step -/

theorem crc32_bit_step_eq (c : Nat) :
    crc32_bit_step c = (if c % 2 = 1 then 0xEDB88320 else 0) ^^^ (c >>> 1) := by
  unfold crc32_bit_step
  rw [Nat.and_one_is_mod]
  rcases Nat.mod_two_eq_zero_or_one c with h | h <;> simp [h]

theorem crc32_spec_bit_eq_step (c : Nat) : crc32_spec_bit c = crc32_bit_step c := by
  rw [crc32_bit_step_eq]
  unfold crc32_spec_bit
  rcases Nat.mod_two_eq_zero_or_one c with h | h <;>
    simp [h, Nat.shiftRight_eq_div_pow, Nat.xor_comm]

theorem nat_shiftRight_xor (x y k : Nat) : (x ^^^ y) >>> k = (x >>> k) ^^^ (y >>> k) := by
  apply Nat.eq_of_testBit_eq
  intro i
  simp [Nat.testBit_shiftRight, Nat.testBit_xor]

theorem nat_xor_mod_two (x y : Nat) : (x ^^^ y) % 2 = (x % 2 + y % 2) % 2 := by
  have h := Nat.testBit_xor x y 0
  simp only [Nat.testBit_zero] at h
  rcases Nat.mod_two_eq_zero_or_one x with hx | hx <;>
  rcases Nat.mod_two_eq_zero_or_one y with hy | hy <;>
  rcases Nat.mod_two_eq_zero_or_one (x ^^^ y) with hz | hz <;>
  simp [hx, hy, hz] at h ⊢

theorem crc32_bit_step_xor (x y : Nat) :
    crc32_bit_step (x ^^^ y) = crc32_bit_step x ^^^ crc32_bit_step y := by
  simp only [crc32_bit_step_eq, nat_shiftRight_xor, nat_xor_mod_two]
  apply Nat.eq_of_testBit_eq
  intro i
  rcases Nat.mod_two_eq_zero_or_one x with hx | hx <;>
  rcases Nat.mod_two_eq_zero_or_one y with hy | hy <;>
  simp only [hx, hy, Nat.testBit_xor] <;>
  generalize (x >>> 1).testBit i = a <;>
  generalize (y >>> 1).testBit i = b <;>
  generalize Nat.testBit 3988292384 i = p <;>
  cases a <;> cases b <;> cases p <;> simp

/-- The 8-fold step, as a plain iteration. -/
theorem crc32_table_entry_eq (n : Nat) :
    crc32_table_entry n = Nat.iterate crc32_bit_step 8 n := rfl

theorem crc32_spec_byte_eq (c : Nat) (b : Byte) :
    crc32_spec_byte c b = Nat.iterate crc32_bit_step 8 (c ^^^ b.val) := by
  unfold crc32_spec_byte
  have : crc32_spec_bit = crc32_bit_step := funext crc32_spec_bit_eq_step
  rw [this]

theorem crc32_iterate_xor (k x y : Nat) :
    Nat.iterate crc32_bit_step k (x ^^^ y)
      = Nat.iterate crc32_bit_step k x ^^^ Nat.iterate crc32_bit_step k y := by
  induction k generalizing x y with
  | zero => rfl
  | succ k ih => simp only [Function.iterate_succ, Function.comp, crc32_bit_step_xor, ih]

theorem crc32_iterate_shiftLeft (k y : Nat) :
    Nat.iterate crc32_bit_step k (y <<< k) = y := by
  induction k with
  | zero => simp
  | succ k ih =>
    rw [Function.iterate_succ, Function.comp, crc32_bit_step_eq]
    have h1 : (y <<< (k + 1)) % 2 = 0 := by
      rw [Nat.shiftLeft_eq, Nat.pow_succ, ← Nat.mul_assoc]; simp
    have h2 : (y <<< (k + 1)) >>> 1 = y <<< k := by
      rw [Nat.shiftLeft_eq, Nat.shiftLeft_eq, Nat.shiftRight_eq_div_pow, Nat.pow_succ,
        ← Nat.mul_assoc]; simp
    simp [h1, h2, ih]

theorem nat_split_low (x k : Nat) : x = (x % 2 ^ k) ^^^ ((x >>> k) <<< k) := by
  apply Nat.eq_of_testBit_eq
  intro i
  simp only [Nat.testBit_xor, Nat.testBit_mod_two_pow, Nat.testBit_shiftLeft,
    Nat.testBit_shiftRight]
  by_cases h : i < k
  · have : ¬ (i ≥ k) := by omega
    simp [h, this]
  · have h2 : i ≥ k := by omega
    have h3 : k + (i - k) = i := by omega
    simp [h, h2, h3]

/-- The identity behind the table-driven update: 8 bit steps on `x` are one table entry for the
low byte XORed with the remaining bits shifted down. -/
theorem crc32_iterate8_split (x : Nat) :
    Nat.iterate crc32_bit_step 8 x = crc32_table_entry (x % 256) ^^^ (x >>> 8) := by
  conv_lhs => rw [nat_split_low x 8]
  rw [crc32_iterate_xor, crc32_iterate_shiftLeft, crc32_table_entry_eq]
  norm_num

theorem nat_xor_byte_shiftRight (c : Nat) (b : Byte) : (c ^^^ b.val) >>> 8 = c >>> 8 := by
  rw [nat_shiftRight_xor]
  have : b.val >>> 8 = 0 := by
    rw [Nat.shiftRight_eq_div_pow]; exact Nat.div_eq_of_lt b.isLt
  rw [this, Nat.xor_zero]

/-! ### The generated table -/

theorem foldl_set_length (f : Nat → Nat) (l : List Nat) (t : List Nat) :
    (l.foldl (fun t n => t.set n (f n)) t).length = t.length := by
  induction l generalizing t with
  | nil => rfl
  | cons a l ih => simp [List.foldl, ih]

theorem foldl_set_range_getD (f : Nat → Nat) (k : Nat) (t : List Nat) (i : Nat)
    (hk : k ≤ t.length) :
    ((List.range k).foldl (fun t n => t.set n (f n)) t).getD i 0
      = if i < k then f i else t.getD i 0 := by
  induction k with
  | zero => simp
  | succ k ih =>
    rw [List.range_succ, List.foldl_append]
    simp only [List.foldl]
    have hlen := foldl_set_length f (List.range k) t
    by_cases hik : i = k
    · subst hik
      have hlt : i < t.length := by omega
      simp [List.getD_eq_getElem?_getD, List.getElem?_set, hlen, hlt]
    · rw [List.getD_eq_getElem?_getD, List.getElem?_set_ne (Ne.symm hik),
        ← List.getD_eq_getElem?_getD, ih (by omega)]
      by_cases h : i < k
      · simp [h, Nat.lt_succ_of_lt h]
      · have : ¬ i < k + 1 := by omega
        simp [h, this]

theorem generate_crc32_table_table (g : CrcGlobals) :
    (generate_crc32_table g).crc32_table
      = (List.range 256).foldl (fun t n => t.set n (crc32_table_entry n)) g.crc32_table := by
  simp only [generate_crc32_table]

theorem generate_crc32_table_ok (g : CrcGlobals) (h : g.crc32_table.length = 256) :
    CrcTableOk (generate_crc32_table g) := by
  constructor
  · rw [generate_crc32_table_table, foldl_set_length, h]
  · intro _ i hi
    rw [generate_crc32_table_table, foldl_set_range_getD _ _ _ _ (by omega), if_pos hi]

theorem crc32_globals_init_ok : CrcTableOk crc32_globals_init := by
  constructor
  · unfold crc32_globals_init
    exact List.length_replicate 256 0
  · intro h; exact absurd (Eq.refl 0) h

theorem crc32_update_ok (g : CrcGlobals) (crc : Nat) (buf : List Byte) (h : CrcTableOk g) :
    CrcTableOk (crc32_update g crc buf).2 := by
  unfold crc32_update
  by_cases hc : g.crc32_table_computed = 0
  · simp only [hc, if_true]
    exact generate_crc32_table_ok g h.1
  · simp only [hc, if_false]
    exact h

theorem crcReachable_ok (g : CrcGlobals) (h : CrcReachable g) : CrcTableOk g := by
  induction h with
  | init => exact crc32_globals_init_ok
  | update g crc buf _ ih => exact crc32_update_ok g crc buf ih

/-- After the lazy initialisation inside `crc32_update` the table holds the generated entries. -/
theorem crc32_update_table (g : CrcGlobals) (h : CrcTableOk g) (i : Nat) (hi : i < 256) :
    (if g.crc32_table_computed = 0 then generate_crc32_table g else g).crc32_table.getD i 0
      = crc32_table_entry i := by
  by_cases hc : g.crc32_table_computed = 0
  · simp only [hc, if_true]
    exact (generate_crc32_table_ok g h.1).2 (by simp [generate_crc32_table]) i hi
  · simp only [hc, if_false]
    exact h.2 hc i hi

theorem crc32_update_fst (g : CrcGlobals) (h : CrcTableOk g) (crc : Nat) (buf : List Byte) :
    (crc32_update g crc buf).1 = buf.foldl crc32_spec_byte crc := by
  unfold crc32_update
  simp only
  generalize hg : (if g.crc32_table_computed = 0 then generate_crc32_table g else g) = g1
  have ht : ∀ i, i < 256 → g1.crc32_table.getD i 0 = crc32_table_entry i := by
    intro i hi; rw [← hg]; exact crc32_update_table g h i hi
  clear hg
  induction buf generalizing crc with
  | nil => rfl
  | cons b bs ih =>
    simp only [List.foldl]
    rw [ih]
    congr 1
    rw [crc32_spec_byte_eq, crc32_iterate8_split, nat_xor_byte_shiftRight]
    have hidx : (crc ^^^ b.val) &&& 0xff = (crc ^^^ b.val) % 256 :=
      Nat.and_pow_two_sub_one_eq_mod _ 8
    rw [hidx, ht _ (Nat.mod_lt _ (by decide))]

/-- The table-driven `crc32` computes the reference CRC whenever the invariant holds. -/
theorem crc32_fst_of_ok (g : CrcGlobals) (h : CrcTableOk g) (buf : List Byte) :
    (crc32 g buf).1 = crc32_spec buf := by
  unfold crc32 crc32_spec
  simp only
  rw [crc32_update_fst g h]

theorem crc32_snd_ok (g : CrcGlobals) (h : CrcTableOk g) (buf : List Byte) :
    CrcTableOk (crc32 g buf).2 := by
  exact crc32_update_ok g 0xffffffff buf h

theorem crc32_snd_reachable (g : CrcGlobals) (h : CrcReachable g) (buf : List Byte) :
    CrcReachable (crc32 g buf).2 := by
  exact CrcReachable.update g 0xffffffff buf h

/-! ### Injectivity of the CRC state update -/

theorem crc32_bit_step_lt (x : Nat) (hx : x < 2 ^ 32) : crc32_bit_step x < 2 ^ 32 := by
  rw [crc32_bit_step_eq]
  apply Nat.xor_lt_two_pow
  · split <;> decide
  · rw [Nat.shiftRight_eq_div_pow]
    exact Nat.lt_of_le_of_lt (Nat.div_le_self _ _) hx

theorem crc32_bit_step_testBit31 (x : Nat) (hx : x < 2 ^ 32) :
    (crc32_bit_step x).testBit 31 = decide (x % 2 = 1) := by
  rw [crc32_bit_step_eq, Nat.testBit_xor]
  have h1 : (x >>> 1).testBit 31 = false := by
    apply Nat.testBit_lt_two_pow
    rw [Nat.shiftRight_eq_div_pow]
    omega
  rw [h1]
  rcases Nat.mod_two_eq_zero_or_one x with h | h <;> simp [h]
  decide

theorem crc32_bit_step_inj (x y : Nat) (hx : x < 2 ^ 32) (hy : y < 2 ^ 32)
    (h : crc32_bit_step x = crc32_bit_step y) : x = y := by
  have hp : decide (x % 2 = 1) = decide (y % 2 = 1) := by
    rw [← crc32_bit_step_testBit31 x hx, ← crc32_bit_step_testBit31 y hy, h]
  have hp2 : x % 2 = y % 2 := by
    rcases Nat.mod_two_eq_zero_or_one x with h1 | h1 <;>
    rcases Nat.mod_two_eq_zero_or_one y with h2 | h2 <;> simp [h1, h2] at hp ⊢
  rw [crc32_bit_step_eq, crc32_bit_step_eq, hp2] at h
  have hs : x >>> 1 = y >>> 1 := Nat.xor_right_injective h
  rw [Nat.shiftRight_eq_div_pow, Nat.shiftRight_eq_div_pow] at hs
  omega

theorem crc32_iterate_lt (k x : Nat) (hx : x < 2 ^ 32) :
    Nat.iterate crc32_bit_step k x < 2 ^ 32 := by
  induction k generalizing x with
  | zero => exact hx
  | succ k ih =>
    rw [Function.iterate_succ, Function.comp]
    exact ih _ (crc32_bit_step_lt x hx)

theorem crc32_iterate_inj (k x y : Nat) (hx : x < 2 ^ 32) (hy : y < 2 ^ 32)
    (h : Nat.iterate crc32_bit_step k x = Nat.iterate crc32_bit_step k y) : x = y := by
  induction k generalizing x y with
  | zero => exact h
  | succ k ih =>
    simp only [Function.iterate_succ, Function.comp] at h
    exact crc32_bit_step_inj x y hx hy
      (ih _ _ (crc32_bit_step_lt x hx) (crc32_bit_step_lt y hy) h)

theorem byte_lt_two_pow_32 (b : Byte) : b.val < 2 ^ 32 :=
  Nat.lt_trans b.isLt (by decide)

theorem crc32_spec_byte_lt (c : Nat) (b : Byte) (hc : c < 2 ^ 32) :
    crc32_spec_byte c b < 2 ^ 32 := by
  rw [crc32_spec_byte_eq]
  exact crc32_iterate_lt 8 _ (Nat.xor_lt_two_pow hc (byte_lt_two_pow_32 b))

theorem crc32_spec_byte_inj_state (c d : Nat) (b : Byte) (hc : c < 2 ^ 32) (hd : d < 2 ^ 32)
    (h : crc32_spec_byte c b = crc32_spec_byte d b) : c = d := by
  rw [crc32_spec_byte_eq, crc32_spec_byte_eq] at h
  have := crc32_iterate_inj 8 _ _ (Nat.xor_lt_two_pow hc (byte_lt_two_pow_32 b))
    (Nat.xor_lt_two_pow hd (byte_lt_two_pow_32 b)) h
  exact Nat.xor_left_injective this

theorem crc32_spec_byte_inj_byte (c : Nat) (a b : Byte) (hc : c < 2 ^ 32)
    (h : crc32_spec_byte c a = crc32_spec_byte c b) : a = b := by
  rw [crc32_spec_byte_eq, crc32_spec_byte_eq] at h
  have := crc32_iterate_inj 8 _ _ (Nat.xor_lt_two_pow hc (byte_lt_two_pow_32 a))
    (Nat.xor_lt_two_pow hc (byte_lt_two_pow_32 b)) h
  exact Fin.ext (Nat.xor_right_injective this)

theorem crc32_spec_foldl_lt (buf : List Byte) (c : Nat) (hc : c < 2 ^ 32) :
    buf.foldl crc32_spec_byte c < 2 ^ 32 := by
  induction buf generalizing c with
  | nil => exact hc
  | cons b bs ih => exact ih _ (crc32_spec_byte_lt c b hc)

theorem crc32_spec_foldl_inj (buf : List Byte) (c d : Nat) (hc : c < 2 ^ 32) (hd : d < 2 ^ 32)
    (h : buf.foldl crc32_spec_byte c = buf.foldl crc32_spec_byte d) : c = d := by
  induction buf generalizing c d with
  | nil => exact h
  | cons b bs ih =>
    exact crc32_spec_byte_inj_state c d b hc hd
      (ih _ _ (crc32_spec_byte_lt c b hc) (crc32_spec_byte_lt d b hd) h)

/-- Two buffers that differ in exactly one byte have different reference CRCs. -/
theorem crc32_spec_single_byte (pre post : List Byte) (a b : Byte) (hab : a ≠ b) :
    crc32_spec (pre ++ a :: post) ≠ crc32_spec (pre ++ b :: post) := by
  intro h
  unfold crc32_spec at h
  have h1 := Nat.xor_left_injective h
  rw [List.foldl_append, List.foldl_append] at h1
  simp only [List.foldl] at h1
  have hpre : pre.foldl crc32_spec_byte 0xFFFFFFFF < 2 ^ 32 :=
    crc32_spec_foldl_lt pre _ (by decide)
  have h2 := crc32_spec_foldl_inj post _ _ (crc32_spec_byte_lt _ a hpre)
    (crc32_spec_byte_lt _ b hpre) h1
  exact hab (crc32_spec_byte_inj_byte _ a b hpre h2)

theorem crc32_spec_lt (buf : List Byte) : crc32_spec buf < 2 ^ 32 := by
  unfold crc32_spec
  exact Nat.xor_lt_two_pow (crc32_spec_foldl_lt buf _ (by decide)) (by decide)

/-! ### Claims about the checksum -/

/-- C4: from every reachable state of the lazily initialised table (not yet computed, or
computed by an earlier call) and for every byte sequence, the table-driven `crc32` returns the
CRC-32/ISO-HDLC value defined bit by bit, and leaves the table in a reachable state. -/
theorem crc32_refines_bitwise (g : CrcGlobals) (buf : List Byte) (hg : CrcReachable g) :
    (crc32 g buf).1 = crc32_spec buf ∧ CrcReachable (crc32 g buf).2 :=
  ⟨crc32_fst_of_ok g (crcReachable_ok g hg) buf, crc32_snd_reachable g hg buf⟩

/-- Witness for C4: the table left behind by a first call is used by a second call. -/
theorem crc32_refines_bitwise_witness :
    CrcReachable (crc32 crc32_globals_init [1, 2, 3]).2 ∧
    ((crc32 (crc32 crc32_globals_init [1, 2, 3]).2 check_vector).1 = crc32_spec check_vector ∧
      CrcReachable (crc32 (crc32 crc32_globals_init [1, 2, 3]).2 check_vector).2) :=
  ⟨crc32_snd_reachable _ CrcReachable.init _,
   crc32_refines_bitwise _ check_vector (crc32_snd_reachable _ CrcReachable.init _)⟩

theorem crc32_spec_check_vector : crc32_spec check_vector = 0xCBF43926 := by decide!

theorem crc32_spec_nil : crc32_spec [] = 0 := by decide

/-- C5: `crc32` of the nine bytes of "123456789" is 0xCBF43926 and `crc32` of the empty input
is 0, whatever reachable state the lookup table is in. -/
theorem crc32_test_vectors (g : CrcGlobals) (hg : CrcReachable g) :
    (crc32 g check_vector).1 = 0xCBF43926 ∧ (crc32 g []).1 = 0x00000000 := by
  have hok := crcReachable_ok g hg
  rw [crc32_fst_of_ok g hok, crc32_fst_of_ok g hok]
  exact ⟨crc32_spec_check_vector, crc32_spec_nil⟩

/-- Witness for C5: the first call of the program, on the freshly loaded (zeroed) table. -/
theorem crc32_test_vectors_witness :
    CrcReachable crc32_globals_init ∧
    ((crc32 crc32_globals_init check_vector).1 = 0xCBF43926 ∧
      (crc32 crc32_globals_init []).1 = 0x00000000) :=
  ⟨CrcReachable.init, crc32_test_vectors crc32_globals_init CrcReachable.init⟩

/-! ### The program-header loop -/

theorem last_entry_some (p : Nat → Bool) (n i : Nat) (h : last_entry p n = some i) :
    i < n ∧ p i = true ∧ ∀ j, i < j → j < n → p j = false := by
  induction n with
  | zero => simp [last_entry] at h
  | succ n ih =>
    unfold last_entry at h
    by_cases hp : p n = true
    · simp only [hp, if_true, Option.some.injEq] at h
      subst h
      exact ⟨Nat.lt_succ_self _, hp, fun j h1 h2 => absurd h1 (by omega)⟩
    · simp only [hp, if_false] at h
      obtain ⟨h1, h2, h3⟩ := ih h
      refine ⟨Nat.lt_succ_of_lt h1, h2, fun j hj1 hj2 => ?_⟩
      by_cases hjn : j = n
      · subst hjn; simpa using hp
      · exact h3 j hj1 (by omega)

theorem last_entry_none (p : Nat → Bool) (n : Nat) :
    last_entry p n = none ↔ ∀ i, i < n → p i = false := by
  induction n with
  | zero => simp [last_entry]
  | succ n ih =>
    unfold last_entry
    cases hp : p n with
    | true =>
      rw [if_pos rfl]
      constructor
      · intro h; cases h
      · intro h; have := h n (Nat.lt_succ_self _); rw [hp] at this; cases this
    | false =>
      rw [if_neg (by decide), ih]
      constructor
      · intro h i hi
        by_cases hin : i = n
        · subst hin; exact hp
        · exact h i (by omega)
      · intro h i hi
        exact h i (Nat.lt_succ_of_lt hi)

theorem last_entry_of_last (p : Nat → Bool) (n i : Nat) (hi : i < n) (hp : p i = true)
    (hlast : ∀ j, i < j → j < n → p j = false) : last_entry p n = some i := by
  induction n with
  | zero => omega
  | succ n ih =>
    unfold last_entry
    by_cases hin : i = n
    · subst hin; simp [hp]
    · have hn : p n = false := hlast n (by omega) (Nat.lt_succ_self _)
      simp only [hn, Bool.false_eq_true, if_false]
      exact ih (by omega) (fun j h1 h2 => hlast j h1 (Nat.lt_succ_of_lt h2))

theorem is_exec_data_disjoint (file : FileImage) (ei di : map_info) (i : Nat)
    (h : is_exec_entry file ei i = true) : is_data_entry file ei di i = false := by
  unfold is_exec_entry at h
  unfold is_data_entry
  simp only [decide_eq_true_eq] at h
  simp only [decide_eq_false_iff_not]
  intro h2
  exact h2.2.1 h.2

theorem scan_phdrs_spec_succ_exec (file : FileImage) (ei di : map_info) (n : Nat)
    (he : is_exec_entry file ei n = true) :
    scan_phdrs_spec file ei di (n + 1)
      = { scan_phdrs_spec file ei di n with
          exec_disk_crc := disk_crc file n, exec_segment_size := p_memsz file n,
          found_exec := true } := by
  have hd := is_exec_data_disjoint file ei di n he
  simp only [scan_phdrs_spec, last_entry, he, hd, if_true, Bool.false_eq_true, if_false,
    Option.isSome_some]

theorem scan_phdrs_spec_succ_data (file : FileImage) (ei di : map_info) (n : Nat)
    (he : is_exec_entry file ei n = false) (hd : is_data_entry file ei di n = true) :
    scan_phdrs_spec file ei di (n + 1)
      = { scan_phdrs_spec file ei di n with
          data_disk_crc := disk_crc file n, data_segment_size := p_memsz file n,
          found_data := true } := by
  simp only [scan_phdrs_spec, last_entry, he, hd, if_true, Bool.false_eq_true, if_false,
    Option.isSome_some]

theorem scan_phdrs_spec_succ_none (file : FileImage) (ei di : map_info) (n : Nat)
    (he : is_exec_entry file ei n = false) (hd : is_data_entry file ei di n = false) :
    scan_phdrs_spec file ei di (n + 1) = scan_phdrs_spec file ei di n := by
  simp only [scan_phdrs_spec, last_entry, he, hd, Bool.false_eq_true, if_false]

/-- One iteration of the loop takes the closed form for `n` entries to the one for `n + 1`. -/
theorem phdr_step_spec (file : FileImage) (ei di : map_info) (g : CrcGlobals) (n : Nat)
    (hg : CrcReachable g) :
    (phdr_step file ei di (scan_phdrs_spec file ei di n, g) n).1
        = scan_phdrs_spec file ei di (n + 1)
      ∧ CrcReachable (phdr_step file ei di (scan_phdrs_spec file ei di n, g) n).2 := by
  have hok := crcReachable_ok g hg
  have hcrc := crc32_fst_of_ok g hok (file_bytes file (p_offset file n) (p_memsz file n))
  have hre := crc32_snd_reachable g hg (file_bytes file (p_offset file n) (p_memsz file n))
  simp only [phdr_step]
  by_cases ht : p_type file n = PT_LOAD
  · rw [if_pos ht]
    by_cases hx : p_flags file n &&& PF_X ≠ 0 ∧ p_offset file n = ei.offset
    · have he : is_exec_entry file ei n = true := by
        unfold is_exec_entry; exact decide_eq_true ⟨ht, hx⟩
      rw [if_pos hx, scan_phdrs_spec_succ_exec file ei di n he, hcrc]
      exact ⟨rfl, hre⟩
    · rw [if_neg hx]
      have he : is_exec_entry file ei n = false := by
        unfold is_exec_entry; exact decide_eq_false (fun h => hx h.2)
      by_cases hw : p_flags file n &&& PF_W ≠ 0 ∧ di.start ≠ 0 ∧ p_offset file n = di.offset
      · have hd : is_data_entry file ei di n = true := by
          unfold is_data_entry; exact decide_eq_true ⟨ht, hx, hw⟩
        rw [if_pos hw, scan_phdrs_spec_succ_data file ei di n he hd, hcrc]
        exact ⟨rfl, hre⟩
      · have hd : is_data_entry file ei di n = false := by
          unfold is_data_entry; exact decide_eq_false (fun h => hw h.2.2)
        rw [if_neg hw, scan_phdrs_spec_succ_none file ei di n he hd]
        exact ⟨rfl, hg⟩
  · have he : is_exec_entry file ei n = false := by
      unfold is_exec_entry; exact decide_eq_false (fun h => ht h.1)
    have hd : is_data_entry file ei di n = false := by
      unfold is_data_entry; exact decide_eq_false (fun h => ht h.1)
    rw [if_neg ht, scan_phdrs_spec_succ_none file ei di n he hd]
    exact ⟨rfl, hg⟩

theorem scan_phdrs_fold (file : FileImage) (ei di : map_info) (g : CrcGlobals) (n : Nat)
    (hg : CrcReachable g) :
    ((List.range n).foldl (phdr_step file ei di) (seg_scan_init, g)).1
        = scan_phdrs_spec file ei di n
      ∧ CrcReachable ((List.range n).foldl (phdr_step file ei di) (seg_scan_init, g)).2 := by
  induction n with
  | zero =>
    refine ⟨?_, hg⟩
    simp [scan_phdrs_spec, last_entry, seg_scan_init]
  | succ n ih =>
    rw [List.range_succ, List.foldl_append]
    simp only [List.foldl]
    obtain ⟨h1, h2⟩ := ih
    have := phdr_step_spec file ei di
      ((List.range n).foldl (phdr_step file ei di) (seg_scan_init, g)).2 n h2
    rw [← h1] at this
    exact this

/-- The loop computes the closed form and leaves the CRC table in a reachable state. -/
theorem scan_phdrs_eq (file : FileImage) (ei di : map_info) (g : CrcGlobals)
    (hg : CrcReachable g) :
    (scan_phdrs file ei di g).1 = scan_phdrs_spec file ei di (e_phnum file)
      ∧ CrcReachable (scan_phdrs file ei di g).2 :=
  scan_phdrs_fold file ei di g (e_phnum file) hg

theorem compare_segments_eq (w : World) (ei di : map_info) (sc : SegScan) (g : CrcGlobals)
    (hg : CrcReachable g) :
    (compare_segments w ei di sc g).1 = compare_segments_spec w ei di sc
      ∧ CrcReachable (compare_segments w ei di sc g).2 := by
  have hok := crcReachable_ok g hg
  have hg1 := crc32_snd_reachable g hg (mem_bytes w ei.start sc.exec_segment_size)
  have hok1 := crcReachable_ok _ hg1
  have hg2 := crc32_snd_reachable _ hg1 (mem_bytes w di.start sc.data_segment_size)
  have e1 := crc32_fst_of_ok g hok (mem_bytes w ei.start sc.exec_segment_size)
  have e2 := crc32_fst_of_ok _ hok1 (mem_bytes w di.start sc.data_segment_size)
  unfold compare_segments compare_segments_spec
  simp only []
  rw [e1, e2]
  split_ifs <;> simp_all

/-! ### The verifier as a whole -/

/-- The function `check_lib_integrity` returns the closed-form verdict and keeps the CRC table
reachable. -/
theorem check_lib_integrity_eq (w : World) (g : CrcGlobals) (soname : List Char)
    (hg : CrcReachable g) :
    (check_lib_integrity w g soname).ret = lib_verdict w soname
      ∧ CrcReachable (check_lib_integrity w g soname).globals := by
  unfold check_lib_integrity lib_verdict
  simp only []
  generalize find_info_from_maps w soname "x".toList = ei
  generalize find_info_from_maps w soname "rw".toList = di
  by_cases h1 : ei.start = 0 ∧ ei.size = 0
  · rw [if_pos h1, if_pos h1]; exact ⟨rfl, hg⟩
  · rw [if_neg h1, if_neg h1]
    cases hopen : w.open_file ei.pathname with
    | none => exact ⟨rfl, hg⟩
    | some file =>
      simp only []
      by_cases h2 : file.size = 0 ∨ w.mmap_ok ei.pathname = false
      · rw [if_pos h2, if_pos h2]; exact ⟨rfl, hg⟩
      · rw [if_neg h2, if_neg h2]
        by_cases h3 : e_ident_magic file ≠ ELFMAG
        · rw [if_pos h3, if_pos h3]; exact ⟨rfl, hg⟩
        · rw [if_neg h3, if_neg h3]
          obtain ⟨hs1, hs2⟩ := scan_phdrs_eq file ei di g hg
          rw [hs1]
          by_cases h4 : (last_entry (is_exec_entry file ei) (e_phnum file)).isSome = false
          · have h4b : (scan_phdrs_spec file ei di (e_phnum file)).found_exec = false := h4
            rw [if_pos h4b, if_pos h4]; exact ⟨rfl, hs2⟩
          · have h4b : ¬ (scan_phdrs_spec file ei di (e_phnum file)).found_exec = false := h4
            rw [if_neg h4b, if_neg h4]
            obtain ⟨hc1, hc2⟩ := compare_segments_eq w ei di
              (scan_phdrs_spec file ei di (e_phnum file)) (scan_phdrs file ei di g).2 hs2
            exact ⟨hc1, hc2⟩

theorem check_lib_integrity_ret (w : World) (g : CrcGlobals) (soname : List Char)
    (hg : CrcReachable g) : (check_lib_integrity w g soname).ret = lib_verdict w soname :=
  (check_lib_integrity_eq w g soname hg).1

theorem check_lib_integrity_reachable (w : World) (g : CrcGlobals) (soname : List Char)
    (hg : CrcReachable g) : CrcReachable (check_lib_integrity w g soname).globals :=
  (check_lib_integrity_eq w g soname hg).2

theorem compare_segments_spec_range (w : World) (ei di : map_info) (sc : SegScan) :
    compare_segments_spec w ei di sc = 1 ∨ compare_segments_spec w ei di sc = 0 := by
  unfold compare_segments_spec
  split_ifs <;> simp

/-- The verdict under the preconditions of the comparison: the executable mapping is found,
the file opens and maps, the magic matches and entry `i` is the executable segment. -/
theorem lib_verdict_compare (w : World) (soname : List Char) (file : FileImage) (i : Nat)
    (hfound : ¬ ((find_info_from_maps w soname "x".toList).start = 0
      ∧ (find_info_from_maps w soname "x".toList).size = 0))
    (hopen : w.open_file (find_info_from_maps w soname "x".toList).pathname = some file)
    (hmap : ¬ (file.size = 0
      ∨ w.mmap_ok (find_info_from_maps w soname "x".toList).pathname = false))
    (hmagic : e_ident_magic file = ELFMAG)
    (hexec : last_entry (is_exec_entry file (find_info_from_maps w soname "x".toList))
      (e_phnum file) = some i) :
    lib_verdict w soname
      = compare_segments_spec w (find_info_from_maps w soname "x".toList)
          (find_info_from_maps w soname "rw".toList)
          (scan_phdrs_spec file (find_info_from_maps w soname "x".toList)
            (find_info_from_maps w soname "rw".toList) (e_phnum file)) := by
  unfold lib_verdict
  simp only []
  rw [if_neg hfound, hopen]
  simp only []
  rw [if_neg hmap, if_neg (by simpa using hmagic), hexec, if_neg (by simp)]

theorem check_lib_integrity_events (w : World) (g : CrcGlobals) (soname : List Char) :
    (check_lib_integrity w g soname).events = lib_events w soname := by
  unfold check_lib_integrity lib_events
  simp only []
  split
  · rfl
  · split
    · rfl
    · split
      · rfl
      · split
        · rfl
        · split <;> rfl

/-- The comparison on the closed form of the loop, in terms of the selected entries. -/
theorem compare_segments_spec_iff (w : World) (file : FileImage) (ei di : map_info) (i : Nat)
    (hexec : last_entry (is_exec_entry file ei) (e_phnum file) = some i) :
    compare_segments_spec w ei di (scan_phdrs_spec file ei di (e_phnum file)) = 1 ↔
      (disk_crc file i ≠ live_crc w file i ei.start
        ∨ ∃ j, last_entry (is_data_entry file ei di) (e_phnum file) = some j
            ∧ w.mprotect_ok di.start (p_memsz file j) (PROT_READ ||| PROT_WRITE) = true
            ∧ disk_crc file j ≠ live_crc w file j di.start) := by
  unfold compare_segments_spec scan_phdrs_spec live_crc
  simp only [hexec]
  cases hd : last_entry (is_data_entry file ei di) (e_phnum file) with
  | none =>
    simp only [Option.isSome_none, Bool.false_eq_true, false_and, if_false]
    constructor
    · intro h
      left
      by_contra hne
      rw [if_neg (fun h2 => h2 hne.symm)] at h
      cases h
    · intro h
      rcases h with h | ⟨j, hj, _⟩
      · rw [if_pos (Ne.symm h)]
      · cases hj
  | some j =>
    have hj := (last_entry_some _ _ _ hd).2.1
    have hstart : di.start ≠ 0 := by
      unfold is_data_entry at hj
      exact (of_decide_eq_true hj).2.2.2.1
    simp only [Option.isSome_some, true_and]
    constructor
    · intro h
      by_cases hne : disk_crc file i ≠ crc32_spec (mem_bytes w ei.start (p_memsz file i))
      · exact Or.inl hne
      · right
        rw [if_neg (fun h2 => hne (Ne.symm h2))] at h
        by_cases hc : di.start ≠ 0 ∧
            w.mprotect_ok di.start (p_memsz file j) (PROT_READ ||| PROT_WRITE) = true ∧
            disk_crc file j ≠ crc32_spec (mem_bytes w di.start (p_memsz file j))
        · exact ⟨j, rfl, hc.2.1, hc.2.2⟩
        · rw [if_neg hc] at h; cases h
    · intro h
      rcases h with h | ⟨j2, hj2, hp, hne⟩
      · rw [if_pos (Ne.symm h)]
      · cases hj2
        by_cases hne1 : crc32_spec (mem_bytes w ei.start (p_memsz file i)) ≠ disk_crc file i
        · rw [if_pos hne1]
        · rw [if_neg hne1, if_pos ⟨hstart, hp, hne⟩]

/-- C1 (amended): when the executable mapping is found, the on-disk file is a valid ELF and
entry `i` is the matching executable segment, `check_lib_integrity` returns 1 exactly when the
CRC-32 of the disk bytes differs from the CRC-32 of the live bytes for the executable segment,
or for the data segment when a data segment is present and the `mprotect` of its live region
succeeded; it returns 0 otherwise. On an unmodified module (live bytes equal to disk bytes)
the checksums are equal and two consecutive calls both return 0. -/
theorem check_lib_integrity_verdict (w : World) (g : CrcGlobals) (soname : List Char)
    (ei di : map_info) (file : FileImage) (i : Nat)
    (hg : CrcReachable g)
    (hei : find_info_from_maps w soname "x".toList = ei)
    (hdi : find_info_from_maps w soname "rw".toList = di)
    (hfound : ¬ (ei.start = 0 ∧ ei.size = 0))
    (hopen : w.open_file ei.pathname = some file)
    (hmap : ¬ (file.size = 0 ∨ w.mmap_ok ei.pathname = false))
    (hmagic : e_ident_magic file = ELFMAG)
    (hexec : last_entry (is_exec_entry file ei) (e_phnum file) = some i) :
    ((check_lib_integrity w g soname).ret = 1 ↔
        (disk_crc file i ≠ live_crc w file i ei.start
          ∨ ∃ j, last_entry (is_data_entry file ei di) (e_phnum file) = some j
              ∧ w.mprotect_ok di.start (p_memsz file j) (PROT_READ ||| PROT_WRITE) = true
              ∧ disk_crc file j ≠ live_crc w file j di.start))
    ∧ ((check_lib_integrity w g soname).ret = 1 ∨ (check_lib_integrity w g soname).ret = 0)
    ∧ (mem_bytes w ei.start (p_memsz file i) = file_bytes file (p_offset file i) (p_memsz file i)
        → (∀ j, last_entry (is_data_entry file ei di) (e_phnum file) = some j →
            mem_bytes w di.start (p_memsz file j)
              = file_bytes file (p_offset file j) (p_memsz file j))
        → disk_crc file i = live_crc w file i ei.start
          ∧ (∀ j, last_entry (is_data_entry file ei di) (e_phnum file) = some j →
              disk_crc file j = live_crc w file j di.start)
          ∧ (check_lib_integrity w g soname).ret = 0
          ∧ (check_lib_integrity w (check_lib_integrity w g soname).globals soname).ret = 0) := by
  subst hei hdi
  have hv := lib_verdict_compare w soname file i hfound hopen hmap hmagic hexec
  have hiff := compare_segments_spec_iff w file (find_info_from_maps w soname "x".toList)
    (find_info_from_maps w soname "rw".toList) i hexec
  have hr1 := check_lib_integrity_ret w g soname hg
  have hr2 := check_lib_integrity_ret w _ soname (check_lib_integrity_reachable w g soname hg)
  rw [← hv] at hiff
  refine ⟨by rw [hr1]; exact hiff, ?_, ?_⟩
  · rw [hr1, hv]; exact compare_segments_spec_range _ _ _ _
  · intro hx hd
    have hcrc : disk_crc file i
        = live_crc w file i (find_info_from_maps w soname "x".toList).start := by
      unfold disk_crc live_crc; rw [hx]
    have hnot : ¬ lib_verdict w soname = 1 := by
      rw [hiff]
      intro h
      rcases h with h | ⟨j, hj, _, hne⟩
      · exact h hcrc
      · apply hne
        unfold disk_crc live_crc
        rw [hd j hj]
    have hzero : lib_verdict w soname = 0 := by
      have := compare_segments_spec_range w (find_info_from_maps w soname "x".toList)
        (find_info_from_maps w soname "rw".toList)
        (scan_phdrs_spec file (find_info_from_maps w soname "x".toList)
          (find_info_from_maps w soname "rw".toList) (e_phnum file))
      rw [← hv] at this
      rcases this with h | h
      · exact absurd h hnot
      · exact h
    have hdcrc : ∀ j, last_entry (is_data_entry file (find_info_from_maps w soname "x".toList)
        (find_info_from_maps w soname "rw".toList)) (e_phnum file) = some j →
        disk_crc file j
          = live_crc w file j (find_info_from_maps w soname "rw".toList).start := by
      intro j hj
      unfold disk_crc live_crc
      rw [hd j hj]
    exact ⟨hcrc, hdcrc, by rw [hr1]; exact hzero, by rw [hr2]; exact hzero⟩

theorem sample_find_exec (code data : List Byte) (prot : Bool) :
    find_info_from_maps (sample_world code data prot) "lib.so".toList "x".toList
      = sample_exec_info := by
  show find_info_loop "lib.so".toList "x".toList (read_lines 512 sample_maps) = sample_exec_info
  decide!

theorem sample_find_data (code data : List Byte) (prot : Bool) :
    find_info_from_maps (sample_world code data prot) "lib.so".toList "rw".toList
      = sample_data_info := by
  show find_info_loop "lib.so".toList "rw".toList (read_lines 512 sample_maps)
    = sample_data_info
  decide!

theorem sample_open (code data : List Byte) (prot : Bool) :
    (sample_world code data prot).open_file sample_exec_info.pathname = some sample_elf := by
  show (if sample_exec_info.pathname = "/x/lib.so".toList then some sample_elf else none)
    = some sample_elf
  exact if_pos (by decide!)

theorem sample_mappable (code data : List Byte) (prot : Bool) :
    ¬ (sample_elf.size = 0
      ∨ (sample_world code data prot).mmap_ok sample_exec_info.pathname = false) := by
  show ¬ (sample_elf.size = 0 ∨ true = false)
  decide!

theorem sample_magic : e_ident_magic sample_elf = ELFMAG := by decide!

theorem sample_exec_entry :
    last_entry (is_exec_entry sample_elf sample_exec_info) (e_phnum sample_elf) = some 1 := by
  decide!

theorem sample_data_entry :
    last_entry (is_data_entry sample_elf sample_exec_info sample_data_info)
      (e_phnum sample_elf) = some 2 := by
  decide!

/-- Witness for C1: the sample module, unmodified, is checked twice and both calls return 0. -/
theorem check_lib_integrity_verdict_witness :
    CrcReachable crc32_globals_init
    ∧ disk_crc sample_elf 1
        = live_crc (sample_world sample_code sample_data true) sample_elf 1
            sample_exec_info.start
    ∧ (∀ j, last_entry (is_data_entry sample_elf sample_exec_info sample_data_info)
          (e_phnum sample_elf) = some j →
        disk_crc sample_elf j
          = live_crc (sample_world sample_code sample_data true) sample_elf j
              sample_data_info.start)
    ∧ (check_lib_integrity (sample_world sample_code sample_data true) crc32_globals_init
        "lib.so".toList).ret = 0
    ∧ (check_lib_integrity (sample_world sample_code sample_data true)
        (check_lib_integrity (sample_world sample_code sample_data true) crc32_globals_init
          "lib.so".toList).globals "lib.so".toList).ret = 0 :=
  ⟨CrcReachable.init,
   (check_lib_integrity_verdict (sample_world sample_code sample_data true) crc32_globals_init
      "lib.so".toList sample_exec_info sample_data_info sample_elf 1 CrcReachable.init
      (sample_find_exec _ _ _) (sample_find_data _ _ _) (by decide!) (sample_open _ _ _)
      (sample_mappable _ _ _) sample_magic sample_exec_entry).2.2
    (by decide!)
    (fun j hj => by
      have h1 : j = 2 := Option.some.inj (sample_data_entry.symm.trans hj).symm
      subst h1
      decide!)⟩

/-- Counterexample to C1 as stated: the sample module with its data segment patched in memory
and the `mprotect` of the data region failing. The executable mapping is found, the file is a
valid ELF, entry 1 is the matching executable segment and entry 2 the data segment; the data
checksums differ, yet `check_lib_integrity` returns 0. -/
theorem check_lib_integrity_unprotected_data_cex :
    find_info_from_maps (sample_world sample_code patched_data false) "lib.so".toList
        "x".toList = sample_exec_info
    ∧ e_ident_magic sample_elf = ELFMAG
    ∧ last_entry (is_exec_entry sample_elf sample_exec_info) (e_phnum sample_elf) = some 1
    ∧ last_entry (is_data_entry sample_elf sample_exec_info sample_data_info)
        (e_phnum sample_elf) = some 2
    ∧ disk_crc sample_elf 2
        ≠ live_crc (sample_world sample_code patched_data false) sample_elf 2
            sample_data_info.start
    ∧ (check_lib_integrity (sample_world sample_code patched_data false) crc32_globals_init
        "lib.so".toList).ret = 0 := by
  refine ⟨sample_find_exec _ _ _, sample_magic, sample_exec_entry, sample_data_entry,
    by decide!, by decide!⟩

/-! ### Selection of the executable segment -/

theorem is_exec_entry_iff (file : FileImage) (ei : map_info) (k : Nat) :
    is_exec_entry file ei k = true ↔
      p_type file k = PT_LOAD ∧ p_flags file k &&& PF_X ≠ 0 ∧ p_offset file k = ei.offset := by
  unfold is_exec_entry
  exact decide_eq_true_iff

/-- The value returned once the file is mapped and its magic matches. -/
theorem check_lib_integrity_mapped (w : World) (g : CrcGlobals) (soname : List Char)
    (file : FileImage)
    (hfound : ¬ ((find_info_from_maps w soname "x".toList).start = 0
      ∧ (find_info_from_maps w soname "x".toList).size = 0))
    (hopen : w.open_file (find_info_from_maps w soname "x".toList).pathname = some file)
    (hmap : ¬ (file.size = 0
      ∨ w.mmap_ok (find_info_from_maps w soname "x".toList).pathname = false))
    (hmagic : e_ident_magic file = ELFMAG) :
    (check_lib_integrity w g soname).ret =
      if (scan_phdrs file (find_info_from_maps w soname "x".toList)
          (find_info_from_maps w soname "rw".toList) g).1.found_exec = false then -1
      else (compare_segments w (find_info_from_maps w soname "x".toList)
        (find_info_from_maps w soname "rw".toList)
        (scan_phdrs file (find_info_from_maps w soname "x".toList)
          (find_info_from_maps w soname "rw".toList) g).1
        (scan_phdrs file (find_info_from_maps w soname "x".toList)
          (find_info_from_maps w soname "rw".toList) g).2).1 := by
  unfold check_lib_integrity
  simp only []
  rw [if_neg hfound, hopen]
  simp only []
  rw [if_neg hmap, if_neg (by simpa using hmagic)]
  split <;> rfl

/-- C3: once the file is mapped and its magic matches, the disk checksum that
`check_lib_integrity` compares for the executable segment comes from a program-header entry of
type PT_LOAD with PF_X set whose `p_offset` equals the offset of the executable mapping, over
`p_memsz` bytes from `p_offset` (the last such entry of the table; an executable entry with
another offset is never selected); when no entry qualifies the function returns -1. -/
theorem check_lib_integrity_exec_segment (w : World) (g : CrcGlobals) (soname : List Char)
    (ei di : map_info) (file : FileImage)
    (hg : CrcReachable g)
    (hei : find_info_from_maps w soname "x".toList = ei)
    (hdi : find_info_from_maps w soname "rw".toList = di)
    (hfound : ¬ (ei.start = 0 ∧ ei.size = 0))
    (hopen : w.open_file ei.pathname = some file)
    (hmap : ¬ (file.size = 0 ∨ w.mmap_ok ei.pathname = false))
    (hmagic : e_ident_magic file = ELFMAG) :
    ((∀ i, i < e_phnum file →
        ¬ (p_type file i = PT_LOAD ∧ p_flags file i &&& PF_X ≠ 0 ∧ p_offset file i = ei.offset))
      → (check_lib_integrity w g soname).ret = -1)
    ∧ ((∃ i, i < e_phnum file ∧ p_type file i = PT_LOAD ∧ p_flags file i &&& PF_X ≠ 0
          ∧ p_offset file i = ei.offset)
      → ∃ k, k < e_phnum file ∧ p_type file k = PT_LOAD ∧ p_flags file k &&& PF_X ≠ 0
          ∧ p_offset file k = ei.offset
          ∧ (∀ j, k < j → j < e_phnum file →
              ¬ (p_type file j = PT_LOAD ∧ p_flags file j &&& PF_X ≠ 0
                ∧ p_offset file j = ei.offset))
          ∧ (scan_phdrs file ei di g).1.found_exec = true
          ∧ (scan_phdrs file ei di g).1.exec_disk_crc
              = crc32_spec (file_bytes file (p_offset file k) (p_memsz file k))
          ∧ (scan_phdrs file ei di g).1.exec_segment_size = p_memsz file k
          ∧ (check_lib_integrity w g soname).ret
              = (compare_segments w ei di (scan_phdrs file ei di g).1
                  (scan_phdrs file ei di g).2).1
          ∧ (check_lib_integrity w g soname).ret ≠ -1) := by
  subst hei hdi
  have hm := check_lib_integrity_mapped w g soname file hfound hopen hmap hmagic
  obtain ⟨hs1, hs2⟩ := scan_phdrs_eq file (find_info_from_maps w soname "x".toList)
    (find_info_from_maps w soname "rw".toList) g hg
  constructor
  · intro hnone
    have hl : last_entry (is_exec_entry file (find_info_from_maps w soname "x".toList))
        (e_phnum file) = none := by
      rw [last_entry_none]
      intro i hi
      cases hb : is_exec_entry file (find_info_from_maps w soname "x".toList) i with
      | false => rfl
      | true => exact absurd ((is_exec_entry_iff _ _ _).1 hb) (hnone i hi)
    rw [hm, hs1, if_pos (by simp only [scan_phdrs_spec, hl]; rfl)]
  · rintro ⟨i, hi, hq⟩
    cases hl : last_entry (is_exec_entry file (find_info_from_maps w soname "x".toList))
        (e_phnum file) with
    | none =>
      have := (last_entry_none _ _).1 hl i hi
      rw [(is_exec_entry_iff _ _ _).2 hq] at this
      cases this
    | some k =>
      obtain ⟨hk1, hk2, hk3⟩ := last_entry_some _ _ _ hl
      have hk2b := (is_exec_entry_iff _ _ _).1 hk2
      have hfe : (scan_phdrs file (find_info_from_maps w soname "x".toList)
          (find_info_from_maps w soname "rw".toList) g).1.found_exec = true := by
        rw [hs1]; simp only [scan_phdrs_spec, hl]; rfl
      have hret : (check_lib_integrity w g soname).ret
          = (compare_segments w (find_info_from_maps w soname "x".toList)
              (find_info_from_maps w soname "rw".toList)
              (scan_phdrs file (find_info_from_maps w soname "x".toList)
                (find_info_from_maps w soname "rw".toList) g).1
              (scan_phdrs file (find_info_from_maps w soname "x".toList)
                (find_info_from_maps w soname "rw".toList) g).2).1 := by
        rw [hm, if_neg (by rw [hfe]; decide)]
      refine ⟨k, hk1, hk2b.1, hk2b.2.1, hk2b.2.2, ?_, hfe, ?_, ?_, hret, ?_⟩
      · intro j hj1 hj2 hq2
        have := hk3 j hj1 hj2
        rw [(is_exec_entry_iff _ _ _).2 hq2] at this
        cases this
      · rw [hs1]; simp only [scan_phdrs_spec, hl]; rfl
      · rw [hs1]; simp only [scan_phdrs_spec, hl]
      · rw [hret, (compare_segments_eq w _ _ _ _ hs2).1]
        rcases compare_segments_spec_range w (find_info_from_maps w soname "x".toList)
          (find_info_from_maps w soname "rw".toList)
          (scan_phdrs file (find_info_from_maps w soname "x".toList)
            (find_info_from_maps w soname "rw".toList) g).1 with h | h <;> rw [h] <;> decide

/-- Witness for C3: in the sample module entry 1 is selected and its four code bytes are
checksummed. -/
theorem check_lib_integrity_exec_segment_witness :
    ∃ k, k < e_phnum sample_elf ∧ p_type sample_elf k = PT_LOAD
      ∧ p_flags sample_elf k &&& PF_X ≠ 0
      ∧ p_offset sample_elf k = sample_exec_info.offset
      ∧ (∀ j, k < j → j < e_phnum sample_elf →
          ¬ (p_type sample_elf j = PT_LOAD ∧ p_flags sample_elf j &&& PF_X ≠ 0
            ∧ p_offset sample_elf j = sample_exec_info.offset))
      ∧ (scan_phdrs sample_elf sample_exec_info sample_data_info crc32_globals_init).1.found_exec
          = true
      ∧ (scan_phdrs sample_elf sample_exec_info sample_data_info
            crc32_globals_init).1.exec_disk_crc
          = crc32_spec (file_bytes sample_elf (p_offset sample_elf k) (p_memsz sample_elf k))
      ∧ (scan_phdrs sample_elf sample_exec_info sample_data_info
            crc32_globals_init).1.exec_segment_size = p_memsz sample_elf k
      ∧ (check_lib_integrity (sample_world sample_code sample_data true) crc32_globals_init
            "lib.so".toList).ret
          = (compare_segments (sample_world sample_code sample_data true) sample_exec_info
              sample_data_info
              (scan_phdrs sample_elf sample_exec_info sample_data_info crc32_globals_init).1
              (scan_phdrs sample_elf sample_exec_info sample_data_info crc32_globals_init).2).1
      ∧ (check_lib_integrity (sample_world sample_code sample_data true) crc32_globals_init
            "lib.so".toList).ret ≠ -1 :=
  (check_lib_integrity_exec_segment (sample_world sample_code sample_data true)
    crc32_globals_init "lib.so".toList sample_exec_info sample_data_info sample_elf
    CrcReachable.init (sample_find_exec _ _ _) (sample_find_data _ _ _) (by decide!)
    (sample_open _ _ _) (sample_mappable _ _ _) sample_magic).2
    ⟨1, by decide!, by decide!, by decide!, by decide!⟩

/-! ### Failure of `mprotect` -/

theorem compare_segments_mprotect (w : World) (mp : Nat → Nat → Nat → Bool)
    (ei di : map_info) (sc : SegScan) (g : CrcGlobals)
    (hmp : ∀ a l, mp a l (PROT_READ ||| PROT_WRITE)
      = w.mprotect_ok a l (PROT_READ ||| PROT_WRITE)) :
    compare_segments { w with mprotect_ok := mp } ei di sc g = compare_segments w ei di sc g := by
  unfold compare_segments
  simp only [hmp]
  rfl

theorem check_lib_integrity_mprotect_exec (w : World) (mp : Nat → Nat → Nat → Bool)
    (g : CrcGlobals) (soname : List Char)
    (hmp : ∀ a l, mp a l (PROT_READ ||| PROT_WRITE)
      = w.mprotect_ok a l (PROT_READ ||| PROT_WRITE)) :
    check_lib_integrity { w with mprotect_ok := mp } g soname
      = check_lib_integrity w g soname := by
  have hfi : ∀ p, find_info_from_maps { w with mprotect_ok := mp } soname p
      = find_info_from_maps w soname p := fun _ => rfl
  unfold check_lib_integrity
  simp only [hfi, compare_segments_mprotect w mp _ _ _ _ hmp]

/-- The comparison when the `mprotect` of the data region fails: only the executable
segment decides. -/
theorem compare_segments_spec_unprotected (w : World) (file : FileImage) (ei di : map_info)
    (i j : Nat)
    (hexec : last_entry (is_exec_entry file ei) (e_phnum file) = some i)
    (hdata : last_entry (is_data_entry file ei di) (e_phnum file) = some j)
    (hprot : w.mprotect_ok di.start (p_memsz file j) (PROT_READ ||| PROT_WRITE) = false) :
    compare_segments_spec w ei di (scan_phdrs_spec file ei di (e_phnum file)) = 1 ↔
      disk_crc file i ≠ live_crc w file i ei.start := by
  rw [compare_segments_spec_iff w file ei di i hexec]
  constructor
  · intro h
    rcases h with h | ⟨j2, hj2, hp, _⟩
    · exact h
    · rw [hdata] at hj2
      cases hj2
      rw [hprot] at hp
      cases hp
  · intro h; exact Or.inl h

/-- C7 (amended): the outcome of the `mprotect` of the executable region never changes what
`check_lib_integrity` does: the live checksum of the executable segment is computed and
compared whether that call succeeded or failed. When the `mprotect` of the data region fails
the data segment is not compared, and the verdict is that of the executable segment alone. -/
theorem check_lib_integrity_mprotect (w : World) (g : CrcGlobals) (soname : List Char)
    (hg : CrcReachable g) :
    (∀ mp : Nat → Nat → Nat → Bool,
        (∀ a l, mp a l (PROT_READ ||| PROT_WRITE)
          = w.mprotect_ok a l (PROT_READ ||| PROT_WRITE)) →
        check_lib_integrity { w with mprotect_ok := mp } g soname
          = check_lib_integrity w g soname)
    ∧ (∀ (ei di : map_info) (file : FileImage) (i j : Nat),
        find_info_from_maps w soname "x".toList = ei →
        find_info_from_maps w soname "rw".toList = di →
        ¬ (ei.start = 0 ∧ ei.size = 0) →
        w.open_file ei.pathname = some file →
        ¬ (file.size = 0 ∨ w.mmap_ok ei.pathname = false) →
        e_ident_magic file = ELFMAG →
        last_entry (is_exec_entry file ei) (e_phnum file) = some i →
        last_entry (is_data_entry file ei di) (e_phnum file) = some j →
        w.mprotect_ok di.start (p_memsz file j) (PROT_READ ||| PROT_WRITE) = false →
        ((check_lib_integrity w g soname).ret = 1 ↔
          disk_crc file i ≠ live_crc w file i ei.start)) := by
  refine ⟨fun mp hmp => check_lib_integrity_mprotect_exec w mp g soname hmp, ?_⟩
  intro ei di file i j hei hdi hfound hopen hmap hmagic hexec hdata hprot
  subst hei hdi
  rw [check_lib_integrity_ret w g soname hg,
    lib_verdict_compare w soname file i hfound hopen hmap hmagic hexec]
  exact compare_segments_spec_unprotected w file _ _ i j hexec hdata hprot

/-- Witness for C7: the sample module with patched code. With every `mprotect` failing the
verdict is the one obtained when they succeed, and it is 1. -/
theorem check_lib_integrity_mprotect_witness :
    CrcReachable crc32_globals_init
    ∧ check_lib_integrity
        { sample_world patched_code sample_data false with
          mprotect_ok := fun _ _ _ => false }
        crc32_globals_init "lib.so".toList
      = check_lib_integrity (sample_world patched_code sample_data false) crc32_globals_init
          "lib.so".toList
    ∧ ((check_lib_integrity (sample_world patched_code sample_data false) crc32_globals_init
          "lib.so".toList).ret = 1 ↔
        disk_crc sample_elf 1
          ≠ live_crc (sample_world patched_code sample_data false) sample_elf 1
              sample_exec_info.start) :=
  ⟨CrcReachable.init,
   (check_lib_integrity_mprotect (sample_world patched_code sample_data false)
      crc32_globals_init "lib.so".toList CrcReachable.init).1
      (fun _ _ _ => false) (fun _ _ => rfl),
   (check_lib_integrity_mprotect (sample_world patched_code sample_data false)
      crc32_globals_init "lib.so".toList CrcReachable.init).2
      sample_exec_info sample_data_info sample_elf 1 2
      (sample_find_exec _ _ _) (sample_find_data _ _ _) (by decide!) (sample_open _ _ _)
      (sample_mappable _ _ _) sample_magic sample_exec_entry sample_data_entry (by decide!)⟩

/-- Counterexample to C7 as stated: the sample module with its data segment patched in
memory. Only the outcome of the `mprotect` of the data region differs between the two
processes; the verdict is 1 when it succeeds and 0 when it fails. -/
theorem check_lib_integrity_mprotect_data_cex :
    (check_lib_integrity (sample_world sample_code patched_data true) crc32_globals_init
        "lib.so".toList).ret = 1
    ∧ (check_lib_integrity (sample_world sample_code patched_data false) crc32_globals_init
        "lib.so".toList).ret = 0 := by
  refine ⟨by decide!, by decide!⟩

/-! ### A single flipped byte -/

/-- C2 (amended): two byte sequences of the same length that differ in exactly one byte have
different `crc32` values, from whatever reachable table states the two calls start; so when
the live bytes of the executable segment differ from its disk bytes in exactly one byte
`check_lib_integrity` returns 1, and so does it for the data segment provided the data segment
is compared (it is present and the `mprotect` of its region succeeded). -/
theorem single_byte_tamper_detected :
    (∀ (g g' : CrcGlobals) (pre post : List Byte) (a b : Byte),
        CrcReachable g → CrcReachable g' → a ≠ b →
        (crc32 g (pre ++ a :: post)).1 ≠ (crc32 g' (pre ++ b :: post)).1)
    ∧ (∀ (w : World) (g : CrcGlobals) (soname : List Char) (ei di : map_info)
        (file : FileImage) (i : Nat) (pre post : List Byte) (a b : Byte),
        CrcReachable g →
        find_info_from_maps w soname "x".toList = ei →
        find_info_from_maps w soname "rw".toList = di →
        ¬ (ei.start = 0 ∧ ei.size = 0) →
        w.open_file ei.pathname = some file →
        ¬ (file.size = 0 ∨ w.mmap_ok ei.pathname = false) →
        e_ident_magic file = ELFMAG →
        last_entry (is_exec_entry file ei) (e_phnum file) = some i →
        file_bytes file (p_offset file i) (p_memsz file i) = pre ++ a :: post →
        mem_bytes w ei.start (p_memsz file i) = pre ++ b :: post →
        a ≠ b →
        (check_lib_integrity w g soname).ret = 1)
    ∧ (∀ (w : World) (g : CrcGlobals) (soname : List Char) (ei di : map_info)
        (file : FileImage) (i j : Nat) (pre post : List Byte) (a b : Byte),
        CrcReachable g →
        find_info_from_maps w soname "x".toList = ei →
        find_info_from_maps w soname "rw".toList = di →
        ¬ (ei.start = 0 ∧ ei.size = 0) →
        w.open_file ei.pathname = some file →
        ¬ (file.size = 0 ∨ w.mmap_ok ei.pathname = false) →
        e_ident_magic file = ELFMAG →
        last_entry (is_exec_entry file ei) (e_phnum file) = some i →
        last_entry (is_data_entry file ei di) (e_phnum file) = some j →
        w.mprotect_ok di.start (p_memsz file j) (PROT_READ ||| PROT_WRITE) = true →
        file_bytes file (p_offset file j) (p_memsz file j) = pre ++ a :: post →
        mem_bytes w di.start (p_memsz file j) = pre ++ b :: post →
        a ≠ b →
        (check_lib_integrity w g soname).ret = 1) := by
  refine ⟨?_, ?_, ?_⟩
  · intro g g' pre post a b hg hg' hab
    rw [crc32_fst_of_ok g (crcReachable_ok g hg), crc32_fst_of_ok g' (crcReachable_ok g' hg')]
    exact crc32_spec_single_byte pre post a b hab
  · intro w g soname ei di file i pre post a b hg hei hdi hfound hopen hmap hmagic hexec
      hdisk hlive hab
    subst hei hdi
    rw [check_lib_integrity_ret w g soname hg,
      lib_verdict_compare w soname file i hfound hopen hmap hmagic hexec,
      compare_segments_spec_iff w file _ _ i hexec]
    left
    unfold disk_crc live_crc
    rw [hdisk, hlive]
    exact crc32_spec_single_byte pre post a b hab
  · intro w g soname ei di file i j pre post a b hg hei hdi hfound hopen hmap hmagic hexec
      hdata hprot hdisk hlive hab
    subst hei hdi
    rw [check_lib_integrity_ret w g soname hg,
      lib_verdict_compare w soname file i hfound hopen hmap hmagic hexec,
      compare_segments_spec_iff w file _ _ i hexec]
    right
    refine ⟨j, hdata, hprot, ?_⟩
    unfold disk_crc live_crc
    rw [hdisk, hlive]
    exact crc32_spec_single_byte pre post a b hab

/-- Witness for C2: the sample module with the second code byte flipped from 0x90 to 0x91. -/
theorem single_byte_tamper_detected_witness :
    (crc32 crc32_globals_init ([0x90] ++ 0x90 :: [0xc3, 0x00])).1
        ≠ (crc32 crc32_globals_init ([0x90] ++ 0x91 :: [0xc3, 0x00])).1
    ∧ (check_lib_integrity (sample_world patched_code sample_data true) crc32_globals_init
        "lib.so".toList).ret = 1 :=
  ⟨single_byte_tamper_detected.1 crc32_globals_init crc32_globals_init [0x90] [0xc3, 0x00]
      0x90 0x91 CrcReachable.init CrcReachable.init (by decide),
   single_byte_tamper_detected.2.1 (sample_world patched_code sample_data true)
      crc32_globals_init "lib.so".toList sample_exec_info sample_data_info sample_elf 1
      [0x90] [0xc3, 0x00] 0x90 0x91 CrcReachable.init
      (sample_find_exec _ _ _) (sample_find_data _ _ _) (by decide!) (sample_open _ _ _)
      (sample_mappable _ _ _) sample_magic sample_exec_entry (by decide!) (by decide!)
      (by decide)⟩

/-- Counterexample to C2 as stated: the data segment of the sample module on disk and its live
region differ in exactly one byte (the last, 4 on disk and 5 in memory) and their checksums
differ, but the `mprotect` of the data region fails, the live bytes are not read, and
`check_lib_integrity` returns 0. -/
theorem single_byte_data_flip_undetected_cex :
    file_bytes sample_elf (p_offset sample_elf 2) (p_memsz sample_elf 2)
        = [1, 2, 3] ++ 4 :: []
    ∧ mem_bytes (sample_world sample_code patched_data false) sample_data_info.start
          (p_memsz sample_elf 2)
        = [1, 2, 3] ++ 5 :: []
    ∧ (crc32 crc32_globals_init ([1, 2, 3] ++ 4 :: [])).1
        ≠ (crc32 crc32_globals_init ([1, 2, 3] ++ 5 :: [])).1
    ∧ (sample_world sample_code patched_data false).mprotect_ok sample_data_info.start
          (p_memsz sample_elf 2) (PROT_READ ||| PROT_WRITE) = false
    ∧ (check_lib_integrity (sample_world sample_code patched_data false) crc32_globals_init
        "lib.so".toList).ret = 0 := by
  refine ⟨by decide!, by decide!, ?_, by decide!, by decide!⟩
  rw [crc32_fst_of_ok _ (crcReachable_ok _ CrcReachable.init),
    crc32_fst_of_ok _ (crcReachable_ok _ CrcReachable.init)]
  decide!

/-! ### The module list -/

theorem check_all_libs_integrity_cons_stop (w : World) (g : CrcGlobals) (m : List Char)
    (rest : List (List Char)) (h : (check_lib_integrity w g m).ret = 1) :
    check_all_libs_integrity w g (m :: rest)
      = { ret := 1, globals := (check_lib_integrity w g m).globals,
          events := (check_lib_integrity w g m).events } := by
  simp only [check_all_libs_integrity]
  rw [if_neg (by rw [h]; decide), if_pos h]

theorem check_all_libs_integrity_cons_continue (w : World) (g : CrcGlobals) (m : List Char)
    (rest : List (List Char)) (h : (check_lib_integrity w g m).ret ≠ 1) :
    check_all_libs_integrity w g (m :: rest)
      = { ret := (check_all_libs_integrity w (check_lib_integrity w g m).globals rest).ret,
          globals :=
            (check_all_libs_integrity w (check_lib_integrity w g m).globals rest).globals,
          events := (check_lib_integrity w g m).events
            ++ (check_all_libs_integrity w (check_lib_integrity w g m).globals rest).events } := by
  simp only [check_all_libs_integrity]
  by_cases h1 : (check_lib_integrity w g m).ret = -1
  · rw [if_pos h1]
  · rw [if_neg h1, if_neg h]

theorem check_all_libs_integrity_closed (w : World) (names : List (List Char)) (g : CrcGlobals)
    (hg : CrcReachable g) :
    ((check_all_libs_integrity w g names).ret = 1 ↔ ∃ m, m ∈ names ∧ lib_verdict w m = 1)
    ∧ ((check_all_libs_integrity w g names).ret = 1
        ∨ (check_all_libs_integrity w g names).ret = 0)
    ∧ ((∀ m, m ∈ names → lib_verdict w m ≠ 1) →
        (check_all_libs_integrity w g names).events = names.flatMap (lib_events w)) := by
  induction names generalizing g with
  | nil =>
    refine ⟨?_, Or.inr rfl, fun _ => rfl⟩
    simp [check_all_libs_integrity]
  | cons m rest ih =>
    have hr := check_lib_integrity_ret w g m hg
    have hre := check_lib_integrity_reachable w g m hg
    have he := check_lib_integrity_events w g m
    by_cases h1 : lib_verdict w m = 1
    · rw [check_all_libs_integrity_cons_stop w g m rest (by rw [hr]; exact h1)]
      refine ⟨?_, Or.inl rfl, ?_⟩
      · simp only [true_iff]
        exact ⟨m, List.mem_cons_self _ _, h1⟩
      · intro h
        exact absurd h1 (h m (List.mem_cons_self _ _))
    · rw [check_all_libs_integrity_cons_continue w g m rest (by rw [hr]; exact h1)]
      obtain ⟨ih1, ih2, ih3⟩ := ih _ hre
      refine ⟨?_, ih2, ?_⟩
      · simp only []
        rw [ih1]
        constructor
        · rintro ⟨x, hx, hv⟩
          exact ⟨x, List.mem_cons_of_mem _ hx, hv⟩
        · rintro ⟨x, hx, hv⟩
          rcases List.mem_cons.1 hx with hxm | hxr
          · subst hxm; exact absurd hv h1
          · exact ⟨x, hxr, hv⟩
      · intro h
        simp only []
        rw [ih3 (fun x hx => h x (List.mem_cons_of_mem _ hx)), he]
        rfl

theorem check_all_libs_integrity_short_circuit (w : World) (pre : List (List Char))
    (m : List Char) (post : List (List Char)) (g : CrcGlobals) (hg : CrcReachable g)
    (hpre : ∀ x, x ∈ pre → lib_verdict w x ≠ 1) (hm : lib_verdict w m = 1) :
    check_all_libs_integrity w g (pre ++ m :: post) = check_all_libs_integrity w g (pre ++ [m])
    ∧ (check_all_libs_integrity w g (pre ++ m :: post)).events
        = (pre ++ [m]).flatMap (lib_events w) := by
  induction pre generalizing g with
  | nil =>
    have hr := check_lib_integrity_ret w g m hg
    simp only [List.nil_append]
    rw [check_all_libs_integrity_cons_stop w g m post (by rw [hr]; exact hm),
      check_all_libs_integrity_cons_stop w g m [] (by rw [hr]; exact hm)]
    refine ⟨rfl, ?_⟩
    simp [check_lib_integrity_events]
  | cons x pre ih =>
    have hr := check_lib_integrity_ret w g x hg
    have hre := check_lib_integrity_reachable w g x hg
    have hx : (check_lib_integrity w g x).ret ≠ 1 := by
      rw [hr]; exact hpre x (List.mem_cons_self _ _)
    obtain ⟨ih1, ih2⟩ := ih _ hre (fun y hy => hpre y (List.mem_cons_of_mem _ hy))
    simp only [List.cons_append]
    rw [check_all_libs_integrity_cons_continue w g x _ hx,
      check_all_libs_integrity_cons_continue w g x _ hx, ih1]
    refine ⟨rfl, ?_⟩
    simp only []
    rw [← ih1, ih2, check_lib_integrity_events]
    rfl

/-- C6: `check_all_libs_integrity` returns 1 exactly when `check_lib_integrity` returns 1 for
at least one listed module, and 0 otherwise. A module whose check returns -1 is not tamper
evidence and does not stop the loop: when no module is tampered every listed module is
checked. The loop stops at the first tampered module: the modules after it change neither the
result nor the state, and no file of theirs is opened. -/
theorem check_all_libs_integrity_spec (w : World) (g : CrcGlobals) (names : List (List Char))
    (hg : CrcReachable g) :
    ((check_all_libs_integrity w g names).ret = 1 ↔
        ∃ m, m ∈ names ∧ (check_lib_integrity w g m).ret = 1)
    ∧ ((check_all_libs_integrity w g names).ret = 1
        ∨ (check_all_libs_integrity w g names).ret = 0)
    ∧ ((∀ m, m ∈ names → (check_lib_integrity w g m).ret ≠ 1) →
        (check_all_libs_integrity w g names).events
          = names.flatMap (fun m => (check_lib_integrity w g m).events))
    ∧ (∀ (pre : List (List Char)) (m : List Char) (post : List (List Char)),
        names = pre ++ m :: post →
        (∀ x, x ∈ pre → (check_lib_integrity w g x).ret ≠ 1) →
        (check_lib_integrity w g m).ret = 1 →
        check_all_libs_integrity w g names = check_all_libs_integrity w g (pre ++ [m])
        ∧ (check_all_libs_integrity w g names).events
            = (pre ++ [m]).flatMap (fun x => (check_lib_integrity w g x).events)) := by
  have hv : ∀ m, (check_lib_integrity w g m).ret = lib_verdict w m :=
    fun m => check_lib_integrity_ret w g m hg
  have hev : (fun m => (check_lib_integrity w g m).events) = lib_events w :=
    funext (fun m => check_lib_integrity_events w g m)
  obtain ⟨h1, h2, h3⟩ := check_all_libs_integrity_closed w names g hg
  simp only [hv, hev]
  refine ⟨h1, h2, h3, ?_⟩
  intro pre m post hn hpre hm
  subst hn
  exact check_all_libs_integrity_short_circuit w pre m post g hg hpre hm

/-! ### The map reader on well-formed text -/

theorem strstr_isSome_iff (hay needle : List Char) :
    (strstr hay needle).isSome = true ↔ needle <:+: hay := by
  induction hay with
  | nil =>
    unfold strstr
    cases needle with
    | nil => simp
    | cons a as => simp
  | cons c cs ih =>
    unfold strstr
    by_cases hp : needle.isPrefixOf (c :: cs) = true
    · rw [if_pos hp]
      have : needle <+: c :: cs := List.isPrefixOf_iff_prefix.1 hp
      simp only [Option.isSome_some, true_iff]
      exact this.isInfix
    · rw [if_neg hp, ih, List.infix_cons_iff]
      constructor
      · intro h; exact Or.inr h
      · intro h
        rcases h with h | h
        · have hp2 := List.isPrefixOf_iff_prefix.2 h
          exact absurd hp2 hp
        · exact h

theorem c_str_of_no_nul (s : List Char) (h : ∀ c, c ∈ s → c ≠ '\x00') : c_str s = s := by
  unfold c_str
  rw [List.takeWhile_eq_self_iff]
  intro c hc
  simpa using h c hc

theorem dropWhile_isspace_of_head (c : Char) (cs : List Char) (h : isspace c = false) :
    (c :: cs).dropWhile isspace = c :: cs := by
  simp [List.dropWhile, h]

theorem dropWhile_isspace_spaces (n : Nat) (s : List Char) :
    (List.replicate n ' ' ++ s).dropWhile isspace = s.dropWhile isspace := by
  induction n with
  | zero => rfl
  | succ n ih =>
    rw [List.replicate_succ, List.cons_append, List.dropWhile_cons]
    have : isspace ' ' = true := by decide
    rw [if_pos this, ih]

theorem hex_digit_not_space (c : Char) (h : (hex_digit c).isSome = true) :
    isspace c = false ∧ c ≠ '-' ∧ c ≠ '+' ∧ c ≠ 'x' ∧ c ≠ 'X' ∧ c ≠ '\x00' := by
  refine ⟨?_, ?_, ?_, ?_, ?_, ?_⟩
  · cases hs : isspace c with
    | false => rfl
    | true =>
      unfold isspace at hs
      simp only [Bool.or_eq_true, decide_eq_true_eq] at hs
      rcases hs with ((((h1 | h1) | h1) | h1) | h1) | h1 <;> subst h1 <;> revert h <;> decide
  all_goals (intro hc; subst hc; revert h; decide)

theorem take_hex_append (ds : List Char) (r : Char) (rs : List Char)
    (hds : ∀ c, c ∈ ds → (hex_digit c).isSome = true) (hr : hex_digit r = none) :
    take_hex (ds ++ r :: rs) = (ds.map (fun c => (hex_digit c).getD 0), r :: rs) := by
  induction ds with
  | nil =>
    simp only [List.nil_append, List.map_nil]
    unfold take_hex
    rw [hr]
  | cons d ds ih =>
    have hd := hds d (List.mem_cons_self _ _)
    obtain ⟨v, hv⟩ := Option.isSome_iff_exists.1 hd
    simp only [List.cons_append, List.map_cons]
    unfold take_hex
    rw [hv, ih (fun c hc => hds c (List.mem_cons_of_mem _ hc))]
    rfl

theorem hex_digits_value_map (ds : List Char) :
    hex_digits_value (ds.map (fun c => (hex_digit c).getD 0)) = hex_value ds := by
  unfold hex_digits_value hex_value
  rw [List.foldl_map]

theorem is_hex_number_iff (s : List Char) :
    is_hex_number s = true ↔
      s ≠ [] ∧ (∀ c, c ∈ s → (hex_digit c).isSome = true) ∧ hex_value s < 2 ^ 64 := by
  unfold is_hex_number
  simp only [Bool.and_eq_true, Bool.not_eq_true', List.isEmpty_eq_false, List.all_eq_true,
    decide_eq_true_eq, and_assoc]

/-- The directive `%lx` on a well-formed number followed by a separator. -/
theorem scan_lx_number (ds : List Char) (r : Char) (rs : List Char)
    (hds : is_hex_number ds = true) (hr : hex_digit r = none) (hrx : r ≠ 'x' ∧ r ≠ 'X') :
    scan_lx (ds ++ r :: rs) = some (hex_value ds, r :: rs) := by
  obtain ⟨hne, hall, hlt⟩ := (is_hex_number_iff ds).1 hds
  have htake := take_hex_append ds r rs hall hr
  have hmapne : ds.map (fun c => (hex_digit c).getD 0) ≠ [] := by
    intro h; exact hne (List.map_eq_nil_iff.1 h)
  have hval : to_ulong false (hex_digits_value (ds.map (fun c => (hex_digit c).getD 0)))
      = hex_value ds := by
    rw [hex_digits_value_map]
    unfold to_ulong
    rw [if_neg (by omega)]
    rfl
  cases ds with
  | nil => exact absurd rfl hne
  | cons d ds =>
    obtain ⟨h1, h2, h3, h4, h5, _⟩ := hex_digit_not_space d (hall d (List.mem_cons_self _ _))
    have hdigits : scan_lx_digits false (d :: ds ++ r :: rs)
        = some (hex_value (d :: ds), r :: rs) := by
      have hgen : (if (take_hex (d :: ds ++ r :: rs)).1 = [] then none
          else some (to_ulong false (hex_digits_value (take_hex (d :: ds ++ r :: rs)).1),
            (take_hex (d :: ds ++ r :: rs)).2)) = some (hex_value (d :: ds), r :: rs) := by
        rw [htake, if_neg hmapne, hval]
      have hgen2 : some (to_ulong false (hex_digits_value (take_hex (d :: ds ++ r :: rs)).1),
            (take_hex (d :: ds ++ r :: rs)).2) = some (hex_value (d :: ds), r :: rs) := by
        rw [htake, hval]
      cases ds with
      | nil =>
        simp only [List.cons_append, List.nil_append] at hgen hgen2 ⊢
        unfold scan_lx_digits
        split
        · next x t heq =>
          have hxr : x = r := by
            have := (List.cons.inj heq).2
            exact ((List.cons.inj this).1).symm
          rw [if_neg (by rw [hxr]; exact fun h => h.elim hrx.1 hrx.2)]
          exact hgen2
        · exact hgen
      | cons d2 ds2 =>
        obtain ⟨_, _, _, h4', h5', _⟩ :=
          hex_digit_not_space d2 (hall d2 (List.mem_cons_of_mem _ (List.mem_cons_self _ _)))
        simp only [List.cons_append] at hgen hgen2 ⊢
        unfold scan_lx_digits
        split
        · next x t heq =>
          have hxr : x = d2 := by
            have := (List.cons.inj heq).2
            exact ((List.cons.inj this).1).symm
          rw [if_neg (by rw [hxr]; exact fun h => h.elim h4' h5')]
          exact hgen2
        · exact hgen
    unfold scan_lx
    rw [List.cons_append, dropWhile_isspace_of_head d _ h1]
    split
    · next t heq => exact absurd (List.cons.inj heq).1 h2
    · next t heq => exact absurd (List.cons.inj heq).1 h3
    · exact hdigits

theorem take_nonspace_word (width : Nat) (tok : List Char) (rest : List Char)
    (htok : ∀ c, c ∈ tok → isspace c = false) (hlen : tok.length ≤ width)
    (hrest : rest = [] ∨ ∃ r rs, rest = r :: rs ∧ isspace r = true) :
    take_nonspace width (tok ++ rest) = (tok, rest) := by
  induction tok generalizing width with
  | nil =>
    simp only [List.nil_append]
    cases width with
    | zero => rfl
    | succ n =>
      rcases hrest with h | ⟨r, rs, h, hr⟩
      · subst h; rfl
      · subst h
        unfold take_nonspace
        rw [if_pos hr]
  | cons c cs ih =>
    cases width with
    | zero => simp at hlen
    | succ n =>
      simp only [List.cons_append]
      unfold take_nonspace
      have hc := htok c (List.mem_cons_self _ _)
      rw [if_neg (by rw [hc]; decide),
        ih n (fun x hx => htok x (List.mem_cons_of_mem _ hx)) (by simpa using hlen)]

/-- The directive `%<width>s` on a field followed by white space or the end of the input. -/
theorem scan_s_word (width : Nat) (tok : List Char) (rest : List Char)
    (hne : tok ≠ []) (htok : ∀ c, c ∈ tok → isspace c = false) (hlen : tok.length ≤ width)
    (hrest : rest = [] ∨ ∃ r rs, rest = r :: rs ∧ isspace r = true) :
    scan_s width (tok ++ rest) = some (tok, rest) := by
  cases tok with
  | nil => exact absurd rfl hne
  | cons c cs =>
    unfold scan_s
    rw [List.cons_append, dropWhile_isspace_of_head c _ (htok c (List.mem_cons_self _ _)),
      ← List.cons_append, take_nonspace_word width (c :: cs) rest htok hlen hrest]
    rw [if_neg (by simp)]

theorem scan_s_at_end (width : Nat) (s : List Char) (h : ∀ c, c ∈ s → isspace c = true) :
    scan_s width s = none := by
  have hd : s.dropWhile isspace = [] := by
    rw [List.dropWhile_eq_nil_iff]
    exact h
  unfold scan_s
  rw [hd]
  cases width <;> rfl

theorem sscanf_lx_step (ds : List ScanDirective) (s r : List Char) (v : Nat)
    (h : scan_lx s = some (v, r)) :
    sscanf (ScanDirective.lx :: ds) s = ScanValue.num v :: sscanf ds r := by
  simp only [sscanf, h]

theorem sscanf_lit_step (ds : List ScanDirective) (c : Char) (r : List Char) :
    sscanf (ScanDirective.lit c :: ds) (c :: r) = sscanf ds r := by
  simp only [sscanf, if_true]

theorem sscanf_ws_step (ds : List ScanDirective) (s : List Char) :
    sscanf (ScanDirective.ws :: ds) s = sscanf ds (s.dropWhile isspace) := by
  simp only [sscanf]

theorem sscanf_s_step (ds : List ScanDirective) (w : Nat) (s r v : List Char)
    (h : scan_s w s = some (v, r)) :
    sscanf (ScanDirective.s w :: ds) s = ScanValue.str v :: sscanf ds r := by
  simp only [sscanf, h]

theorem sscanf_s_fail (ds : List ScanDirective) (w : Nat) (s : List Char)
    (h : scan_s w s = none) : sscanf (ScanDirective.s w :: ds) s = [] := by
  simp only [sscanf, h]

theorem sscanf_skip_step (ds : List ScanDirective) (s r v : List Char)
    (h : scan_s s.length s = some (v, r)) :
    sscanf (ScanDirective.skip_s :: ds) s = sscanf ds r := by
  simp only [sscanf, h]

theorem is_field_char_iff (c : Char) :
    is_field_char c = true ↔ isspace c = false ∧ c ≠ '\x00' := by
  unfold is_field_char
  simp

/-- The conditions of `MapLine.well_formed`, one by one. -/
theorem well_formed_iff (l : MapLine) :
    l.well_formed = true ↔
      is_hex_number l.start_hex = true ∧ is_hex_number l.end_hex = true
      ∧ l.perms.length = 4 ∧ (∀ c, c ∈ l.perms → is_field_char c = true)
      ∧ is_hex_number l.offset_hex = true
      ∧ l.dev ≠ [] ∧ (∀ c, c ∈ l.dev → is_field_char c = true)
      ∧ l.inode ≠ [] ∧ (∀ c, c ∈ l.inode → is_field_char c = true)
      ∧ (∀ c, c ∈ l.pathname → is_field_char c = true) ∧ l.pathname.length < 256
      ∧ (l.pathname = [] ∨ 0 < l.gap)
      ∧ l.body.length < 512 := by
  unfold MapLine.well_formed
  simp only [Bool.and_eq_true, Bool.or_eq_true, Bool.not_eq_true', List.isEmpty_eq_false,
    List.all_eq_true, decide_eq_true_eq, and_assoc, List.isEmpty_iff]

theorem dropWhile_space_word (tok rest : List Char) (hne : tok ≠ [])
    (htok : ∀ c, c ∈ tok → isspace c = false) :
    (' ' :: (tok ++ rest)).dropWhile isspace = tok ++ rest := by
  have hs : isspace ' ' = true := by decide
  rw [List.dropWhile_cons, if_pos hs]
  cases tok with
  | nil => exact absurd rfl hne
  | cons c cs =>
    rw [List.cons_append]
    exact dropWhile_isspace_of_head c _ (htok c (List.mem_cons_self _ _))

theorem hex_number_head (s : List Char) (h : is_hex_number s = true) :
    s ≠ [] ∧ ∀ c, c ∈ s → isspace c = false := by
  obtain ⟨h1, h2, _⟩ := (is_hex_number_iff s).1 h
  exact ⟨h1, fun c hc => (hex_digit_not_space c (h2 c hc)).1⟩

/-- What `sscanf` stores for a well-formed line, with or without its newline. -/
theorem sscanf_maps_line (l : MapLine) (tail : List Char) (hwf : l.well_formed = true)
    (htail : tail = [] ∨ tail = ['\n']) :
    sscanf maps_line_format (l.body ++ tail) =
      if l.pathname = [] then
        [ScanValue.num (hex_value l.start_hex), ScanValue.num (hex_value l.end_hex),
          ScanValue.str l.perms, ScanValue.num (hex_value l.offset_hex)]
      else
        [ScanValue.num (hex_value l.start_hex), ScanValue.num (hex_value l.end_hex),
          ScanValue.str l.perms, ScanValue.num (hex_value l.offset_hex),
          ScanValue.str l.pathname] := by
  obtain ⟨hs, he, hp4, hp, ho, hdne, hd, hine, hi, hpath, hplen, hgap, _⟩ :=
    (well_formed_iff l).1 hwf
  have hsp : ∀ (s : List Char), (∀ c, c ∈ s → is_field_char c = true) →
      ∀ c, c ∈ s → isspace c = false :=
    fun s h c hc => ((is_field_char_iff c).1 (h c hc)).1
  have hpne : l.perms ≠ [] := by
    intro h; rw [h] at hp4; simp at hp4
  have htail_ws : ∀ c, c ∈ tail → isspace c = true := by
    rcases htail with h | h
    · subst h; intro c hc; cases hc
    · subst h; intro c hc; rw [List.mem_singleton.1 hc]; decide
  have htail_rest : tail = [] ∨ ∃ r rs, tail = r :: rs ∧ isspace r = true := by
    rcases htail with h | h
    · exact Or.inl h
    · exact Or.inr ⟨'\n', [], h, by decide⟩
  have hspace : ∀ rs : List Char, ∃ r rs', ' ' :: rs = r :: rs' ∧ isspace r = true :=
    fun rs => ⟨' ', rs, rfl, by decide⟩
  unfold maps_line_format MapLine.body
  simp only [List.append_assoc, List.cons_append]
  rw [sscanf_lx_step _ _ _ _ (scan_lx_number l.start_hex '-' _ hs (by decide) (by decide)),
    sscanf_lit_step,
    sscanf_lx_step _ _ _ _ (scan_lx_number l.end_hex ' ' _ he (by decide) (by decide)),
    sscanf_ws_step, dropWhile_space_word _ _ hpne (hsp _ hp),
    sscanf_s_step _ _ _ _ _ (scan_s_word 4 l.perms _ hpne (hsp _ hp) (by omega)
      (Or.inr (hspace _))),
    sscanf_ws_step, dropWhile_space_word _ _ (hex_number_head _ ho).1 (hex_number_head _ ho).2,
    sscanf_lx_step _ _ _ _ (scan_lx_number l.offset_hex ' ' _ ho (by decide) (by decide)),
    sscanf_ws_step, dropWhile_space_word _ _ hdne (hsp _ hd),
    sscanf_skip_step _ _ _ _ (scan_s_word _ l.dev _ hdne (hsp _ hd) (by simp)
      (Or.inr (hspace _))),
    sscanf_ws_step, dropWhile_space_word _ _ hine (hsp _ hi)]
  by_cases hpe : l.pathname = []
  · rw [if_pos hpe, hpe]
    simp only [List.nil_append]
    have hrest : ∀ c, c ∈ List.replicate l.gap ' ' ++ tail → isspace c = true := by
      intro c hc
      rcases List.mem_append.1 hc with h | h
      · rw [(List.mem_replicate.1 h).2]; decide
      · exact htail_ws c h
    have hrest2 : List.replicate l.gap ' ' ++ tail = []
        ∨ ∃ r rs, List.replicate l.gap ' ' ++ tail = r :: rs ∧ isspace r = true := by
      cases hrt : List.replicate l.gap ' ' ++ tail with
      | nil => exact Or.inl rfl
      | cons r rs =>
        refine Or.inr ⟨r, rs, rfl, hrest r ?_⟩
        rw [hrt]; exact List.mem_cons_self _ _
    rw [sscanf_skip_step _ _ _ _ (scan_s_word _ l.inode _ hine (hsp _ hi) (by simp) hrest2),
      sscanf_ws_step,
      sscanf_s_fail _ _ _ (scan_s_at_end 255 _ (by
        intro c hc
        exact hrest c ((List.dropWhile_suffix _).subset hc)))]
  · rw [if_neg hpe]
    have hg : 0 < l.gap := by
      rcases hgap with h | h
      · exact absurd h hpe
      · exact h
    have hrest2 : List.replicate l.gap ' ' ++ (l.pathname ++ tail) = []
        ∨ ∃ r rs, List.replicate l.gap ' ' ++ (l.pathname ++ tail) = r :: rs
            ∧ isspace r = true := by
      obtain ⟨n, hn⟩ := Nat.exists_eq_succ_of_ne_zero (Nat.pos_iff_ne_zero.1 hg)
      rw [hn, List.replicate_succ, List.cons_append]
      exact Or.inr (hspace _)
    rw [sscanf_skip_step _ _ _ _ (scan_s_word _ l.inode _ hine (hsp _ hi) (by simp) hrest2),
      sscanf_ws_step, dropWhile_isspace_spaces]
    cases hpc : l.pathname with
    | nil => exact absurd hpc hpe
    | cons c cs =>
      have hc : isspace c = false := hsp _ hpath c (by rw [hpc]; exact List.mem_cons_self _ _)
      rw [List.cons_append, dropWhile_isspace_of_head c _ hc, ← List.cons_append, ← hpc,
        sscanf_s_step _ _ _ _ _ (scan_s_word 255 l.pathname tail hpe (hsp _ hpath) (by omega)
          htail_rest)]
      rfl

theorem body_chars (l : MapLine) (hwf : l.well_formed = true) :
    ∀ c, c ∈ l.body → c ≠ '\n' ∧ c ≠ '\x00' := by
  obtain ⟨hs, he, _, hp, ho, _, hd, _, hi, hpath, _, _, _⟩ := (well_formed_iff l).1 hwf
  have hhex : ∀ s, is_hex_number s = true → ∀ c, c ∈ s → c ≠ '\n' ∧ c ≠ '\x00' := by
    intro s h c hc
    obtain ⟨h1, _, _, _, _, h6⟩ := hex_digit_not_space c (((is_hex_number_iff s).1 h).2.1 c hc)
    refine ⟨?_, h6⟩
    intro hn; subst hn; revert h1; decide
  have hfld : ∀ s : List Char, (∀ c, c ∈ s → is_field_char c = true) →
      ∀ c, c ∈ s → c ≠ '\n' ∧ c ≠ '\x00' := by
    intro s h c hc
    obtain ⟨h1, h2⟩ := (is_field_char_iff c).1 (h c hc)
    refine ⟨?_, h2⟩
    intro hn; subst hn; revert h1; decide
  have hsp : (' ' : Char) ≠ '\n' ∧ (' ' : Char) ≠ '\x00' := by decide
  have hdash : ('-' : Char) ≠ '\n' ∧ ('-' : Char) ≠ '\x00' := by decide
  intro c hc
  unfold MapLine.body at hc
  simp only [List.mem_append, List.mem_cons, List.mem_replicate] at hc
  rcases hc with h | h | h | h | h | h | h | h | h | h | h | h | h
  · exact hhex _ hs c h
  · rw [h]; exact hdash
  · exact hhex _ he c h
  · rw [h]; exact hsp
  · exact hfld _ hp c h
  · rw [h]; exact hsp
  · exact hhex _ ho c h
  · rw [h]; exact hsp
  · exact hfld _ hd c h
  · rw [h]; exact hsp
  · exact hfld _ hi c h
  · rw [h.2]; exact hsp
  · exact hfld _ hpath c h

theorem fgets_take_line (n : Nat) (pre rest : List Char) (hpre : ∀ c, c ∈ pre → c ≠ '\n')
    (hlen : pre.length < n) :
    fgets_take n (pre ++ '\n' :: rest) = (pre ++ ['\n'], rest) := by
  induction pre generalizing n with
  | nil =>
    cases n with
    | zero => simp at hlen
    | succ n =>
      simp only [List.nil_append]
      unfold fgets_take
      rw [if_pos rfl]
  | cons c cs ih =>
    cases n with
    | zero => simp at hlen
    | succ n =>
      simp only [List.cons_append]
      unfold fgets_take
      rw [if_neg (hpre c (List.mem_cons_self _ _)),
        ih n (fun x hx => hpre x (List.mem_cons_of_mem _ hx)) (by simpa using hlen)]

theorem fgets_take_full (pre rest : List Char) (hpre : ∀ c, c ∈ pre → c ≠ '\n') :
    fgets_take pre.length (pre ++ rest) = (pre, rest) := by
  induction pre with
  | nil => simp only [List.length_nil, List.nil_append]; unfold fgets_take; rfl
  | cons c cs ih =>
    simp only [List.length_cons, List.cons_append]
    unfold fgets_take
    rw [if_neg (hpre c (List.mem_cons_self _ _)),
      ih (fun x hx => hpre x (List.mem_cons_of_mem _ hx))]

theorem read_lines_fuel_cons (size fuel : Nat) (c : Char) (cs : List Char) :
    read_lines_fuel size (fuel + 1) (c :: cs)
      = c_str (fgets_take (size - 1) (c :: cs)).1
          :: read_lines_fuel size fuel (fgets_take (size - 1) (c :: cs)).2 := by
  simp only [read_lines_fuel, fgets]

theorem read_lines_fuel_nil (size fuel : Nat) : read_lines_fuel size fuel [] = [] := by
  cases fuel <;> simp [read_lines_fuel, fgets]

/-- The buffers read from a text made of well-formed lines. -/
theorem read_lines_fuel_well_formed (lines : List MapLine) (fuel : Nat)
    (hwf : ∀ l, l ∈ lines → l.well_formed = true)
    (hfuel : (lines.flatMap MapLine.text).length ≤ fuel) :
    read_lines_fuel 512 fuel (lines.flatMap MapLine.text) = lines.flatMap MapLine.buffers := by
  induction lines generalizing fuel with
  | nil => exact read_lines_fuel_nil 512 fuel
  | cons l rest ih =>
    have hl := hwf l (List.mem_cons_self _ _)
    have hrest : ∀ x, x ∈ rest → x.well_formed = true :=
      fun x hx => hwf x (List.mem_cons_of_mem _ hx)
    have hchars := body_chars l hl
    have hnl : ∀ c, c ∈ l.body → c ≠ '\n' := fun c hc => (hchars c hc).1
    have hlen : l.body.length < 512 := ((well_formed_iff l).1 hl).2.2.2.2.2.2.2.2.2.2.2.2
    simp only [List.flatMap_cons] at hfuel ⊢
    have htext : l.text ++ rest.flatMap MapLine.text
        = l.body ++ '\n' :: rest.flatMap MapLine.text := by
      unfold MapLine.text; simp
    rw [htext] at hfuel ⊢
    simp only [List.length_append, List.length_cons] at hfuel
    by_cases hshort : l.body.length < 511
    · have hbuf : l.buffers = [l.body ++ ['\n']] := by
        unfold MapLine.buffers; rw [if_pos hshort]
      obtain ⟨f, hf⟩ : ∃ f, fuel = f + 1 := ⟨fuel - 1, by omega⟩
      subst hf
      have hstr : c_str (l.body ++ ['\n']) = l.body ++ ['\n'] := by
        apply c_str_of_no_nul
        intro c hc
        rcases List.mem_append.1 hc with h | h
        · exact (hchars c h).2
        · simp only [List.mem_singleton] at h; subst h; decide
      cases hb : l.body ++ '\n' :: rest.flatMap MapLine.text with
      | nil => simp at hb
      | cons c cs =>
        rw [read_lines_fuel_cons, ← hb, fgets_take_line 511 l.body _ hnl hshort]
        simp only []
        rw [hstr, ih f hrest (by omega), hbuf]
        rfl
    · have hfull : l.body.length = 511 := by omega
      have hbuf : l.buffers = [l.body, ['\n']] := by
        unfold MapLine.buffers; rw [if_neg hshort]
      obtain ⟨f, hf⟩ : ∃ f, fuel = f + 2 := ⟨fuel - 2, by omega⟩
      subst hf
      have hstr : c_str l.body = l.body :=
        c_str_of_no_nul _ (fun c hc => (hchars c hc).2)
      cases hb : l.body ++ '\n' :: rest.flatMap MapLine.text with
      | nil => simp at hb
      | cons c cs =>
        have h511 : fgets_take (512 - 1) (l.body ++ '\n' :: rest.flatMap MapLine.text)
            = (l.body, '\n' :: rest.flatMap MapLine.text) := by
          have := fgets_take_full l.body ('\n' :: rest.flatMap MapLine.text) hnl
          rw [hfull] at this
          exact this
        rw [read_lines_fuel_cons, ← hb, h511]
        simp only []
        rw [read_lines_fuel_cons]
        have hone : fgets_take (512 - 1) ('\n' :: rest.flatMap MapLine.text)
            = (['\n'], rest.flatMap MapLine.text) := by
          simp only [fgets_take, if_true]
        rw [hone]
        simp only []
        rw [hstr, ih f hrest (by omega), hbuf]
        rfl

theorem read_lines_well_formed (lines : List MapLine)
    (hwf : ∀ l, l ∈ lines → l.well_formed = true) :
    read_lines 512 (lines.flatMap MapLine.text) = lines.flatMap MapLine.buffers :=
  read_lines_fuel_well_formed lines _ hwf (Nat.le_refl _)

theorem selects_iff (soname perm : List Char) (l : MapLine) :
    l.selects soname perm = true ↔
      (strstr l.perms perm).isSome = true ∧ (strstr l.pathname soname).isSome = true := by
  unfold MapLine.selects
  rw [decide_eq_true_iff, strstr_isSome_iff, strstr_isSome_iff]

/-- One iteration of the line loop on a buffer that holds a well-formed line. -/
theorem find_info_loop_buffer (soname perm : List Char) (l : MapLine) (tail : List Char)
    (more : List (List Char)) (hwf : l.well_formed = true)
    (htail : tail = [] ∨ tail = ['\n']) :
    find_info_loop soname perm ((l.body ++ tail) :: more)
      = if l.selects soname perm = true then l.info else find_info_loop soname perm more := by
  have hscan := sscanf_maps_line l tail hwf htail
  have hplen : l.pathname.length < 256 := ((well_formed_iff l).1 hwf).2.2.2.2.2.2.2.2.2.2.1
  have hsel := selects_iff soname perm l
  by_cases hpe : l.pathname = []
  · rw [if_pos hpe] at hscan
    rw [hpe] at hsel
    simp only [find_info_loop, hscan]
    by_cases hc : (strstr l.perms perm).isSome = true ∧ (strstr [] soname).isSome = true
    · rw [if_pos hc, if_pos (hsel.2 hc)]
      unfold MapLine.info
      rw [hpe]
    · rw [if_neg hc, if_neg (fun h => hc (hsel.1 h))]
  · rw [if_neg hpe] at hscan
    simp only [find_info_loop, hscan]
    by_cases hc : (strstr l.perms perm).isSome = true
        ∧ (strstr l.pathname soname).isSome = true
    · rw [if_pos hc, if_pos (hsel.2 hc)]
      unfold MapLine.info
      rw [List.take_of_length_le (by omega)]
    · rw [if_neg hc, if_neg (fun h => hc (hsel.1 h))]

theorem find_info_loop_newline (soname perm : List Char) (more : List (List Char)) :
    find_info_loop soname perm (['\n'] :: more) = find_info_loop soname perm more := by
  have h : sscanf maps_line_format ['\n'] = [] := by decide
  simp only [find_info_loop, h]

theorem find_info_loop_line (soname perm : List Char) (l : MapLine) (more : List (List Char))
    (hwf : l.well_formed = true) :
    find_info_loop soname perm (l.buffers ++ more)
      = if l.selects soname perm = true then l.info else find_info_loop soname perm more := by
  unfold MapLine.buffers
  by_cases hshort : l.body.length < 511
  · rw [if_pos hshort]
    exact find_info_loop_buffer soname perm l ['\n'] more hwf (Or.inr rfl)
  · rw [if_neg hshort]
    have h := find_info_loop_buffer soname perm l [] (['\n'] :: more) hwf (Or.inl rfl)
    rw [List.append_nil, find_info_loop_newline] at h
    exact h

theorem find_info_loop_lines (soname perm : List Char) (lines : List MapLine)
    (hwf : ∀ l, l ∈ lines → l.well_formed = true) :
    find_info_loop soname perm (lines.flatMap MapLine.buffers)
      = match lines.find? (MapLine.selects soname perm) with
        | some l => l.info
        | none => map_info_zero := by
  induction lines with
  | nil => rfl
  | cons l rest ih =>
    rw [List.flatMap_cons, find_info_loop_line soname perm l _ (hwf l (List.mem_cons_self _ _)),
      List.find?_cons]
    cases hs : l.selects soname perm with
    | true => simp
    | false =>
      simp only [Bool.false_eq_true, if_false]
      exact ih (fun x hx => hwf x (List.mem_cons_of_mem _ hx))

/-- C10: on a map text made of well-formed lines, `find_info_from_maps(soname, perm)` returns
the fields of the first line, in file order, whose permission string contains `perm` and whose
pathname contains `soname`: start, size = end - start (as an `unsigned long`), offset and
pathname; when no line matches every numeric field is 0 and the pathname is empty. -/
theorem find_info_from_maps_first_match (w : World) (lines : List MapLine)
    (soname perm : List Char)
    (hopen : w.fopen self_maps = some (lines.flatMap MapLine.text))
    (hwf : ∀ l, l ∈ lines → l.well_formed = true) :
    (find_info_from_maps w soname perm
        = match lines.find? (fun l => decide (perm <:+: l.perms ∧ soname <:+: l.pathname)) with
          | some l =>
            { start := hex_value l.start_hex,
              size := (hex_value l.end_hex + 2 ^ 64 - hex_value l.start_hex) % 2 ^ 64,
              offset := hex_value l.offset_hex,
              pathname := l.pathname }
          | none => { start := 0, size := 0, offset := 0, pathname := [] })
    ∧ (∀ l, lines.find? (fun l => decide (perm <:+: l.perms ∧ soname <:+: l.pathname)) = some l →
        hex_value l.start_hex ≤ hex_value l.end_hex →
        (find_info_from_maps w soname perm).size
          = hex_value l.end_hex - hex_value l.start_hex) := by
  have hmain : find_info_from_maps w soname perm
      = match lines.find? (MapLine.selects soname perm) with
        | some l => l.info
        | none => map_info_zero := by
    unfold find_info_from_maps
    rw [hopen]
    simp only []
    rw [read_lines_well_formed lines hwf, find_info_loop_lines soname perm lines hwf]
  refine ⟨hmain, ?_⟩
  intro l hl hle
  have hl2 : lines.find? (MapLine.selects soname perm) = some l := hl
  rw [hmain, hl2]
  simp only [MapLine.info]
  have hlt : hex_value l.end_hex < 2 ^ 64 := by
    have hmem := List.mem_of_find?_eq_some hl
    exact ((is_hex_number_iff _).1 ((well_formed_iff l).1 (hwf l hmem)).2.1).2.2
  omega

/-- Witness for C6: a module that is not mapped (its check returns -1), then the sample
module with patched code, then the sample module again. The result is 1 and the third entry
is never checked. -/
theorem check_all_libs_integrity_spec_witness :
    CrcReachable crc32_globals_init
    ∧ (check_lib_integrity (sample_world patched_code sample_data true) crc32_globals_init
        "nothere.so".toList).ret = -1
    ∧ (check_all_libs_integrity (sample_world patched_code sample_data true) crc32_globals_init
        ["nothere.so".toList, "lib.so".toList, "lib.so".toList]).ret = 1
    ∧ (check_all_libs_integrity (sample_world patched_code sample_data true) crc32_globals_init
          ["nothere.so".toList, "lib.so".toList, "lib.so".toList]
        = check_all_libs_integrity (sample_world patched_code sample_data true)
            crc32_globals_init (["nothere.so".toList] ++ ["lib.so".toList])
      ∧ (check_all_libs_integrity (sample_world patched_code sample_data true)
            crc32_globals_init
            ["nothere.so".toList, "lib.so".toList, "lib.so".toList]).events
          = (["nothere.so".toList] ++ ["lib.so".toList]).flatMap
              (fun x => (check_lib_integrity (sample_world patched_code sample_data true)
                crc32_globals_init x).events)) :=
  ⟨CrcReachable.init, by decide!,
   (check_all_libs_integrity_spec (sample_world patched_code sample_data true)
      crc32_globals_init ["nothere.so".toList, "lib.so".toList, "lib.so".toList]
      CrcReachable.init).1.2 ⟨"lib.so".toList, by decide, by decide!⟩,
   (check_all_libs_integrity_spec (sample_world patched_code sample_data true)
      crc32_globals_init ["nothere.so".toList, "lib.so".toList, "lib.so".toList]
      CrcReachable.init).2.2.2 ["nothere.so".toList] "lib.so".toList ["lib.so".toList] rfl
      (fun x hx => by rw [List.mem_singleton.1 hx]; decide!) (by decide!)⟩

/-- Witness for C10: the line of the specification's example. -/
theorem find_info_from_maps_first_match_witness :
    example_line.text = "400000-401000 r-xp 00000000 00:00 0  /x/lib.so\n".toList
    ∧ find_info_from_maps (maps_world example_line.text) "lib.so".toList "x".toList
        = { start := 0x400000, size := 0x1000, offset := 0, pathname := "/x/lib.so".toList } :=
  ⟨by decide!,
   (find_info_from_maps_first_match (maps_world example_line.text) [example_line]
      "lib.so".toList "x".toList (by decide!)
      (fun l hl => by rw [List.mem_singleton.1 hl]; decide!)).1.trans (by decide!)⟩

/-! ### The aggregator -/

theorem report_if_abnormal (value : Int) (finding : List Char) (r : Report)
    (h : r.is_env_abnormal = true ∨ value ≠ 0) :
    (report_if value finding r).is_env_abnormal = true := by
  unfold report_if
  by_cases hv : value ≠ 0
  · rw [if_pos hv]
  · rw [if_neg hv]
    rcases h with h | h
    · exact h
    · exact absurd h hv

/-- With an empty word list the maps scan is inconclusive, on every process. -/
theorem is_maps_sensitive_empty (w : World) (map_name : List Char) :
    is_maps_sensitive w (some []) map_name = -1 := rfl

/-- The aggregator reports a finding for every configuration without maps words. -/
theorem check_environment_abnormal_empty_words (cfg : Config) (w : World) (g : CrcGlobals)
    (h : cfg.maps_sensitive_words = []) :
    (check_environment_abnormal cfg w g).1.is_env_abnormal = true := by
  unfold check_environment_abnormal
  simp only [h, is_maps_sensitive_empty]
  apply report_if_abnormal
  left
  apply report_if_abnormal
  left
  apply report_if_abnormal
  left
  apply report_if_abnormal
  left
  apply report_if_abnormal
  left
  apply report_if_abnormal
  left
  apply report_if_abnormal
  right
  decide

/-- The aggregator sets the abnormal flag whenever the memory scan is inconclusive. -/
theorem check_environment_abnormal_inconclusive_mem (cfg : Config) (w : World) (g : CrcGlobals)
    (h : scan_mem_keywords w cfg.mem_sensitive_words = -1) :
    (check_environment_abnormal cfg w g).1.is_env_abnormal = true := by
  unfold check_environment_abnormal
  simp only [h]
  apply report_if_abnormal
  left
  apply report_if_abnormal
  left
  apply report_if_abnormal
  right
  decide

/-- C8, the code at the failing input: in a process with nothing to report, the keyword scan
of memory is inconclusive (-1) when `/proc/self/mem` cannot be opened, and the aggregator then
appends its finding and sets the abnormal flag; when the file can be opened the report is
empty. -/
theorem aggregator_counts_inconclusive_scan :
    scan_mem_keywords (quiet_world false) header_config.mem_sensitive_words = -1
    ∧ (Java_com_prapps_fridaserverinstaller_rasp_RaspDetector_nativeCheckEnvironmentAbnormal
        (quiet_world false) crc32_globals_init).1
      = { check_result := "result: \ndetect suspicious mem\n".toList, is_env_abnormal := true }
    ∧ scan_mem_keywords (quiet_world true) header_config.mem_sensitive_words = 0
    ∧ (Java_com_prapps_fridaserverinstaller_rasp_RaspDetector_nativeCheckEnvironmentAbnormal
        (quiet_world true) crc32_globals_init).1
      = { check_result := "result: \n".toList, is_env_abnormal := false } := by
  refine ⟨by decide!, by decide!, by decide!, by decide!⟩

/-- C11 (amended): `find_info_from_maps` returns its `map_info` by value and has no other
channel. When the map cannot be opened it returns the info with every numeric field 0 and an
empty pathname, and when the map is readable (well-formed lines) but no line has `perm` in its
permission string and `soname` in its pathname it returns that same info: the two outcomes
are the same returned value. -/
theorem find_info_from_maps_not_found_same_as_unopened (w w' : World) (lines : List MapLine)
    (soname perm : List Char)
    (hclosed : w.fopen self_maps = none)
    (hopen : w'.fopen self_maps = some (lines.flatMap MapLine.text))
    (hwf : ∀ l, l ∈ lines → l.well_formed = true)
    (hnone : ∀ l, l ∈ lines → ¬ (perm <:+: l.perms ∧ soname <:+: l.pathname)) :
    find_info_from_maps w soname perm = { start := 0, size := 0, offset := 0, pathname := [] }
    ∧ find_info_from_maps w' soname perm
        = { start := 0, size := 0, offset := 0, pathname := [] }
    ∧ find_info_from_maps w soname perm = find_info_from_maps w' soname perm := by
  have h1 : find_info_from_maps w soname perm = map_info_zero := by
    unfold find_info_from_maps
    rw [hclosed]
  have hfind : lines.find? (MapLine.selects soname perm) = none := by
    rw [List.find?_eq_none]
    intro l hl hsel
    unfold MapLine.selects at hsel
    exact hnone l hl (of_decide_eq_true hsel)
  have h2 : find_info_from_maps w' soname perm = map_info_zero := by
    unfold find_info_from_maps
    rw [hopen]
    simp only []
    rw [read_lines_well_formed lines hwf, find_info_loop_lines soname perm lines hwf, hfind]
  exact ⟨h1, h2, h1.trans h2.symm⟩

/-- C11 witness: a process whose map cannot be opened, and a process whose map holds the
example line, asked for "libz.so". -/
theorem find_info_from_maps_not_found_same_as_unopened_witness :
    find_info_from_maps closed_world "libz.so".toList "x".toList
        = { start := 0, size := 0, offset := 0, pathname := [] }
    ∧ find_info_from_maps (maps_world ([example_line].flatMap MapLine.text)) "libz.so".toList
          "x".toList
        = { start := 0, size := 0, offset := 0, pathname := [] }
    ∧ find_info_from_maps closed_world "libz.so".toList "x".toList
        = find_info_from_maps (maps_world ([example_line].flatMap MapLine.text))
            "libz.so".toList "x".toList :=
  find_info_from_maps_not_found_same_as_unopened closed_world
    (maps_world ([example_line].flatMap MapLine.text)) [example_line] "libz.so".toList
    "x".toList rfl (by decide!) (by decide!) (by decide!)

/-- C11 counterexample: with /x/lib.so mapped, a lookup of "libz.so" in the readable map
(no line matches) and the same lookup in a process whose map cannot be opened return the
same value. -/
theorem find_info_from_maps_not_found_cex :
    (maps_world sample_maps).fopen self_maps = some sample_maps
    ∧ closed_world.fopen self_maps = none
    ∧ find_info_from_maps (maps_world sample_maps) "libz.so".toList "x".toList
        = find_info_from_maps closed_world "libz.so".toList "x".toList := by
  decide!

/-! ### Lines, as `fgets` delivers them -/

theorem strchr_eq_none_iff (s : List Char) (c : Char) : strchr s c = none ↔ c ∉ s := by
  induction s with
  | nil => simp [strchr]
  | cons x xs ih =>
    unfold strchr
    by_cases h : x = c
    · rw [if_pos h]
      simp [h]
    · rw [if_neg h, ih]
      simp [Ne.symm h]

theorem strchr_isSome_iff (s : List Char) (c : Char) : (strchr s c).isSome = true ↔ c ∈ s := by
  cases h : strchr s c with
  | none =>
    have := (strchr_eq_none_iff s c).1 h
    simp [this]
  | some r =>
    have hne : ¬ c ∉ s := fun hn => by
      rw [(strchr_eq_none_iff s c).2 hn] at h
      cases h
    simp only [Option.isSome_some, true_iff]
    exact not_not.1 hne

theorem strchr_append_left (pre s : List Char) (c : Char) (h : c ∉ pre) :
    strchr (pre ++ s) c = strchr s c := by
  induction pre with
  | nil => rfl
  | cons x xs ih =>
    have hx : ¬ x = c := fun e => h (e ▸ List.mem_cons_self _ _)
    have hstep : strchr (x :: (xs ++ s)) c = strchr (xs ++ s) c := by
      simp only [strchr, if_neg hx]
    rw [List.cons_append, hstep]
    exact ih (fun hm => h (List.mem_cons_of_mem _ hm))

theorem strchr_cons_self (c : Char) (s : List Char) : strchr (c :: s) c = some (c :: s) := by
  unfold strchr
  rw [if_pos rfl]

theorem strip_newline_append (p : List Char) : strip_newline (p ++ ['\n']) = p := by
  unfold strip_newline
  rw [if_pos (by simp)]
  simp

/-- A newline in the characters read by one `fgets` is their last character. -/
theorem fgets_take_newline_last (n : Nat) (s pre post : List Char)
    (h : (fgets_take n s).1 = pre ++ '\n' :: post) : post = [] := by
  induction n generalizing s pre with
  | zero =>
    unfold fgets_take at h
    simp at h
  | succ n ih =>
    cases s with
    | nil =>
      unfold fgets_take at h
      simp at h
    | cons c cs =>
      unfold fgets_take at h
      by_cases hc : c = '\n'
      · rw [if_pos hc] at h
        cases pre with
        | nil =>
          simp only [List.nil_append, List.cons.injEq] at h
          exact h.2.symm
        | cons p ps =>
          simp only [List.cons_append, List.cons.injEq] at h
          have := h.2
          simp at this
      · rw [if_neg hc] at h
        cases pre with
        | nil =>
          simp only [List.nil_append, List.cons.injEq] at h
          exact absurd h.1 hc
        | cons p ps =>
          simp only [List.cons_append, List.cons.injEq] at h
          exact ih cs ps h.2

theorem c_str_newline_last (buf pre post : List Char)
    (hbuf : ∀ pre post, buf = pre ++ '\n' :: post → post = [])
    (h : c_str buf = pre ++ '\n' :: post) : post = [] := by
  have hp : c_str buf <+: buf := List.takeWhile_prefix _
  obtain ⟨t, ht⟩ := hp
  rw [h] at ht
  have := hbuf pre (post ++ t) (by rw [← ht]; simp)
  exact (List.append_eq_nil.1 this).1

/-- A newline in a buffer of the line loop is the last character of that buffer. -/
theorem read_lines_fuel_newline_last (size fuel : Nat) (s line pre post : List Char)
    (hmem : line ∈ read_lines_fuel size fuel s) (h : line = pre ++ '\n' :: post) :
    post = [] := by
  induction fuel generalizing s with
  | zero =>
    unfold read_lines_fuel at hmem
    simp at hmem
  | succ f ih =>
    cases s with
    | nil =>
      rw [read_lines_fuel_nil] at hmem
      simp at hmem
    | cons c cs =>
      rw [read_lines_fuel_cons] at hmem
      rcases List.mem_cons.1 hmem with hl | hl
      · exact c_str_newline_last _ pre post
          (fun a b hab => fgets_take_newline_last _ _ a b hab) (hl ▸ h)
      · exact ih _ hl

theorem read_lines_newline_last (size : Nat) (s line pre post : List Char)
    (hmem : line ∈ read_lines size s) (h : line = pre ++ '\n' :: post) : post = [] :=
  read_lines_fuel_newline_last size _ s line pre post hmem h

theorem line_is_executable_iff (line : List Char) :
    line_is_executable line = true
      ↔ ("r-xp".toList <:+: line ∨ "--xp".toList <:+: line) := by
  unfold line_is_executable
  rw [Bool.or_eq_true, strstr_isSome_iff, strstr_isSome_iff]

/-- A line that contains "r-xp" or "--xp" contains '-': in smaps mode it is a header. -/
theorem line_is_executable_dash (line : List Char) (h : line_is_executable line = true) :
    (strchr line '-').isSome = true := by
  rw [strchr_isSome_iff]
  rcases (line_is_executable_iff line).1 h with h | h
  · exact h.subset (by decide)
  · exact h.subset (by decide)

theorem strrchr_eq_none_iff (s : List Char) (c : Char) : strrchr s c = none ↔ c ∉ s := by
  induction s with
  | nil => simp [strrchr]
  | cons x xs ih =>
    unfold strrchr
    cases h : strrchr xs c with
    | some r =>
      have hm : ¬ c ∉ xs := fun hn => by
        rw [ih.2 hn] at h
        cases h
      simp only [List.mem_cons, not_or]
      constructor
      · intro h0; cases h0
      · intro h0; exact absurd h0.2 hm
    | none =>
      have hm := ih.1 h
      simp only [List.mem_cons, not_or]
      by_cases hx : x = c
      · rw [if_pos hx]
        constructor
        · intro h0; cases h0
        · intro h0; exact absurd hx.symm h0.1
      · rw [if_neg hx]
        exact ⟨fun _ => ⟨fun e => hx e.symm, hm⟩, fun _ => rfl⟩

/-- The result of `strrchr` starts at an occurrence of `c` after which there is no `c`. -/
theorem strrchr_some_spec (s : List Char) (c : Char) (r : List Char)
    (h : strrchr s c = some r) : ∃ pre t, s = pre ++ c :: t ∧ r = c :: t ∧ c ∉ t := by
  induction s with
  | nil => simp [strrchr] at h
  | cons x xs ih =>
    unfold strrchr at h
    cases h2 : strrchr xs c with
    | some r2 =>
      rw [h2] at h
      simp only [Option.some.injEq] at h
      subst h
      obtain ⟨pre, t, hs, hr, ht⟩ := ih h2
      exact ⟨x :: pre, t, by rw [hs]; rfl, hr, ht⟩
    | none =>
      rw [h2] at h
      simp only at h
      by_cases hx : x = c
      · rw [if_pos hx] at h
        simp only [Option.some.injEq] at h
        subst h
        subst hx
        exact ⟨[], xs, rfl, rfl, (strrchr_eq_none_iff xs x).1 h2⟩
      · rw [if_neg hx] at h
        cases h

theorem ends_with_of_not_mem (pre t pre2 : List Char) (c : Char) (hc : c ∉ t)
    (h : pre ++ c :: t = pre2 ++ [c]) : t = [] := by
  have hr := congrArg List.reverse h
  simp only [List.reverse_append, List.reverse_cons, List.reverse_nil, List.nil_append,
    List.singleton_append, List.append_assoc] at hr
  cases ht : t.reverse with
  | nil => exact List.reverse_eq_nil_iff.1 ht
  | cons y ys =>
    rw [ht] at hr
    simp only [List.cons_append, List.cons.injEq] at hr
    have hy : y ∈ t := by
      rw [← List.mem_reverse, ht]
      exact List.mem_cons_self _ _
    rw [hr.1] at hy
    exact absurd hy hc

/-- The test `is_anonymous` of `has_anon_exec_memory`: no '/', a newline, and a space right
before the first newline. -/
theorem line_is_anonymous_iff (line : List Char) :
    line_is_anonymous line = true
      ↔ '/' ∉ line ∧ '\n' ∈ line
        ∧ ∃ pre, line.takeWhile (fun c => c ≠ '\n') = pre ++ [' '] := by
  unfold line_is_anonymous
  cases h1 : strchr line '/' with
  | some r =>
    have hm : ¬ '/' ∉ line := fun hn => by
      rw [(strchr_eq_none_iff _ _).2 hn] at h1
      cases h1
    simp only [Bool.false_eq_true, false_iff]
    exact fun h0 => hm h0.1
  | none =>
    have hs := (strchr_eq_none_iff _ _).1 h1
    cases h2 : strchr line '\n' with
    | none =>
      have hn := (strchr_eq_none_iff _ _).1 h2
      simp only [Bool.false_eq_true, false_iff]
      exact fun h0 => hn h0.2.1
    | some r2 =>
      have hn : '\n' ∈ line := by
        rw [← strchr_isSome_iff, h2]
        rfl
      cases h3 : strrchr (line.takeWhile (fun c => c ≠ '\n')) ' ' with
      | none =>
        have hsp := (strrchr_eq_none_iff _ _).1 h3
        simp only [Bool.false_eq_true, false_iff]
        rintro ⟨_, _, pre, hpre⟩
        apply hsp
        rw [hpre]
        simp
      | some last_space =>
        obtain ⟨pre, t, hcut, hr, ht⟩ := strrchr_some_spec _ _ _ h3
        simp only [decide_eq_true_eq]
        constructor
        · intro hd
          refine ⟨hs, hn, pre, ?_⟩
          rw [hr] at hd
          simp only [List.drop_succ_cons, List.drop_zero] at hd
          rw [hcut, hd]
        · rintro ⟨_, _, pre2, hpre2⟩
          rw [hr]
          simp only [List.drop_succ_cons, List.drop_zero]
          exact ends_with_of_not_mem pre t pre2 ' ' ht (hcut ▸ hpre2)

/-- On a buffer whose newline, if any, is its last character, the source's two tests agree
with the line condition of the specification. -/
theorem anon_exec_line_spec_eq (line : List Char)
    (hlast : ∀ pre post, line = pre ++ '\n' :: post → post = []) :
    anon_exec_line_spec line = (line_is_executable line && line_is_anonymous line) := by
  rw [Bool.eq_iff_iff, Bool.and_eq_true, line_is_executable_iff, line_is_anonymous_iff]
  unfold anon_exec_line_spec
  rw [decide_eq_true_iff]
  constructor
  · rintro ⟨hx, hs, ⟨pre, hpre⟩⟩
    refine ⟨hx, hs, ?_, pre, ?_⟩
    · rw [← hpre]
      simp
    · rw [← hpre]
      have hnot : ∀ c, c ∈ pre ++ [' '] → ¬ c = '\n' := by
        intro c hc hcn
        subst hcn
        rcases List.mem_append.1 hc with hc | hc
        · obtain ⟨a, b, hab⟩ := List.append_of_mem hc
          have := hlast a (b ++ [' ', '\n']) (by rw [← hpre, hab]; simp)
          simp at this
        · simp at hc
      have hsplit : pre ++ [' ', '\n'] = (pre ++ [' ']) ++ '\n' :: [] := by simp
      rw [hsplit, List.takeWhile_append_of_pos (by simpa using hnot)]
      simp
  · rintro ⟨hx, hs, hn, pre, hpre⟩
    refine ⟨hx, hs, ?_⟩
    have hsplit := List.takeWhile_append_dropWhile (fun c => decide (c ≠ '\n')) line
    cases hd : line.dropWhile (fun c => decide (c ≠ '\n')) with
    | nil =>
      rw [hd, List.append_nil] at hsplit
      have hall : ∀ c, c ∈ line.takeWhile (fun c => decide (c ≠ '\n')) → c ≠ '\n' := by
        intro c hc
        simpa using List.mem_takeWhile_imp hc
      rw [hsplit] at hall
      exact absurd rfl (hall _ hn)
    | cons d ds =>
      have hdn : d = '\n' := by
        have := List.head_dropWhile_not (fun c => decide (c ≠ '\n')) line
          (by rw [hd]; simp)
        simp only [hd, List.head_cons] at this
        simpa using this
      subst hdn
      rw [hd, hpre] at hsplit
      have hds := hlast (pre ++ [' ']) ds hsplit.symm
      subst hds
      exact ⟨pre, by rw [← hsplit]; simp⟩

theorem anon_exec_maps_loop_eq (lines : List (List Char)) :
    anon_exec_maps_loop lines
      = if lines.any (fun l => line_is_executable l && line_is_anonymous l) = true
        then 1 else 0 := by
  induction lines with
  | nil => rfl
  | cons line rest ih =>
    unfold anon_exec_maps_loop
    by_cases h : line_is_executable line = true ∧ line_is_anonymous line = true
    · rw [if_pos h, if_pos (by simp [h.1, h.2])]
    · rw [if_neg h, ih]
      have hf : (line_is_executable line && line_is_anonymous line) = false := by
        rw [Bool.eq_false_iff, ne_eq, Bool.and_eq_true]
        exact h
      simp only [List.any_cons, hf, Bool.false_or]

/-- The block state machine returns 1 exactly when the pending block is flagged or some
later line passes both tests. -/
theorem anon_exec_smaps_loop_eq (st : BlockState) (lines : List (List Char)) :
    anon_exec_smaps_loop st lines
      = if ((st.in_block && st.is_executable && st.is_anonymous)
            || lines.any (fun l => line_is_executable l && line_is_anonymous l)) = true
        then 1 else 0 := by
  induction lines generalizing st with
  | nil =>
    unfold anon_exec_smaps_loop
    by_cases h : st.in_block = true ∧ st.is_executable = true ∧ st.is_anonymous = true
    · rw [if_pos h, if_pos (by simp [h.1, h.2.1, h.2.2])]
    · rw [if_neg h, if_neg]
      simp only [List.any_nil, Bool.or_false, Bool.and_eq_true, and_assoc]
      exact h
  | cons line rest ih =>
    unfold anon_exec_smaps_loop
    by_cases hd : (strchr line '-').isSome = true
    · rw [if_pos hd]
      by_cases h : st.in_block = true ∧ st.is_executable = true ∧ st.is_anonymous = true
      · rw [if_pos h, if_pos (by simp [h.1, h.2.1, h.2.2])]
      · rw [if_neg h, ih]
        have hf : (st.in_block && st.is_executable && st.is_anonymous) = false := by
          rw [Bool.eq_false_iff, ne_eq, Bool.and_eq_true, Bool.and_eq_true, and_assoc]
          exact h
        simp only [hf, Bool.false_or, List.any_cons, Bool.true_and]
    · rw [if_neg hd, ih]
      have hx : line_is_executable line = false := by
        rw [Bool.eq_false_iff]
        exact fun hx => hd (line_is_executable_dash line hx)
      simp only [List.any_cons, hx, Bool.false_and, Bool.false_or]

theorem anon_exec_any_spec (size : Nat) (text : List Char) :
    (read_lines size text).any (fun l => line_is_executable l && line_is_anonymous l)
      = (read_lines size text).any anon_exec_line_spec := by
  rw [Bool.eq_iff_iff, List.any_eq_true, List.any_eq_true]
  constructor
  · rintro ⟨l, hl, h⟩
    exact ⟨l, hl, by
      rw [anon_exec_line_spec_eq l (fun a b => read_lines_newline_last size text l a b hl)]
      exact h⟩
  · rintro ⟨l, hl, h⟩
    exact ⟨l, hl, by
      rw [← anon_exec_line_spec_eq l (fun a b => read_lines_newline_last size text l a b hl)]
      exact h⟩

/-- Both modes of `has_anon_exec_memory` on a readable file. -/
theorem has_anon_exec_memory_eq (w : World) (map_name text : List Char)
    (hopen : w.fopen map_name = some text) :
    has_anon_exec_memory w map_name
      = if (read_lines 256 text).any anon_exec_line_spec = true then 1 else 0 := by
  unfold has_anon_exec_memory
  rw [hopen]
  simp only [MAX_LINE]
  rw [← anon_exec_any_spec]
  by_cases hm : map_name = self_smaps
  · rw [if_pos hm, anon_exec_smaps_loop_eq]
    simp only [Bool.and_self, Bool.false_or]
  · rw [if_neg hm, anon_exec_maps_loop_eq]

/-- C16: for every readable file, in smaps mode and in maps mode alike, `has_anon_exec_memory`
equals the stateless scan of the specification: it returns 1 exactly when some buffer
delivered by `fgets` with a 256-byte buffer contains "r-xp" or "--xp", contains no '/', and
ends with a space and a newline, and 0 otherwise. The block state machine of the smaps mode
gives the result of the per-line scan on every list of lines, and a line that does not itself
pass the tests (an attribute line of a block) can be removed without changing its result. -/
theorem has_anon_exec_memory_refines_stateless (w : World) (map_name text : List Char)
    (hopen : w.fopen map_name = some text) :
    has_anon_exec_memory w map_name = has_anon_exec_memory_spec text
    ∧ (has_anon_exec_memory w map_name = 1 ↔
        ∃ line, line ∈ read_lines 256 text
          ∧ ("r-xp".toList <:+: line ∨ "--xp".toList <:+: line) ∧ '/' ∉ line
          ∧ ∃ pre, line = pre ++ [' ', '\n'])
    ∧ (has_anon_exec_memory w map_name ≠ 1 → has_anon_exec_memory w map_name = 0)
    ∧ (∀ lines, anon_exec_smaps_loop
          { in_block := false, is_executable := false, is_anonymous := false } lines
        = anon_exec_maps_loop lines)
    ∧ (∀ st before attr after,
        (line_is_executable attr && line_is_anonymous attr) = false →
        anon_exec_smaps_loop st (before ++ attr :: after)
          = anon_exec_smaps_loop st (before ++ after)) := by
  have heq := has_anon_exec_memory_eq w map_name text hopen
  refine ⟨?_, ?_, ?_, ?_, ?_⟩
  · rw [heq]
    rfl
  · rw [heq]
    constructor
    · intro h
      by_cases hany : (read_lines 256 text).any anon_exec_line_spec = true
      · obtain ⟨line, hl, hspec⟩ := List.any_eq_true.1 hany
        unfold anon_exec_line_spec at hspec
        obtain ⟨hx, hs, ⟨pre, hpre⟩⟩ := of_decide_eq_true hspec
        exact ⟨line, hl, hx, hs, pre, hpre.symm⟩
      · rw [if_neg hany] at h
        exact absurd h (by decide)
    · rintro ⟨line, hl, hx, hs, pre, hpre⟩
      rw [if_pos]
      apply List.any_eq_true.2
      refine ⟨line, hl, ?_⟩
      unfold anon_exec_line_spec
      exact decide_eq_true ⟨hx, hs, ⟨pre, hpre.symm⟩⟩
  · rw [heq]
    intro h
    by_cases hany : (read_lines 256 text).any anon_exec_line_spec = true
    · rw [if_pos hany] at h
      exact absurd rfl h
    · rw [if_neg hany]
  · intro lines
    rw [anon_exec_smaps_loop_eq, anon_exec_maps_loop_eq]
    simp only [Bool.and_self, Bool.false_or]
  · intro st before attr after hattr
    rw [anon_exec_smaps_loop_eq, anon_exec_smaps_loop_eq]
    simp only [List.any_append, List.any_cons, hattr, Bool.false_or]

/-- C16 witness: a detailed map with an anonymous "r-xp" block and a file-backed block. -/
theorem has_anon_exec_memory_refines_stateless_witness :
    (text_world self_smaps anon_smaps).fopen self_smaps = some anon_smaps
    ∧ has_anon_exec_memory (text_world self_smaps anon_smaps) self_smaps = 1
    ∧ has_anon_exec_memory_spec anon_smaps = 1 :=
  ⟨by decide!,
    (has_anon_exec_memory_refines_stateless (text_world self_smaps anon_smaps) self_smaps
      anon_smaps (by decide!)).1.trans (by decide!),
    by decide!⟩

theorem hex_number_no_slash (s : List Char) (h : is_hex_number s = true) : '/' ∉ s := by
  intro hm
  have := ((is_hex_number_iff s).1 h).2.1 '/' hm
  revert this
  decide

theorem text_of_body (h : MapLine) (hwf : h.well_formed = true) :
    c_str (h.body ++ ['\n']) = h.text := by
  unfold MapLine.text
  apply c_str_of_no_nul
  intro c hc
  rcases List.mem_append.1 hc with hb | hb
  · exact (body_chars h hwf c hb).2
  · simp only [List.mem_singleton] at hb
    subst hb
    decide

/-- The buffers read, with a buffer of `size` bytes, from a text made of well-formed lines
that fit the buffer. -/
theorem read_lines_fuel_short (size fuel : Nat) (lines : List MapLine)
    (hwf : ∀ l, l ∈ lines → l.well_formed = true)
    (hlen : ∀ l, l ∈ lines → l.body.length + 1 < size)
    (hfuel : (lines.flatMap MapLine.text).length ≤ fuel) :
    read_lines_fuel size fuel (lines.flatMap MapLine.text) = lines.map MapLine.text := by
  induction lines generalizing fuel with
  | nil => exact read_lines_fuel_nil size fuel
  | cons l rest ih =>
    have hl := hwf l (List.mem_cons_self _ _)
    have hnl : ∀ c, c ∈ l.body → c ≠ '\n' := fun c hc => (body_chars l hl c hc).1
    simp only [List.flatMap_cons, List.map_cons] at hfuel ⊢
    have htext : l.text ++ rest.flatMap MapLine.text
        = l.body ++ '\n' :: rest.flatMap MapLine.text := by
      unfold MapLine.text
      simp
    rw [htext] at hfuel ⊢
    simp only [List.length_append, List.length_cons] at hfuel
    obtain ⟨f, hf⟩ : ∃ f, fuel = f + 1 := ⟨fuel - 1, by omega⟩
    subst hf
    cases hb : l.body ++ '\n' :: rest.flatMap MapLine.text with
    | nil => simp at hb
    | cons c cs =>
      rw [read_lines_fuel_cons, ← hb, fgets_take_line (size - 1) l.body _ hnl
        (by have := hlen l (List.mem_cons_self _ _); omega)]
      simp only []
      rw [text_of_body l hl, ih f (fun x hx => hwf x (List.mem_cons_of_mem _ hx))
        (fun x hx => hlen x (List.mem_cons_of_mem _ hx)) (by omega)]

theorem read_lines_short (size : Nat) (lines : List MapLine)
    (hwf : ∀ l, l ∈ lines → l.well_formed = true)
    (hlen : ∀ l, l ∈ lines → l.body.length + 1 < size) :
    read_lines size (lines.flatMap MapLine.text) = lines.map MapLine.text :=
  read_lines_fuel_short size _ lines hwf hlen (Nat.le_refl _)

theorem strchr_eq_dropWhile (s : List Char) (c : Char) :
    strchr s c = if c ∈ s then some (s.dropWhile (fun x => decide (x ≠ c))) else none := by
  induction s with
  | nil => rfl
  | cons x xs ih =>
    by_cases hx : x = c
    · subst hx
      rw [strchr_cons_self, if_pos (List.mem_cons_self _ _)]
      simp [List.dropWhile]
    · have hstep : strchr (x :: xs) c = strchr xs c := by
        simp only [strchr, if_neg hx]
      have hdrop : (x :: xs).dropWhile (fun y => decide (y ≠ c))
          = xs.dropWhile (fun y => decide (y ≠ c)) := by
        simp [List.dropWhile, hx]
      rw [hstep, ih, hdrop]
      by_cases hm : c ∈ xs
      · rw [if_pos hm, if_pos (List.mem_cons_of_mem _ hm)]
      · rw [if_neg hm, if_neg]
        intro h
        rcases List.mem_cons.1 h with h | h
        · exact hx h.symm
        · exact hm h

theorem dropWhile_append_of_mem (a b : List Char) (c : Char) (h : c ∈ a) :
    (a ++ b).dropWhile (fun x => decide (x ≠ c)) = a.dropWhile (fun x => decide (x ≠ c)) ++ b := by
  induction a with
  | nil => simp at h
  | cons x xs ih =>
    by_cases hx : x = c
    · subst hx
      simp [List.dropWhile]
    · have hm : c ∈ xs := by
        rcases List.mem_cons.1 h with h | h
        · exact absurd h.symm hx
        · exact h
      simp only [List.cons_append, List.dropWhile, hx, ne_eq, not_false_eq_true, decide_True]
      exact ih hm

theorem dropWhile_append_of_not_mem (a b : List Char) (c : Char) (h : c ∉ a) :
    (a ++ b).dropWhile (fun x => decide (x ≠ c)) = b.dropWhile (fun x => decide (x ≠ c)) := by
  induction a with
  | nil => rfl
  | cons x xs ih =>
    have hx : ¬ x = c := fun e => h (e ▸ List.mem_cons_self _ _)
    simp only [List.cons_append, List.dropWhile, hx, ne_eq, not_false_eq_true, decide_True]
    exact ih (fun hm => h (List.mem_cons_of_mem _ hm))

/-- The line loop of `find_path_from_maps` in closed form: the first buffer that contains
`soname` and a '/' decides the result. -/
theorem find_path_loop_eq (w : World) (soname : List Char) (buffers : List (List Char)) :
    find_path_loop w soname buffers
      = match buffers.find? (fun line => decide (soname <:+: line ∧ '/' ∈ line)) with
        | none => none
        | some line =>
          if w.malloc_ok ((line.dropWhile (fun c => decide (c ≠ '/'))).length + 1) = true then
            some (strip_newline (line.dropWhile (fun c => decide (c ≠ '/'))))
          else none := by
  induction buffers with
  | nil => rfl
  | cons line rest ih =>
    rw [find_path_loop, List.find?_cons, strchr_eq_dropWhile]
    by_cases hin : soname <:+: line
    · rw [if_pos ((strstr_isSome_iff _ _).2 hin)]
      by_cases hs : '/' ∈ line
      · rw [if_pos hs, decide_eq_true (show soname <:+: line ∧ '/' ∈ line from ⟨hin, hs⟩)]
      · rw [if_neg hs, decide_eq_false (fun h : soname <:+: line ∧ '/' ∈ line => hs h.2)]
        exact ih
    · rw [if_neg (fun h => hin ((strstr_isSome_iff _ _).1 h)),
        decide_eq_false (fun h : soname <:+: line ∧ '/' ∈ line => hin h.1)]
      exact ih

theorem find_congr_of_mem (lines : List MapLine) (p q : MapLine → Bool)
    (h : ∀ l, l ∈ lines → p l = q l) : lines.find? p = lines.find? q := by
  induction lines with
  | nil => rfl
  | cons l rest ih =>
    rw [List.find?_cons, List.find?_cons, h l (List.mem_cons_self _ _),
      ih (fun x hx => h x (List.mem_cons_of_mem _ hx))]

theorem pathname_in_text (l : MapLine) : l.pathname <:+: l.text :=
  ⟨l.start_hex ++ '-' :: (l.end_hex ++ ' ' :: (l.perms ++ ' ' :: (l.offset_hex ++ ' ' ::
      (l.dev ++ ' ' :: (l.inode ++ List.replicate l.gap ' '))))), ['\n'],
    by simp [MapLine.text, MapLine.body]⟩

theorem slash_in_text (l : MapLine) : '/' ∈ l.text ↔ '/' ∈ l.body := by
  unfold MapLine.text
  simp

/-- The text from the first '/' of a well-formed record whose pathname starts with '/' and
whose other fields have no '/' is the pathname. -/
theorem body_from_slash (l : MapLine) (hwf : l.well_formed = true)
    (hpath : l.pathname.head? = some '/')
    (hperms : '/' ∉ l.perms) (hdev : '/' ∉ l.dev) (hino : '/' ∉ l.inode) :
    l.body.dropWhile (fun c => decide (c ≠ '/')) = l.pathname := by
  obtain ⟨hs, he, _, _, ho, _, _, _, _, _, _, _, _⟩ := (well_formed_iff l).1 hwf
  have hs2 := hex_number_no_slash _ hs
  have he2 := hex_number_no_slash _ he
  have ho2 := hex_number_no_slash _ ho
  have hsplit : l.body = (l.start_hex ++ '-' :: (l.end_hex ++ ' ' :: (l.perms ++ ' ' ::
      (l.offset_hex ++ ' ' :: (l.dev ++ ' ' :: (l.inode ++ List.replicate l.gap ' '))))))
      ++ l.pathname := by
    simp [MapLine.body]
  have hpre : '/' ∉ l.start_hex ++ '-' :: (l.end_hex ++ ' ' :: (l.perms ++ ' ' ::
      (l.offset_hex ++ ' ' :: (l.dev ++ ' ' :: (l.inode ++ List.replicate l.gap ' '))))) := by
    simp only [List.mem_append, List.mem_cons, List.mem_replicate, not_or]
    simp [hs2, he2, ho2, hperms, hdev, hino]
  rw [hsplit, dropWhile_append_of_not_mem _ _ _ hpre]
  cases hc : l.pathname with
  | nil => rfl
  | cons c p =>
    rw [hc] at hpath
    simp only [List.head?_cons, Option.some.injEq] at hpath
    subst hpath
    simp [List.dropWhile]

/-- The result of the line loop on the buffer of a well-formed record. -/
theorem find_path_of_record (l : MapLine) (hs : '/' ∈ l.body) :
    strip_newline (l.text.dropWhile (fun c => decide (c ≠ '/')))
      = l.body.dropWhile (fun c => decide (c ≠ '/')) := by
  unfold MapLine.text
  rw [dropWhile_append_of_mem _ _ _ hs, strip_newline_append]

/-- C12 (amended): for every map text and every module name, `find_path_from_maps` takes the
first line (as `fgets` delivers it with a 256-byte buffer) that contains the module name
anywhere in the line, not only in the pathname, and that contains a '/', and returns the text
of that line from its first '/' with only the trailing newline removed (NULL when `strdup`
fails); it returns NULL when no line contains both. On a text made of well-formed records
that fit the buffer this is the text from the first '/' of the first record whose line
contains the module name and a '/'; for a record whose pathname starts with '/' and whose
other fields have no '/' that text is the pathname, so when the lines that contain the module
name are such records with the name inside the pathname, the result is the pathname of the
first record whose pathname contains the module name. -/
theorem find_path_from_maps_first_line (w : World) (text soname : List Char)
    (hopen : w.fopen self_maps = some text) :
    (find_path_from_maps w soname
        = match (read_lines 256 text).find?
              (fun line => decide (soname <:+: line ∧ '/' ∈ line)) with
          | none => none
          | some line =>
            if w.malloc_ok ((line.dropWhile (fun c => decide (c ≠ '/'))).length + 1) = true
            then some (strip_newline (line.dropWhile (fun c => decide (c ≠ '/'))))
            else none)
    ∧ (∀ lines : List MapLine, text = lines.flatMap MapLine.text →
        (∀ l, l ∈ lines → l.well_formed = true) → (∀ l, l ∈ lines → l.body.length < 255) →
        (∀ n, w.malloc_ok n = true) →
        find_path_from_maps w soname
            = (lines.find? (fun l => decide (soname <:+: l.text ∧ '/' ∈ l.body))).map
                (fun l => l.body.dropWhile (fun c => decide (c ≠ '/')))
        ∧ ((∀ l, l ∈ lines → soname <:+: l.text →
              soname <:+: l.pathname ∧ l.pathname.head? = some '/'
                ∧ '/' ∉ l.perms ∧ '/' ∉ l.dev ∧ '/' ∉ l.inode) →
            find_path_from_maps w soname
              = (lines.find? (fun l => decide (soname <:+: l.pathname))).map
                  MapLine.pathname))
    ∧ (∀ l : MapLine, l.well_formed = true → l.pathname.head? = some '/' →
        '/' ∉ l.perms → '/' ∉ l.dev → '/' ∉ l.inode →
        l.body.dropWhile (fun c => decide (c ≠ '/')) = l.pathname) := by
  have hgen : find_path_from_maps w soname
      = match (read_lines 256 text).find?
            (fun line => decide (soname <:+: line ∧ '/' ∈ line)) with
        | none => none
        | some line =>
          if w.malloc_ok ((line.dropWhile (fun c => decide (c ≠ '/'))).length + 1) = true
          then some (strip_newline (line.dropWhile (fun c => decide (c ≠ '/'))))
          else none := by
    unfold find_path_from_maps
    rw [hopen]
    simp only [MAX_LINE]
    exact find_path_loop_eq w soname _
  have hrec : ∀ lines : List MapLine, text = lines.flatMap MapLine.text →
      (∀ l, l ∈ lines → l.well_formed = true) → (∀ l, l ∈ lines → l.body.length < 255) →
      (∀ n, w.malloc_ok n = true) →
      find_path_from_maps w soname
        = (lines.find? (fun l => decide (soname <:+: l.text ∧ '/' ∈ l.body))).map
            (fun l => l.body.dropWhile (fun c => decide (c ≠ '/'))) := by
    intro lines htext hwf hlen hmalloc
    rw [hgen, htext, read_lines_short 256 lines hwf (fun l hl => by have := hlen l hl; omega),
      List.find?_map]
    have hcongr : lines.find? ((fun line => decide (soname <:+: line ∧ '/' ∈ line))
          ∘ MapLine.text)
        = lines.find? (fun l => decide (soname <:+: l.text ∧ '/' ∈ l.body)) := by
      apply find_congr_of_mem
      intro l _
      simp only [Function.comp, slash_in_text]
    rw [hcongr]
    cases hf : lines.find? (fun l => decide (soname <:+: l.text ∧ '/' ∈ l.body)) with
    | none => rfl
    | some l =>
      have hp := List.find?_some hf
      have hs : '/' ∈ l.body := (of_decide_eq_true hp).2
      simp only [Option.map_some']
      rw [if_pos (hmalloc _), find_path_of_record l hs]
  refine ⟨hgen, ?_, ?_⟩
  · intro lines htext hwf hlen hmalloc
    refine ⟨hrec lines htext hwf hlen hmalloc, ?_⟩
    intro honly
    rw [hrec lines htext hwf hlen hmalloc]
    have hcongr : lines.find? (fun l => decide (soname <:+: l.text ∧ '/' ∈ l.body))
        = lines.find? (fun l => decide (soname <:+: l.pathname)) := by
      apply find_congr_of_mem
      intro l hl
      rw [Bool.eq_iff_iff, decide_eq_true_iff, decide_eq_true_iff]
      constructor
      · exact fun h => (honly l hl h.1).1
      · intro h
        have ht : soname <:+: l.text := h.trans (pathname_in_text l)
        obtain ⟨_, hhead, hp, hd, hi⟩ := honly l hl ht
        refine ⟨ht, ?_⟩
        rw [← body_from_slash l (hwf l hl) hhead hp hd hi] at hhead
        cases hd2 : l.body.dropWhile (fun c => decide (c ≠ '/')) with
        | nil => rw [hd2] at hhead; cases hhead
        | cons c cs =>
          have hmem : c ∈ l.body.dropWhile (fun c => decide (c ≠ '/')) := by
            rw [hd2]
            exact List.mem_cons_self _ _
          rw [hd2] at hhead
          simp only [List.head?_cons, Option.some.injEq] at hhead
          subst hhead
          exact (List.dropWhile_suffix _).subset hmem
    rw [hcongr]
    cases hf : lines.find? (fun l => decide (soname <:+: l.pathname)) with
    | none => rfl
    | some l =>
      have hl := List.mem_of_find?_eq_some hf
      have hp0 := List.find?_some hf
      have hp : soname <:+: l.pathname := of_decide_eq_true hp0
      obtain ⟨_, hhead, hpm, hd, hi⟩ := honly l hl (hp.trans (pathname_in_text l))
      simp only [Option.map_some']
      rw [body_from_slash l (hwf l hl) hhead hpm hd hi]
  · intro l hwf hhead hp hd hi
    exact body_from_slash l hwf hhead hp hd hi

/-- C12 witness: a map with an anonymous mapping, the stack and /x/lib.so. The lookup of
"lib.so" returns "/x/lib.so"; the lookup of "stack" returns NULL, because the line that
contains "stack" has no '/'. -/
theorem find_path_from_maps_first_line_witness :
    find_path_from_maps (maps_world stack_maps) "lib.so".toList = some "/x/lib.so".toList
    ∧ find_path_from_maps (maps_world stack_maps) "stack".toList = none :=
  ⟨((find_path_from_maps_first_line (maps_world stack_maps) stack_maps "lib.so".toList
      rfl).2.1 stack_lines (by decide!) (by decide!) (by decide!) (fun _ => rfl)).1.trans
      (by decide!),
    ((find_path_from_maps_first_line (maps_world stack_maps) stack_maps "stack".toList
      rfl).2.1 stack_lines (by decide!) (by decide!) (by decide!) (fun _ => rfl)).1.trans
      (by decide!)⟩

/-- C12 counterexample: the map holds one record, with permissions "r-xp" and pathname
/x/lib.so. Asked for the module name "r-xp", which no pathname contains,
`find_path_from_maps` returns "/x/lib.so" and not NULL: it looks for the name in the whole
line. -/
theorem find_path_from_maps_whole_line_cex :
    [example_line].find? (fun l => decide ("r-xp".toList <:+: l.pathname)) = none
    ∧ find_path_from_maps (maps_world ([example_line].flatMap MapLine.text)) "r-xp".toList
        = some "/x/lib.so".toList := by
  decide!

/-! ### The symbol lookup -/

theorem foldl_range_succ (file : FileImage) (n : Nat) (init : SectionScan) :
    (List.range (n + 1)).foldl (shdr_step file) init
      = shdr_step file ((List.range n).foldl (shdr_step file) init) n := by
  rw [List.range_succ, List.foldl_append]
  rfl

/-- The section loop leaves in `symtab` and `strtab` the last section named ".symtab" and the
last section named ".strtab". -/
theorem scan_sections_fold (file : FileImage) (n : Nat) :
    (List.range n).foldl (shdr_step file) { symtab := none, strtab := none }
      = { symtab := last_entry (fun i => decide (section_name file i = ".symtab".toList)) n,
          strtab := last_entry (fun i => decide (section_name file i = ".strtab".toList)) n } := by
  induction n with
  | zero => rfl
  | succ n ih =>
    rw [foldl_range_succ, ih]
    unfold shdr_step
    simp only [last_entry]
    have hne : ¬ ".symtab".toList = ".strtab".toList := by decide
    by_cases h1 : section_name file n = ".symtab".toList
    · have h2 : ¬ section_name file n = ".strtab".toList := fun h => hne (h1.symm.trans h)
      have hd1 : decide (section_name file n = ".symtab".toList) = true := decide_eq_true h1
      have hd2 : decide (section_name file n = ".strtab".toList) = false := decide_eq_false h2
      rw [if_pos h1]
      simp only [hd1, hd2, if_true, Bool.false_eq_true, if_false]
    · have hd1 : decide (section_name file n = ".symtab".toList) = false := decide_eq_false h1
      rw [if_neg h1]
      by_cases h2 : section_name file n = ".strtab".toList
      · have hd2 : decide (section_name file n = ".strtab".toList) = true := decide_eq_true h2
        rw [if_pos h2]
        simp only [hd1, hd2, if_true, Bool.false_eq_true, if_false]
      · have hd2 : decide (section_name file n = ".strtab".toList) = false :=
          decide_eq_false h2
        rw [if_neg h2]
        simp only [hd1, hd2, Bool.false_eq_true, if_false]

theorem scan_sections_eq (file : FileImage) :
    scan_sections file
      = { symtab := last_entry (fun i => decide (section_name file i = ".symtab".toList))
            (e_shnum file),
          strtab := last_entry (fun i => decide (section_name file i = ".strtab".toList))
            (e_shnum file) } :=
  scan_sections_fold file (e_shnum file)

/-- The symbol loop returns the value of the first listed symbol whose name contains
`symbol_name`. -/
theorem symbol_loop_eq (file : FileImage) (symtab strtab : Nat) (symbol_name : List Char)
    (idx : List Nat) :
    symbol_loop file symtab strtab symbol_name idx
      = (idx.find? (fun i => decide (symbol_name <:+: symbol_name_at file symtab strtab i))).map
          (st_value file symtab) := by
  induction idx with
  | nil => rfl
  | cons i rest ih =>
    unfold symbol_loop
    rw [List.find?_cons]
    by_cases h : symbol_name <:+: symbol_name_at file symtab strtab i
    · rw [if_pos ((strstr_isSome_iff _ _).2 h), decide_eq_true h]
      rfl
    · rw [if_neg (fun hs => h ((strstr_isSome_iff _ _).1 hs)), decide_eq_false h]
      exact ih

theorem sym_count_small (file : FileImage) (symtab : Nat)
    (h : sh_size file symtab / 24 < 2 ^ 31) :
    (sym_count file symtab).toNat = sh_size file symtab / 24 := by
  unfold sym_count to_int
  have hmod : sh_size file symtab / 24 % 2 ^ 32 = sh_size file symtab / 24 :=
    Nat.mod_eq_of_lt (by omega)
  rw [hmod, if_pos h]
  rfl

/-- The value, the events and the reads of `get_symbol_offset` once the file is opened and
mapped. -/
theorem get_symbol_offset_mapped (w : World) (file_path symbol_name : List Char)
    (file : FileImage) (hopen : w.open_file file_path = some file)
    (hmap : ¬ (file.size = 0 ∨ w.mmap_ok file_path = false)) :
    get_symbol_offset w file_path symbol_name
      = { offset :=
            match last_entry (fun i => decide (section_name file i = ".symtab".toList))
                (e_shnum file),
              last_entry (fun i => decide (section_name file i = ".strtab".toList))
                (e_shnum file) with
            | some symtab, some strtab =>
              match (List.range (sym_count file symtab).toNat).find?
                  (fun i => decide (symbol_name <:+: symbol_name_at file symtab strtab i)) with
              | some i => st_value file symtab i
              | none => 0
            | _, _ => 0,
          events := lookup_events file_path,
          in_file :=
            match last_entry (fun i => decide (section_name file i = ".symtab".toList))
                (e_shnum file),
              last_entry (fun i => decide (section_name file i = ".strtab".toList))
                (e_shnum file) with
            | some symtab, some strtab =>
              sections_in_file file
                && symbols_in_file file symtab strtab symbol_name
                    (List.range (sym_count file symtab).toNat)
            | _, _ => sections_in_file file } := by
  unfold get_symbol_offset
  rw [hopen]
  simp only []
  rw [if_neg hmap, scan_sections_eq]
  simp only []
  cases h1 : last_entry (fun i => decide (section_name file i = ".symtab".toList))
      (e_shnum file) with
  | none => rfl
  | some symtab =>
    cases h2 : last_entry (fun i => decide (section_name file i = ".strtab".toList))
        (e_shnum file) with
    | none => rfl
    | some strtab =>
      simp only []
      rw [symbol_loop_eq]
      cases (List.range (sym_count file symtab).toNat).find?
          (fun i => decide (symbol_name <:+: symbol_name_at file symtab strtab i)) with
      | none => rfl
      | some i => rfl

/-- C14 (amended): for every file that opens and maps, has a section named ".symtab" and a
section named ".strtab" (the last of each name is used), holds fewer than 2^31 symbols (the
count `sh_size / sizeof(Elf64_Sym)` is kept in an `int`) and has every header, symbol and name
that the lookup reads inside the file, `get_symbol_offset` returns the `st_value` of the first
symbol, in symbol-table order, whose name contains `symbol_name` as a substring, and 0 when no
symbol matches. It returns 0 when the file cannot be opened and when either section is
absent. In the sample file the symbol "start" is genuinely at offset 0 and the symbol
"missing" does not exist: both lookups return 0. -/
theorem get_symbol_offset_first_match (w : World) (file_path symbol_name : List Char)
    (file : FileImage) (symtab strtab : Nat)
    (hopen : w.open_file file_path = some file)
    (hmap : file.size ≠ 0 ∧ w.mmap_ok file_path = true)
    (hsec : sections_in_file file = true)
    (hsym : last_entry (fun i => decide (section_name file i = ".symtab".toList))
      (e_shnum file) = some symtab)
    (hstr : last_entry (fun i => decide (section_name file i = ".strtab".toList))
      (e_shnum file) = some strtab)
    (hcount : sh_size file symtab / 24 < 2 ^ 31)
    (hsyms : symbols_in_file file symtab strtab symbol_name
      (List.range (sh_size file symtab / 24)) = true) :
    ((get_symbol_offset w file_path symbol_name).offset
        = match (List.range (sh_size file symtab / 24)).find?
              (fun i => decide (symbol_name <:+: symbol_name_at file symtab strtab i)) with
          | some i => st_value file symtab i
          | none => 0)
    ∧ (get_symbol_offset w file_path symbol_name).in_file = true
    ∧ (∀ (w2 : World) (path2 : List Char), w2.open_file path2 = none →
        (get_symbol_offset w2 path2 symbol_name).offset = 0)
    ∧ (∀ (w2 : World) (path2 : List Char) (file2 : FileImage),
        w2.open_file path2 = some file2 → sections_in_file file2 = true →
        (last_entry (fun i => decide (section_name file2 i = ".symtab".toList))
            (e_shnum file2) = none
          ∨ last_entry (fun i => decide (section_name file2 i = ".strtab".toList))
            (e_shnum file2) = none) →
        (get_symbol_offset w2 path2 symbol_name).offset = 0
          ∧ (get_symbol_offset w2 path2 symbol_name).in_file = true)
    ∧ ((get_symbol_offset symbols_world "/x/libsym.so".toList "start".toList).offset = 0
        ∧ (List.range 4).find?
            (fun i => decide ("start".toList <:+: symbol_name_at symbols_elf 1 2 i)) = some 1
        ∧ st_value symbols_elf 1 1 = 0
        ∧ (get_symbol_offset symbols_world "/x/libsym.so".toList "missing".toList).offset = 0
        ∧ (List.range 4).find?
            (fun i => decide ("missing".toList <:+: symbol_name_at symbols_elf 1 2 i))
            = none) := by
  have hmap2 : ¬ (file.size = 0 ∨ w.mmap_ok file_path = false) := by
    intro h
    rcases h with h | h
    · exact hmap.1 h
    · rw [hmap.2] at h
      cases h
  refine ⟨?_, ?_, ?_, ?_, ?_⟩
  · rw [get_symbol_offset_mapped w file_path symbol_name file hopen hmap2]
    simp only [hsym, hstr, sym_count_small file symtab hcount]
  · rw [get_symbol_offset_mapped w file_path symbol_name file hopen hmap2]
    simp only [hsym, hstr, sym_count_small file symtab hcount, hsec, hsyms, Bool.and_self]
  · intro w2 path2 h2
    unfold get_symbol_offset
    rw [h2]
  · intro w2 path2 file2 h2 hsec2 hnone
    by_cases hm : file2.size = 0 ∨ w2.mmap_ok path2 = false
    · unfold get_symbol_offset
      rw [h2]
      simp only []
      rw [if_pos hm]
      exact ⟨rfl, rfl⟩
    · rw [get_symbol_offset_mapped w2 path2 symbol_name file2 h2 hm]
      simp only []
      rcases hnone with h | h
      · rw [h]
        exact ⟨rfl, hsec2⟩
      · rw [h]
        cases last_entry (fun i => decide (section_name file2 i = ".symtab".toList))
            (e_shnum file2) with
        | none => exact ⟨rfl, hsec2⟩
        | some s => exact ⟨rfl, hsec2⟩
  · decide!

theorem symbols_open :
    symbols_world.open_file "/x/libsym.so".toList = some symbols_elf := by
  show (if "/x/libsym.so".toList = "/x/libsym.so".toList then some symbols_elf
    else if "/x/libsym.so".toList = "/x/lib.so".toList then some sample_elf else none)
    = some symbols_elf
  exact if_pos rfl

/-- C14 witness: in the sample file the lookup of "open" returns the value of "fopen", the
first symbol whose name contains "open". -/
theorem get_symbol_offset_first_match_witness :
    (get_symbol_offset symbols_world "/x/libsym.so".toList "open".toList).offset = 0x1230 :=
  (get_symbol_offset_first_match symbols_world "/x/libsym.so".toList "open".toList
    symbols_elf 1 2 symbols_open (by decide!) (by decide!) (by decide!) (by decide!)
    (by decide!) (by decide!)).1.trans (by decide!)

/-- C14 counterexample: the file /x/libhuge.so has both sections and a symbol table of 2^31
entries, everything the lookup would read lies inside the file, and its third symbol, "fopen"
with value 0x1230, is the first whose name contains "open". The count does not fit an `int`,
the loop does not run, and the lookup of "open" returns 0 after mapping the file. -/
theorem get_symbol_offset_huge_table_cex :
    last_entry (fun i => decide (section_name huge_symbols_elf i = ".symtab".toList))
        (e_shnum huge_symbols_elf) = some 1
    ∧ last_entry (fun i => decide (section_name huge_symbols_elf i = ".strtab".toList))
        (e_shnum huge_symbols_elf) = some 2
    ∧ sh_size huge_symbols_elf 1 / 24 = 2 ^ 31
    ∧ sections_in_file huge_symbols_elf = true
    ∧ symbols_in_file huge_symbols_elf 1 2 "open".toList (List.range 3) = true
    ∧ (List.range 3).find?
        (fun i => decide ("open".toList <:+: symbol_name_at huge_symbols_elf 1 2 i)) = some 2
    ∧ st_value huge_symbols_elf 1 2 = 0x1230
    ∧ get_symbol_offset huge_symbols_world "/x/libhuge.so".toList "open".toList
        = { offset := 0, events := lookup_events "/x/libhuge.so".toList, in_file := true } := by
  refine ⟨by decide!, by decide!, by decide!, by decide!, by decide!, by decide!, by decide!,
    by decide!⟩

/-! ### Descriptors and mappings -/

theorem released_nil : open_descriptors [] = 0 ∧ live_mappings [] = 0 := by
  constructor <;> rfl

theorem released_open_close (path : List Char) :
    open_descriptors [SysEvent.open_fd path, SysEvent.close_fd] = 0
      ∧ live_mappings [SysEvent.open_fd path, SysEvent.close_fd] = 0 := by
  constructor <;> simp [open_descriptors, live_mappings, is_open_event, List.count_cons]

theorem released_mapped (path : List Char) :
    open_descriptors (mapped_events path) = 0 ∧ live_mappings (mapped_events path) = 0
      ∧ (mapped_events path).count SysEvent.munmap_file = 1
      ∧ (mapped_events path).count SysEvent.close_fd = 1 := by
  refine ⟨?_, ?_, ?_, ?_⟩ <;>
    simp [open_descriptors, live_mappings, is_open_event, mapped_events, List.count_cons]

theorem released_lookup (path : List Char) :
    open_descriptors (lookup_events path) = 0 ∧ live_mappings (lookup_events path) = 0
      ∧ (lookup_events path).count SysEvent.munmap_file = 1
      ∧ (lookup_events path).count SysEvent.close_fd = 1 := by
  refine ⟨?_, ?_, ?_, ?_⟩ <;>
    simp [open_descriptors, live_mappings, is_open_event, lookup_events, List.count_cons]

/-- Every call of `check_lib_integrity` ends with no descriptor open and no mapping live. -/
theorem lib_events_released (w : World) (soname : List Char) :
    open_descriptors (lib_events w soname) = 0 ∧ live_mappings (lib_events w soname) = 0 := by
  unfold lib_events
  simp only []
  split
  · exact released_nil
  · split
    · exact released_nil
    · split
      · exact released_open_close _
      · exact ⟨(released_mapped _).1, (released_mapped _).2.1⟩

/-- The events of `get_symbol_offset`, path by path. -/
theorem get_symbol_offset_events (w : World) (file_path symbol_name : List Char) :
    (get_symbol_offset w file_path symbol_name).events
      = match w.open_file file_path with
        | none => []
        | some file =>
          if file.size = 0 ∨ w.mmap_ok file_path = false then
            [SysEvent.open_fd file_path, SysEvent.close_fd]
          else lookup_events file_path := by
  cases hopen : w.open_file file_path with
  | none =>
    unfold get_symbol_offset
    rw [hopen]
  | some file =>
    simp only []
    by_cases hm : file.size = 0 ∨ w.mmap_ok file_path = false
    · unfold get_symbol_offset
      rw [hopen]
      simp only []
      rw [if_pos hm, if_pos hm]
    · rw [get_symbol_offset_mapped w file_path symbol_name file hopen hm, if_neg hm]

theorem get_symbol_offset_released (w : World) (file_path symbol_name : List Char) :
    open_descriptors (get_symbol_offset w file_path symbol_name).events = 0
      ∧ live_mappings (get_symbol_offset w file_path symbol_name).events = 0 := by
  rw [get_symbol_offset_events]
  cases w.open_file file_path with
  | none => exact released_nil
  | some file =>
    simp only []
    split
    · exact released_open_close _
    · exact ⟨(released_lookup _).1, (released_lookup _).2.1⟩

/-- C15: when the file of the module is opened and mapped, every exit of
`check_lib_integrity` (the ELF-magic mismatch, the missing executable segment, and the
verdicts 0 and 1) has the events open, mmap, close, munmap, and every exit of
`get_symbol_offset` (the missing symbol table, a match, no match) has the events open, mmap,
munmap, close: the mapping is unmapped exactly once and the descriptor is closed exactly once.
On every path of both functions, also when the open or the mapping failed, no descriptor is
left open and no mapping is left live. -/
theorem mapping_released_on_every_exit (w : World) (g : CrcGlobals)
    (soname file_path symbol_name : List Char) (file elf : FileImage)
    (hfound : ¬ ((find_info_from_maps w soname "x".toList).start = 0
      ∧ (find_info_from_maps w soname "x".toList).size = 0))
    (hopen : w.open_file (find_info_from_maps w soname "x".toList).pathname = some file)
    (hmap : file.size ≠ 0
      ∧ w.mmap_ok (find_info_from_maps w soname "x".toList).pathname = true)
    (hopen2 : w.open_file file_path = some elf)
    (hmap2 : elf.size ≠ 0 ∧ w.mmap_ok file_path = true) :
    ((check_lib_integrity w g soname).events
        = [SysEvent.open_fd (find_info_from_maps w soname "x".toList).pathname,
            SysEvent.mmap_file, SysEvent.close_fd, SysEvent.munmap_file]
      ∧ (check_lib_integrity w g soname).events.count SysEvent.munmap_file = 1
      ∧ (check_lib_integrity w g soname).events.count SysEvent.close_fd = 1)
    ∧ ((get_symbol_offset w file_path symbol_name).events
        = [SysEvent.open_fd file_path, SysEvent.mmap_file, SysEvent.munmap_file,
            SysEvent.close_fd]
      ∧ (get_symbol_offset w file_path symbol_name).events.count SysEvent.munmap_file = 1
      ∧ (get_symbol_offset w file_path symbol_name).events.count SysEvent.close_fd = 1)
    ∧ (e_ident_magic file ≠ ELFMAG → (check_lib_integrity w g soname).ret = -1)
    ∧ (e_ident_magic file = ELFMAG →
        (scan_phdrs file (find_info_from_maps w soname "x".toList)
          (find_info_from_maps w soname "rw".toList) g).1.found_exec = false →
        (check_lib_integrity w g soname).ret = -1)
    ∧ ((scan_sections elf).symtab = none ∨ (scan_sections elf).strtab = none →
        (get_symbol_offset w file_path symbol_name).offset = 0)
    ∧ (∀ (w2 : World) (g2 : CrcGlobals) (soname2 path2 symbol2 : List Char),
        open_descriptors (check_lib_integrity w2 g2 soname2).events = 0
        ∧ live_mappings (check_lib_integrity w2 g2 soname2).events = 0
        ∧ open_descriptors (get_symbol_offset w2 path2 symbol2).events = 0
        ∧ live_mappings (get_symbol_offset w2 path2 symbol2).events = 0)
    ∧ (∀ (w2 : World) (g2 : CrcGlobals) (soname2 path2 symbol2 : List Char),
        (w2.open_file (find_info_from_maps w2 soname2 "x".toList).pathname = none →
          (check_lib_integrity w2 g2 soname2).events = [])
        ∧ (w2.open_file path2 = none → (get_symbol_offset w2 path2 symbol2).events = [])
        ∧ (w2.mmap_ok path2 = false →
            (get_symbol_offset w2 path2 symbol2).events = []
            ∨ (get_symbol_offset w2 path2 symbol2).events
                = [SysEvent.open_fd path2, SysEvent.close_fd])
        ∧ (w2.mmap_ok (find_info_from_maps w2 soname2 "x".toList).pathname = false →
            (check_lib_integrity w2 g2 soname2).events = []
            ∨ (check_lib_integrity w2 g2 soname2).events
                = [SysEvent.open_fd (find_info_from_maps w2 soname2 "x".toList).pathname,
                    SysEvent.close_fd])) := by
  have hm1 : ¬ (file.size = 0
      ∨ w.mmap_ok (find_info_from_maps w soname "x".toList).pathname = false) := by
    rintro (h | h)
    · exact hmap.1 h
    · rw [hmap.2] at h
      cases h
  have hm2 : ¬ (elf.size = 0 ∨ w.mmap_ok file_path = false) := by
    rintro (h | h)
    · exact hmap2.1 h
    · rw [hmap2.2] at h
      cases h
  have hev1 : (check_lib_integrity w g soname).events
      = mapped_events (find_info_from_maps w soname "x".toList).pathname := by
    rw [check_lib_integrity_events]
    unfold lib_events
    simp only []
    rw [if_neg hfound, hopen]
    simp only []
    rw [if_neg hm1]
  have hev2 : (get_symbol_offset w file_path symbol_name).events = lookup_events file_path := by
    rw [get_symbol_offset_mapped w file_path symbol_name elf hopen2 hm2]
  refine ⟨⟨hev1, ?_, ?_⟩, ⟨hev2, ?_, ?_⟩, ?_, ?_, ?_, ?_, ?_⟩
  · rw [hev1]
    exact (released_mapped _).2.2.1
  · rw [hev1]
    exact (released_mapped _).2.2.2
  · rw [hev2]
    exact (released_lookup _).2.2.1
  · rw [hev2]
    exact (released_lookup _).2.2.2
  · intro hmagic
    unfold check_lib_integrity
    simp only []
    rw [if_neg hfound, hopen]
    simp only []
    rw [if_neg hm1, if_pos hmagic]
  · intro hmagic hseg
    rw [check_lib_integrity_mapped w g soname file hfound hopen hm1 hmagic, if_pos hseg]
  · intro hnone
    unfold get_symbol_offset
    rw [hopen2]
    simp only []
    rw [if_neg hm2]
    rcases hnone with h | h
    · rw [h]
    · rw [h]
      cases (scan_sections elf).symtab with
      | none => rfl
      | some s => rfl
  · intro w2 g2 soname2 path2 symbol2
    rw [check_lib_integrity_events]
    exact ⟨(lib_events_released w2 soname2).1, (lib_events_released w2 soname2).2,
      (get_symbol_offset_released w2 path2 symbol2).1,
      (get_symbol_offset_released w2 path2 symbol2).2⟩
  · intro w2 g2 soname2 path2 symbol2
    refine ⟨?_, ?_, ?_, ?_⟩
    · intro h
      rw [check_lib_integrity_events]
      unfold lib_events
      simp only []
      rw [h]
      simp
    · intro h
      rw [get_symbol_offset_events, h]
    · intro h
      rw [get_symbol_offset_events]
      cases w2.open_file path2 with
      | none => exact Or.inl rfl
      | some f =>
        simp only []
        rw [if_pos (Or.inr h)]
        exact Or.inr rfl
    · intro h
      rw [check_lib_integrity_events]
      unfold lib_events
      simp only []
      split
      · exact Or.inl rfl
      · split
        · exact Or.inl rfl
        · rw [if_pos (Or.inr h)]
          exact Or.inr rfl

theorem symbols_open_lib :
    symbols_world.open_file (find_info_from_maps symbols_world "lib.so".toList "x".toList).pathname
      = some sample_elf := by
  have h : (find_info_from_maps symbols_world "lib.so".toList "x".toList).pathname
      = "/x/lib.so".toList := by decide!
  rw [h]
  show (if "/x/lib.so".toList = "/x/libsym.so".toList then some symbols_elf
    else if "/x/lib.so".toList = "/x/lib.so".toList then some sample_elf else none)
    = some sample_elf
  rw [if_neg (by decide!), if_pos rfl]

/-- C15 witness: the sample process verifies /x/lib.so and looks "open" up in
/x/libsym.so. -/
theorem mapping_released_on_every_exit_witness :
    (check_lib_integrity symbols_world crc32_globals_init "lib.so".toList).events
        = [SysEvent.open_fd "/x/lib.so".toList, SysEvent.mmap_file, SysEvent.close_fd,
            SysEvent.munmap_file]
    ∧ (get_symbol_offset symbols_world "/x/libsym.so".toList "open".toList).events
        = [SysEvent.open_fd "/x/libsym.so".toList, SysEvent.mmap_file, SysEvent.munmap_file,
            SysEvent.close_fd] :=
  have h := mapping_released_on_every_exit symbols_world crc32_globals_init "lib.so".toList
    "/x/libsym.so".toList "open".toList sample_elf symbols_elf (by decide!)
    symbols_open_lib (by decide!) symbols_open (by decide!)
  ⟨h.1.1.trans (by decide!), h.2.1.1⟩
